import Mathlib

/-!
# Execution-graph engine of `hipamd` (`hip_graph_internal.cpp`)

A shallow embedding of the graph container (`hip::Graph`), its scheduling
analyses (`TopologicalOrder`, `GetRunList`), `clone`, root/leaf enumeration and
the replay entry point `GraphExec::Run`, the instantiation (`Init`,
`CreateStreams`, `CaptureAQLPackets`) and the parameter validation of the memcpy
nodes (`GraphMemcpyNode1D::ValidateParams`, `GraphMemcpyNode::ValidateParams`),
followed by theorems about them.

Modelling conventions
* a `Node` (`GraphNode*`) is an address, `0` being `nullptr`;
* the objects behind the pointers live in a heap `Node → GraphNode`;
* `std::unordered_map<Node, T>` read through `operator[]` is a total function
  with the value-initialised default (`0`, `false`); where the set of keys is
  observable the map is a function into `Option`;
* loops whose trip count is not bounded by a list carry a fuel argument and
  return `none` when it runs out;
* `int` and `size_t` loop counters are unbounded integers: the vectors involved
  would need 2^31 entries before a counter could wrap; the `size_t` sums of the
  instantiation and the conversion to the `uint32_t` stream count are computed
  modulo `2 ^ 64` and `2 ^ 32`;
* what `Run` and the instantiation do to the outside (streams, commands,
  markers, allocations) is recorded as a trace of events, and what they call
  without defining it is an oracle of an environment;
* the memcpy validation returns `none` where the code would dereference a null
  `amd::Memory*`, and the calls of `getMemoryObject` are numbered in program
  order, so that an address resolution that changes between calls is
  expressible.
-/

namespace hip

/-- A node handle `hip::GraphNode*`; `0` stands for `nullptr`. -/
abbrev Node := Nat

/-- The node kinds of `hipGraphNodeType` that `GetGraphNodeTypeString` names. -/
inductive hipGraphNodeType where
  | Kernel | Memcpy | Memset | Host | Graph | Empty | WaitEvent | EventRecord
  | ExtSemaphoreSignal | ExtSemaphoreWait | MemAlloc | MemFree
  | MemcpyFromSymbol | MemcpyToSymbol
  deriving DecidableEq, Repr

/-- Modelled from the spec: the class `GraphNode` is declared in
`hip_graph_internal.hpp`, which is not part of the sources at hand. The fields
are those the spec's data model lists and the functions of
`hip_graph_internal.cpp` read: the type tag, the ordered list of dependents
(outgoing edges), the ordered list of dependencies (incoming edges), the owning
graph, and the "active" flag of a memory-allocation node. -/
structure GraphNode where
  type_ : hipGraphNodeType
  edges_ : List Node
  dependencies_ : List Node
  parentGraph_ : Nat
  isActiveMem_ : Bool
  deriving DecidableEq, Repr

/-- The node objects, by address. -/
abbrev NodeHeap := Node → GraphNode

/-- Modelled from the spec: `GetInDegree` is the size of the dependency list. -/
def GraphNode.GetInDegree (n : GraphNode) : Nat := n.dependencies_.length

/-- Modelled from the spec: `GetOutDegree` is the size of the edge list. -/
def GraphNode.GetOutDegree (n : GraphNode) : Nat := n.edges_.length

/-- The part of `hip::Graph` the analyses read: the vertex sequence. -/
structure Graph where
  vertices_ : List Node
  deriving DecidableEq, Repr

/-- `Graph::GetNodeCount` (header): the length of the vertex sequence. -/
def Graph.GetNodeCount (g : Graph) : Nat := g.vertices_.length

/-! ## `Graph::GetRootNodes`, `Graph::GetLeafNodes`, `Graph::GetLeafNodeCount` -/

/-- `Graph::GetRootNodes`: the loop pushes every entry whose in-degree is 0. -/
def Graph.GetRootNodes (h : NodeHeap) (g : Graph) : List Node :=
  g.vertices_.foldl
    (fun roots entry => if (h entry).GetInDegree = 0 then roots ++ [entry] else roots) []

/-- `Graph::GetLeafNodes`: the loop pushes every entry whose out-degree is 0. -/
def Graph.GetLeafNodes (h : NodeHeap) (g : Graph) : List Node :=
  g.vertices_.foldl
    (fun leafNodes entry =>
      if (h entry).GetOutDegree = 0 then leafNodes ++ [entry] else leafNodes) []

/-- `Graph::GetLeafNodeCount`: the loop counts the entries whose out-degree is 0. -/
def Graph.GetLeafNodeCount (h : NodeHeap) (g : Graph) : Nat :=
  g.vertices_.foldl
    (fun numLeafNodes entry =>
      if (h entry).GetOutDegree = 0 then numLeafNodes + 1 else numLeafNodes) 0

/-! ## `Graph::TopologicalOrder` -/

/-- The locals of `Graph::TopologicalOrder`: the queue `q`, the map `inDegree`
and the output vector. -/
structure TopoState where
  q : List Node
  inDegree : Node → Int
  TopoOrder : List Node

/-- The first loop of `TopologicalOrder`: every entry with in-degree 0 is
queued, and `inDegree[entry]` is set to the entry's in-degree. -/
def topoInit (h : NodeHeap) : List Node → TopoState → TopoState
  | [], s => s
  | entry :: rest, s =>
    topoInit h rest
      { q := if (h entry).GetInDegree = 0 then s.q ++ [entry] else s.q
        inDegree := Function.update s.inDegree entry ((h entry).GetInDegree : Int)
        TopoOrder := s.TopoOrder }

/-- The inner loop over `node->GetEdges()`: `inDegree[edge]--`, and the edge is
queued when the counter is 0 afterwards. -/
def topoRelax : List Node → (Node → Int) → List Node → (Node → Int) × List Node
  | [], inDegree, q => (inDegree, q)
  | edge :: rest, inDegree, q =>
    let inDegree1 := Function.update inDegree edge (inDegree edge - 1)
    topoRelax rest inDegree1 (if inDegree1 edge = 0 then q ++ [edge] else q)

/-- One iteration of `while (!q.empty())` on the queue `node :: q`. -/
def topoStep (h : NodeHeap) (node : Node) (q : List Node) (s : TopoState) : TopoState :=
  let r := topoRelax (h node).edges_ s.inDegree q
  { q := r.2, inDegree := r.1, TopoOrder := s.TopoOrder ++ [node] }

/-- The `while (!q.empty())` loop; `none` when the fuel runs out. -/
def topoLoop (h : NodeHeap) : Nat → TopoState → Option TopoState
  | 0, _ => none
  | fuel + 1, s =>
    match s.q with
    | [] => some s
    | node :: q => topoLoop h fuel (topoStep h node q s)

/-- `Graph::TopologicalOrder(TopoOrder)`: the returned flag and the final
content of the output vector. -/
def Graph.TopologicalOrder (h : NodeHeap) (g : Graph) (TopoOrder : List Node) (fuel : Nat) :
    Option (Bool × List Node) :=
  match topoLoop h fuel (topoInit h g.vertices_ ⟨[], fun _ => 0, TopoOrder⟩) with
  | none => none
  | some s => some (decide (g.GetNodeCount = s.TopoOrder.length), s.TopoOrder)

/-! ## Vocabulary of the graph properties -/

/-- `u → v` is an edge of the graph: both are vertices and `v` is in `u`'s
edge list. -/
def Graph.Edge (h : NodeHeap) (g : Graph) (u v : Node) : Prop :=
  u ∈ g.vertices_ ∧ v ∈ g.vertices_ ∧ v ∈ (h u).edges_

/-- The graph has no directed cycle: no vertex reaches itself along one or
more edges. -/
def Graph.Acyclic (h : NodeHeap) (g : Graph) : Prop :=
  ∀ v, ¬ Relation.TransGen (g.Edge h) v v

/-- Edge lists and dependency lists are mutually consistent: for vertices `u`
and `v`, `v` is in `u`'s edges exactly as often as `u` is in `v`'s
dependencies. -/
def Graph.Consistent (h : NodeHeap) (g : Graph) : Prop :=
  ∀ u ∈ g.vertices_, ∀ v ∈ g.vertices_,
    (h u).edges_.count v = (h v).dependencies_.count u

/-- Every entry of a vertex's edge list is a vertex of the graph. -/
def Graph.EdgesInside (h : NodeHeap) (g : Graph) : Prop :=
  ∀ u ∈ g.vertices_, ∀ v ∈ (h u).edges_, v ∈ g.vertices_

/-- Every entry of a vertex's dependency list is a vertex of the graph. -/
def Graph.DependenciesInside (h : NodeHeap) (g : Graph) : Prop :=
  ∀ v ∈ g.vertices_, ∀ u ∈ (h v).dependencies_, u ∈ g.vertices_

/-- The loop invariant of `TopologicalOrder` at the head of the `while`. -/
structure TopoInv (h : NodeHeap) (V : List Node) (s : TopoState) : Prop where
  sub : ∀ x ∈ s.TopoOrder ++ s.q, x ∈ V
  nodup : (s.TopoOrder ++ s.q).Nodup
  deg_le : ∀ v, s.inDegree v ≤ 0 ↔ (v ∉ V ∨ v ∈ s.TopoOrder ++ s.q)
  deg_eq : ∀ v ∈ V, s.inDegree v =
    ((h v).dependencies_.length : Int) -
      (((s.TopoOrder.map (fun u => (h u).edges_.count v)).sum : Nat) : Int)

/-- In the emitted order every dependency of an emitted node comes earlier. -/
def TopoOrdered (h : NodeHeap) (s : TopoState) : Prop :=
  ∀ v ∈ s.TopoOrder, ∀ u ∈ (h v).dependencies_,
    u ∈ s.TopoOrder ∧ s.TopoOrder.indexOf u < s.TopoOrder.indexOf v

/-! ## Concrete graphs -/

/-- A plain node (type `Empty`) with the given edge and dependency lists. -/
def mkNode (edges dependencies : List Node) : GraphNode :=
  { type_ := hipGraphNodeType.Empty, edges_ := edges, dependencies_ := dependencies,
    parentGraph_ := 0, isActiveMem_ := false }

/-- The diamond `A -> B`, `A -> C`, `B -> D`, `C -> D` with `A = 1`, `B = 2`,
`C = 3`, `D = 4`; `A`'s edge list is `B` then `C`. -/
def diamondHeap : NodeHeap := fun n =>
  if n = 1 then mkNode [2, 3] []
  else if n = 2 then mkNode [4] [1]
  else if n = 3 then mkNode [4] [1]
  else if n = 4 then mkNode [] [2, 3]
  else mkNode [] []

/-- The diamond's vertices in insertion order `A, B, C, D`. -/
def diamondGraph : Graph := { vertices_ := [1, 2, 3, 4] }

/-- A graph whose only vertex `2` depends on the foreign node `1`: node `1` is
not a vertex, its edge list holds `2`, and `2`'s dependency list holds `1`. -/
def foreignDepHeap : NodeHeap := fun n =>
  if n = 1 then mkNode [2] []
  else if n = 2 then mkNode [] [1]
  else mkNode [] []

/-- The one-vertex graph over `foreignDepHeap`. -/
def foreignDepGraph : Graph := { vertices_ := [2] }

/-- The two-cycle `1 -> 2 -> 1`. -/
def twoCycleHeap : NodeHeap := fun n =>
  if n = 1 then mkNode [2] [2]
  else if n = 2 then mkNode [1] [1]
  else mkNode [] []

/-- The two-cycle's vertices. -/
def twoCycleGraph : Graph := { vertices_ := [1, 2] }

/-! ## `Graph::GetRunList` -/

/-- A `std::unordered_map<Node, std::vector<Node>>`: `none` for an absent key. -/
abbrev DepMap := Node → Option (List Node)

/-- The mutable arguments of `Graph::GetRunListUtil`. -/
structure RunState where
  visited : Node → Bool
  singleList : List Node
  parallelLists : List (List Node)
  dependencies : DepMap

/-- `dependencies[k].push_back(v)`: an absent key starts from the empty vector. -/
def pushDependency (dependencies : DepMap) (k v : Node) : DepMap :=
  Function.update dependencies k (some ((dependencies k).getD [] ++ [v]))

/-- The loop `for (auto& list : parallelLists)` of `GetRunListUtil`: a list whose
first element is `adjNode` gets `singleList` inserted in front (the reverse
iteration inserting at `begin()` keeps the order of `singleList`), and
`singleList` is erased; the loop then goes on with the remaining lists.
`list[0]` is read as `head?`: the lists are never empty when `GetRunList` starts
from empty outputs. -/
def mergeLists (adjNode : Node) : List (List Node) → List Node → List (List Node) × List Node
  | [], singleList => ([], singleList)
  | list :: rest, singleList =>
    if list.head? = some adjNode then
      let r := mergeLists adjNode rest []
      ((singleList ++ list) :: r.1, r.2)
    else
      let r := mergeLists adjNode rest singleList
      (list :: r.1, r.2)

/-- The loop `for (auto& adjNode : v->GetEdges())` of `GetRunListUtil`, with the
recursive call passed as `util`. -/
def runEdges (util : Node → RunState → Option RunState) (v : Node) :
    List Node → RunState → Option RunState
  | [], s => some s
  | adjNode :: rest, s =>
    if s.visited adjNode = false then
      let s1 : RunState :=
        if s.singleList = [] then
          { s with dependencies := pushDependency s.dependencies adjNode v }
        else s
      match util adjNode s1 with
      | none => none
      | some s2 => runEdges util v rest s2
    else
      let r := mergeLists adjNode s.parallelLists s.singleList
      let s1 : RunState := { s with parallelLists := r.1, singleList := r.2 }
      let s2 : RunState :=
        if s1.singleList ≠ [] then
          { s1 with dependencies := pushDependency s1.dependencies adjNode v }
        else s1
      runEdges util v rest s2

/-- `Graph::GetRunListUtil`; the fuel bounds the recursion depth. -/
def Graph.GetRunListUtil (h : NodeHeap) : Nat → Node → RunState → Option RunState
  | 0, _, _ => none
  | fuel + 1, v, s =>
    match runEdges (Graph.GetRunListUtil h fuel) v (h v).edges_
        { s with visited := Function.update s.visited v true
                 singleList := s.singleList ++ [v] } with
    | none => none
    | some s1 =>
      some (if s1.singleList ≠ [] then
              { s1 with parallelLists := s1.parallelLists ++ [s1.singleList]
                        singleList := [] }
            else s1)

/-- Modelled from the spec: the virtual `GraphNode::GetRunList` ("if the node has
embedded child graph") is declared in `hip_graph_internal.hpp`, which is not
part of the sources at hand. For a node that is not a sub-graph node it leaves
both outputs as they are; for a sub-graph node its effect is the parameter
`childRunList`. -/
def nodeGetRunList (childRunList : Node → List (List Node) × DepMap → List (List Node) × DepMap)
    (h : NodeHeap) (node : Node) (out : List (List Node) × DepMap) : List (List Node) × DepMap :=
  if (h node).type_ = hipGraphNodeType.Graph then childRunList node out else out

/-- The loop "call the recursive helper function for all vertices one by one"
of `Graph::GetRunList`. -/
def runListLoop (childRunList : Node → List (List Node) × DepMap → List (List Node) × DepMap)
    (h : NodeHeap) (fuel : Nat) : List Node → RunState → Option RunState
  | [], s => some s
  | node :: rest, s =>
    let out := nodeGetRunList childRunList h node (s.parallelLists, s.dependencies)
    let s1 : RunState := { s with parallelLists := out.1, dependencies := out.2 }
    if s1.visited node = false then
      match Graph.GetRunListUtil h fuel node s1 with
      | none => none
      | some s2 => runListLoop childRunList h fuel rest s2
    else runListLoop childRunList h fuel rest s1

/-- `Graph::GetRunList(parallelLists, dependencies)`: the final content of the
two output arguments. -/
def Graph.GetRunList (childRunList : Node → List (List Node) × DepMap → List (List Node) × DepMap)
    (h : NodeHeap) (g : Graph) (parallelLists : List (List Node)) (dependencies : DepMap)
    (fuel : Nat) : Option (List (List Node) × DepMap) :=
  match runListLoop childRunList h fuel g.vertices_
      { visited := fun _ => false, singleList := [], parallelLists := parallelLists,
        dependencies := dependencies } with
  | none => none
  | some s => some (s.parallelLists, s.dependencies)

/-- The graph `V -> X`, `V -> Y` with vertices inserted in the order `Y, V, X`
(`Y = 1`, `V = 2`, `X = 3`); `V`'s edge list is `X` then `Y`. -/
def forkHeap : NodeHeap := fun n =>
  if n = 1 then mkNode [] [2]
  else if n = 2 then mkNode [3, 1] []
  else if n = 3 then mkNode [] [2]
  else mkNode [] []

/-- The fork's vertices in insertion order `Y, V, X`. -/
def forkGraph : Graph := { vertices_ := [1, 2, 3] }

/-- `a` comes before `b` inside the list `l`. -/
def Precedes (l : List Node) (a b : Node) : Prop :=
  a ∈ l ∧ b ∈ l ∧ l.indexOf a < l.indexOf b

/-- One step of the schedule's ordering: `b` starts after `a` because `a`
precedes `b` in one parallel list, or because `a` is recorded in
`dependencies[b]`. -/
def WaitsFor (parallelLists : List (List Node)) (dependencies : DepMap) (a b : Node) : Prop :=
  (∃ l ∈ parallelLists, Precedes l a b) ∨ a ∈ (dependencies b).getD []

/-- The schedule honours `u -> v`: `u` is reached backwards from `v` through
recorded dependencies and same-list predecessors. -/
def Honoured (parallelLists : List (List Node)) (dependencies : DepMap) (u v : Node) : Prop :=
  Relation.TransGen (WaitsFor parallelLists dependencies) u v

/-- The invariant of `GetRunListUtil` over the vertex sequence `V`: the nodes
marked visited are exactly those in `singleList` and the parallel lists, each
once, all of them vertices, and no parallel list is empty. -/
structure RunInv (V : List Node) (s : RunState) : Prop where
  nodup : (s.singleList ++ s.parallelLists.flatten).Nodup
  mem : ∀ x, s.visited x = true ↔ x ∈ s.singleList ++ s.parallelLists.flatten
  nonempty : ∀ l ∈ s.parallelLists, l ≠ []
  sub : ∀ x, s.visited x = true → x ∈ V

/-- A graph with one vertex `1` whose edge list names the foreign node `2`. -/
def foreignEdgeHeap : NodeHeap := fun n =>
  if n = 1 then mkNode [2] [] else mkNode [] []

/-- The one-vertex graph over `foreignEdgeHeap`. -/
def foreignEdgeGraph : Graph := { vertices_ := [1] }

/-- What a call `util v s` of the recursive helper guarantees when the fuel
`bound` covers the vertices not yet visited. -/
def UtilSpec (V : List Node) (util : Node → RunState → Option RunState) (bound : Nat) : Prop :=
  ∀ v s, RunInv V s → s.visited v = false → v ∈ V →
    V.length ≤ bound + (s.singleList ++ s.parallelLists.flatten).length →
    ∃ s1, util v s = some s1 ∧ RunInv V s1 ∧ s1.singleList = [] ∧
      (∀ x, s.visited x = true → s1.visited x = true) ∧ s1.visited v = true

/-- The nodes of `c` form a simple chain: the edge list of every node holds
exactly its successor in `c`, and the edge list of the last node is empty. -/
def IsChain (h : NodeHeap) : List Node → Prop
  | [] => True
  | [a] => (h a).edges_ = []
  | a :: b :: rest => (h a).edges_ = [b] ∧ IsChain h (b :: rest)

/-- The state of `GetRunList` on a chain `c` between two top-level calls: the
visited nodes are a suffix `S` of the chain, which is the only parallel list,
and nothing is recorded in the dependency map. -/
def ChainState (c S : List Node) (s : RunState) : Prop :=
  ∃ A, c = A ++ S ∧ (∀ x ∈ A, s.visited x = false) ∧ (∀ x ∈ S, s.visited x = true) ∧
    s.singleList = [] ∧ s.parallelLists = (if S = [] then [] else [S]) ∧
    ∀ k, s.dependencies k = none

/-- The chain `A -> B -> C` with `A = 1`, `B = 2`, `C = 3`. -/
def chainHeap : NodeHeap := fun n =>
  if n = 1 then mkNode [2] []
  else if n = 2 then mkNode [3] [1]
  else if n = 3 then mkNode [] [2]
  else mkNode [] []

/-- The chain's vertices, inserted in the order `B, C, A`. -/
def chainGraph : Graph := { vertices_ := [2, 3, 1] }

/-! ## `Graph::clone`, `Graph::AddNode`, `Graph::RemoveNode` -/

/-- The memory the mutating operations work on: the node objects, the graph
objects (a `Graph*` is an address) and the global set `GraphNode::nodeSet_` of
live nodes. -/
structure Mem where
  node : NodeHeap
  graph : Nat → Graph
  nodeSet_ : Node → Bool

/-- A `std::unordered_map<Node, Node>`: `none` for an absent key. -/
abbrev NodeMap := Node → Option Node

/-- Modelled from the spec: `GraphNode::clone` (header) is a "deep copy
preserving type-specific payload but not edges (edges remapped by caller)": the
copy has the type and payload of the original, empty edge and dependency lists
and no parent graph yet. -/
def GraphNode.clone (n : GraphNode) : GraphNode :=
  { n with edges_ := [], dependencies_ := [], parentGraph_ := 0 }

/-- Modelled from the spec: `GraphNode::SetParentGraph` (header). -/
def GraphNode.SetParentGraph (n : GraphNode) (graph : Nat) : GraphNode :=
  { n with parentGraph_ := graph }

/-- Modelled from the spec: `GraphNode::SetEdges` (header), "used during
clone-remap", sets the edge list. -/
def GraphNode.SetEdges (n : GraphNode) (edges : List Node) : GraphNode :=
  { n with edges_ := edges }

/-- Modelled from the spec: `GraphNode::SetDependencies` (header), "used during
clone-remap", sets the dependency list. -/
def GraphNode.SetDependencies (n : GraphNode) (dependencies : List Node) : GraphNode :=
  { n with dependencies_ := dependencies }

/-- `node->SetEdges(edges)` on the memory. -/
def Mem.SetEdges (m : Mem) (node : Node) (edges : List Node) : Mem :=
  { m with node := Function.update m.node node ((m.node node).SetEdges edges) }

/-- `node->SetDependencies(dependencies)` on the memory. -/
def Mem.SetDependencies (m : Mem) (node : Node) (dependencies : List Node) : Mem :=
  { m with node := Function.update m.node node ((m.node node).SetDependencies dependencies) }

/-- `Graph::AddNode`: the node is appended to the vertex sequence and its
parent graph is set to this graph. -/
def Graph.AddNode (m : Mem) (this : Nat) (node : Node) : Mem :=
  { m with
    graph := Function.update m.graph this
      { vertices_ := (m.graph this).vertices_ ++ [node] }
    node := Function.update m.node node ((m.node node).SetParentGraph this) }

/-- `Graph::RemoveNode`: `std::remove` erases every occurrence of the node from
the vertex sequence, then the node is deleted. Modelled from the spec: the
destructor of `GraphNode` is in the header; the spec has the node destroyed and
taken out of the global set of live nodes, its former neighbours being left to
the caller. -/
def Graph.RemoveNode (m : Mem) (this : Nat) (node : Node) : Mem :=
  { m with
    graph := Function.update m.graph this
      { vertices_ := (m.graph this).vertices_.filter (fun x => decide (x ≠ node)) }
    nodeSet_ := Function.update m.nodeSet_ node false }

/-- `clonedNodes[k]` read through `operator[]`: an absent key is inserted with
the value `nullptr`. -/
def NodeMap.index (clonedNodes : NodeMap) (k : Node) : Node × NodeMap :=
  match clonedNodes k with
  | some v => (v, clonedNodes)
  | none => (0, Function.update clonedNodes k (some 0))

/-- The first loop of `Graph::clone`. Each `entry->clone()` allocates a node;
the addresses the allocator hands out are the list `fresh`, in order (`none`
when the list is used up). The copy gets the new graph as parent, is pushed to
the new graph's vertices and registered in `clonedNodes[entry]`; being a new
node it joins `nodeSet_`. -/
def cloneVertices (newGraph : Nat) :
    List Node → List Node → Mem → NodeMap → Option (Mem × NodeMap)
  | [], _, m, clonedNodes => some (m, clonedNodes)
  | _ :: _, [], _, _ => none
  | entry :: rest, node :: fresh, m, clonedNodes =>
    cloneVertices newGraph rest fresh
      { node := Function.update m.node node ((m.node entry).clone.SetParentGraph newGraph)
        graph := Function.update m.graph newGraph
          { vertices_ := (m.graph newGraph).vertices_ ++ [node] }
        nodeSet_ := Function.update m.nodeSet_ node true }
      (Function.update clonedNodes entry (some node))

/-- The inner loops `for (auto edge : edges) clonedEdges.push_back(clonedNodes[edge])`. -/
def remapList : List Node → NodeMap → List Node × NodeMap
  | [], clonedNodes => ([], clonedNodes)
  | edge :: rest, clonedNodes =>
    let r := clonedNodes.index edge
    let t := remapList rest r.2
    (r.1 :: t.1, t.2)

/-- The second and the third loop of `Graph::clone`, which differ in the list
they read (`get`) and the setter they call (`set`): for every vertex the list
is remapped through `clonedNodes` and set on `clonedNodes[node]`. -/
def remapLoop (get : GraphNode → List Node) (set : GraphNode → List Node → GraphNode) :
    List Node → NodeHeap → NodeMap → NodeHeap × NodeMap
  | [], heap, clonedNodes => (heap, clonedNodes)
  | node :: rest, heap, clonedNodes =>
    let r := remapList (get (heap node)) clonedNodes
    let t := r.2.index node
    remapLoop get set rest (Function.update heap t.1 (set (heap t.1) r.1)) t.2

/-- `Graph::clone(clonedNodes)` called on the graph at address `this`.
`newGraph` is the address `new Graph` returns and `fresh` the addresses the
node allocations return; the result is the memory afterwards and the final
`clonedNodes` (the returned pointer is `newGraph`). The allocator never returns
the address of a live object, so `newGraph` differs from `this` and the loops
see the vertex sequence of `this` as it was at the call. -/
def Graph.clone (m : Mem) (this newGraph : Nat) (fresh : List Node) (clonedNodes : NodeMap) :
    Option (Mem × NodeMap) :=
  let vertices := (m.graph this).vertices_
  match cloneVertices newGraph vertices fresh
      { m with graph := Function.update m.graph newGraph { vertices_ := [] } } clonedNodes with
  | none => none
  | some (m1, clonedNodes1) =>
    let r2 := remapLoop GraphNode.edges_ GraphNode.SetEdges vertices m1.node clonedNodes1
    let r3 := remapLoop GraphNode.dependencies_ GraphNode.SetDependencies vertices r2.1 r2.2
    some ({ m1 with node := r3.1 }, r3.2)

/-- `Graph::clone()`: the overload that starts from an empty map. -/
def Graph.cloneDefault (m : Mem) (this newGraph : Nat) (fresh : List Node) : Option Mem :=
  (Graph.clone m this newGraph fresh (fun _ => none)).map Prod.fst

/-- A memory holding the diamond graph at graph address `100`. -/
def diamondMem : Mem :=
  { node := diamondHeap
    graph := fun a => if a = 100 then diamondGraph else { vertices_ := [] }
    nodeSet_ := fun n => decide (n ∈ diamondGraph.vertices_) }

/-- A memory whose graph at address `100` holds the isolated node `1` twice in
its vertex sequence (`AddNode` called twice with the same node). -/
def twiceMem : Mem :=
  { node := fun _ => mkNode [] []
    graph := fun a => if a = 100 then { vertices_ := [1, 1] } else { vertices_ := [] }
    nodeSet_ := fun n => decide (n = 1) }

/-! ## `GraphExec::Run` -/

/-- A stream, as the handle `hipStream_t` and as `hip::Stream*`; `0` is the null
handle and `nullptr`. -/
abbrev Stream := Nat

/-- An `amd::Command*`; `0` is `nullptr`. -/
abbrev Command := Nat

/-- The status codes the graph engine returns. -/
inductive hipError_t where
  | hipSuccess | hipErrorInvalidValue | hipErrorOutOfMemory
  | hipErrorInvalidResourceHandle | hipErrorNotFound | hipErrorUnknown
  deriving DecidableEq, Repr

/-- Modelled from the spec: `hipErrorMemoryAllocation` is the older name of the
out-of-memory status; the public runtime header, which is not part of the
sources at hand, gives both names the same value. -/
@[reducible] def hipError_t.hipErrorMemoryAllocation : hipError_t :=
  hipError_t.hipErrorOutOfMemory

/-- Modelled from the spec: the value of the instantiation flag
`hipGraphInstantiateFlagAutoFreeOnLaunch`, declared in the public runtime
header, which is not part of the sources at hand. -/
def hipGraphInstantiateFlagAutoFreeOnLaunch : Nat := 1

/-- What one `Run` does to the outside, in program order. -/
inductive RunEvent where
  | FreeAllMemory (graph : Nat) (stream : Stream)
  | SetStream (node : Node) (stream : Stream)
  | CreateCommand (node : Node) (queue : Stream)
  | UpdateEventWaitLists (node : Node) (waitList : List Command)
  | updateEventWaitList (command : Command) (waitList : List Command)
  | newMarker (command : Command) (stream : Stream) (waitList : List Command)
  | setEventScope (command : Command)
  | enqueue (command : Command)
  | release (command : Command)
  | EnqueueCommands (node : Node) (stream : Stream)
  | dispatchAqlPacket (stream : Stream) (node : Node)
  deriving DecidableEq, Repr

/-- The state outside the `GraphExec` object that `Run` reads and writes: the
node objects, each node's assigned queue and materialized commands, and the
trace of what has been done. -/
structure RunWorld where
  heap : NodeHeap
  queue : Node → Stream
  commands : Node → List Command
  trace : List RunEvent

/-- The external collaborators of `Run`, each as the result it gives in a given
world: stream resolution, the device's null stream, the debug switch, the
outcome of a node's `CreateCommand` (status and the node's commands
afterwards), the address a `new amd::Marker` returns, and the effect of
`Graph::FreeAllMemory` on the nodes. -/
structure RunEnv where
  getStream : Stream → Stream
  NullStream : Stream
  DEBUG_CLR_GRAPH_PACKET_CAPTURE : Bool
  CreateCommand : RunWorld → Node → Stream → hipError_t × List Command
  newMarker : RunWorld → Command
  FreeAllMemory : NodeHeap → Nat → Stream → NodeHeap

/-- The members of `GraphExec` that `Run` and the instantiation use; the
kernel-argument pool is its address (`0` is `nullptr`), its size and the offset
of its free part. -/
structure GraphExec where
  parallelLists_ : List (List Node)
  topoOrder_ : List Node
  nodeWaitLists_ : DepMap
  clonedGraph_ : Graph
  parallel_streams_ : List Stream
  currentQueueIndex_ : Nat
  flags_ : Nat
  repeatLaunch_ : Bool
  device_kernarg_pool_ : Bool
  kernarg_pool_graph_ : Nat := 0
  kernarg_pool_size_graph_ : Nat := 0
  kernarg_pool_cur_graph_offset_ : Nat := 0

/-- Modelled from the spec: `GraphExec::GetAvailableStreams` (header) hands out
the pool's streams round-robin, advancing the index. -/
def GraphExec.GetAvailableStreams (exec : GraphExec) : Stream × GraphExec :=
  (exec.parallel_streams_.getD exec.currentQueueIndex_ 0,
    { exec with currentQueueIndex_ := exec.currentQueueIndex_ + 1 })

/-- Modelled from the spec: `GraphExec::ResetQueueIndex` (header) puts the
round-robin index back to the start. -/
def GraphExec.ResetQueueIndex (exec : GraphExec) : GraphExec :=
  { exec with currentQueueIndex_ := 0 }

/-- Modelled from the spec: `node->SetStream(stream, exec)` (header) assigns
the queue the node's commands will enqueue to. -/
def RunWorld.SetStream (w : RunWorld) (node : Node) (stream : Stream) : RunWorld :=
  { w with queue := Function.update w.queue node stream
           trace := w.trace ++ [RunEvent.SetStream node stream] }

/-- `node->CreateCommand(node->GetQueue())`: the environment gives the status
and the commands the node holds afterwards. -/
def RunWorld.CreateCommand (env : RunEnv) (w : RunWorld) (node : Node) :
    hipError_t × RunWorld :=
  let r := env.CreateCommand w node (w.queue node)
  (r.1, { w with commands := Function.update w.commands node r.2
                 trace := w.trace ++ [RunEvent.CreateCommand node (w.queue node)] })

/-- One more event on the trace. -/
def RunWorld.emit (w : RunWorld) (e : RunEvent) : RunWorld :=
  { w with trace := w.trace ++ [e] }

/-- `new amd::Marker(*stream, false, waitList)`. -/
def RunWorld.Marker (env : RunEnv) (w : RunWorld) (stream : Stream) (waitList : List Command) :
    Command × RunWorld :=
  (env.newMarker w, w.emit (RunEvent.newMarker (env.newMarker w) stream waitList))

/-- The loops `for (auto& node : list) node->SetStream(stream, ptr)`. -/
def setStreamList (stream : Stream) : List Node → RunWorld → RunWorld
  | [], w => w
  | node :: rest, w => setStreamList stream rest (w.SetStream node stream)

/-- The loop of `UpdateStream`; `i` is its counter. -/
def updateStreamLoop (stream : Stream) :
    List (List Node) → Nat → GraphExec → RunWorld → GraphExec × RunWorld
  | [], _, exec, w => (exec, w)
  | list :: rest, i, exec, w =>
    if i = 0 then
      updateStreamLoop stream rest (i + 1) exec (setStreamList stream list w)
    else
      let r := exec.GetAvailableStreams
      updateStreamLoop stream rest (i + 1) r.2 (setStreamList r.1 list w)

/-- `UpdateStream(parallelLists, stream, ptr)`. -/
def UpdateStream (parallelLists : List (List Node)) (stream : Stream) (exec : GraphExec)
    (w : RunWorld) : GraphExec × RunWorld :=
  updateStreamLoop stream parallelLists 0 exec w

/-- The first loop of `FillCommands`: every node of `topoOrder` creates its
commands (the first failure is returned) and gets the commands of the nodes in
`nodeWaitLists[node]` as its wait list; reading `nodeWaitLists[node]` inserts
an empty entry for an absent key. -/
def fillCreate (env : RunEnv) :
    List Node → DepMap → RunWorld → hipError_t × DepMap × RunWorld
  | [], nodeWaitLists, w => (hipError_t.hipSuccess, nodeWaitLists, w)
  | node :: rest, nodeWaitLists, w =>
    let r := w.CreateCommand env node
    if r.1 ≠ hipError_t.hipSuccess then (r.1, nodeWaitLists, r.2)
    else
      let deps := (nodeWaitLists node).getD []
      let nodeWaitLists1 := Function.update nodeWaitLists node (some deps)
      let waitList := (deps.map r.2.commands).flatten
      fillCreate env rest nodeWaitLists1 (r.2.emit (RunEvent.UpdateEventWaitLists node waitList))

/-- The loop of `FillCommands` over the root nodes: a root that is not on
`stream` waits for `graphStart`, which is created on first need; the flag is
false when the loop is left by `return hipErrorOutOfMemory` because the marker
is null. -/
def fillRoots (env : RunEnv) (stream : Stream) :
    List Node → Command → RunWorld → Bool × Command × RunWorld
  | [], graphStart, w => (true, graphStart, w)
  | root :: rest, graphStart, w =>
    if w.queue root ≠ stream then
      let r : Command × RunWorld :=
        if graphStart = 0 then w.Marker env stream [] else (graphStart, w)
      if r.1 = 0 then (false, r.1, r.2)
      else
        let w1 : RunWorld :=
          match (r.2.commands root).head? with
          | some c => r.2.emit (RunEvent.updateEventWaitList c [r.1])
          | none => r.2
        fillRoots env stream rest r.1 w1
    else fillRoots env stream rest graphStart w

/-- The loop of `FillCommands` over the leaf nodes: the last command of every
leaf that is not on `stream` is collected. -/
def fillLeaves (stream : Stream) (w : RunWorld) : List Node → List Command → List Command
  | [], graphLastCmdWaitList => graphLastCmdWaitList
  | leaf :: rest, graphLastCmdWaitList =>
    if w.queue leaf ≠ stream then
      match (w.commands leaf).getLast? with
      | some c => fillLeaves stream w rest (graphLastCmdWaitList ++ [c])
      | none => fillLeaves stream w rest graphLastCmdWaitList
    else fillLeaves stream w rest graphLastCmdWaitList

/-- `FillCommands`: the status, `nodeWaitLists`, `graphStart`, `graphEnd` and
the world afterwards. -/
def FillCommands (env : RunEnv) (nodeWaitLists : DepMap) (topoOrder : List Node)
    (clonedGraph : Graph) (graphStart graphEnd : Command) (stream : Stream) (w : RunWorld) :
    hipError_t × DepMap × Command × Command × RunWorld :=
  let r := fillCreate env topoOrder nodeWaitLists w
  if r.1 ≠ hipError_t.hipSuccess then (r.1, r.2.1, graphStart, graphEnd, r.2.2)
  else
    let t := fillRoots env stream (clonedGraph.GetRootNodes r.2.2.heap) graphStart r.2.2
    if t.1 = false then (hipError_t.hipErrorOutOfMemory, r.2.1, t.2.1, graphEnd, t.2.2)
    else
      let graphLastCmdWaitList :=
        fillLeaves stream t.2.2 (clonedGraph.GetLeafNodes t.2.2.heap) []
      if graphLastCmdWaitList ≠ [] then
        let e := t.2.2.Marker env stream graphLastCmdWaitList
        if e.1 = 0 then
          (hipError_t.hipErrorOutOfMemory, r.2.1, t.2.1, e.1,
            e.2.emit (RunEvent.release t.2.1))
        else (hipError_t.hipSuccess, r.2.1, t.2.1, e.1, e.2)
      else (hipError_t.hipSuccess, r.2.1, t.2.1, graphEnd, t.2.2)

/-- The loop of the single-list path of `Run`; the status is the one of the
last `CreateCommand`. -/
def runSingleLoop (env : RunEnv) (stream hip_stream : Stream) :
    List Node → hipError_t → RunWorld → hipError_t × RunWorld
  | [], status, w => (status, w)
  | node :: rest, status, w =>
    if env.DEBUG_CLR_GRAPH_PACKET_CAPTURE = true ∧
        (w.heap node).type_ = hipGraphNodeType.Kernel then
      runSingleLoop env stream hip_stream rest status
        (w.emit (RunEvent.dispatchAqlPacket hip_stream node))
    else
      let r := (w.SetStream node hip_stream).CreateCommand env node
      runSingleLoop env stream hip_stream rest r.1
        (r.2.emit (RunEvent.EnqueueCommands node stream))

/-- The loop `topoOrder_[i]->EnqueueCommands(stream)` of the multi-list path. -/
def enqueueAll (stream : Stream) : List Node → RunWorld → RunWorld
  | [], w => w
  | node :: rest, w => enqueueAll stream rest (w.emit (RunEvent.EnqueueCommands node stream))

/-- A marker command is enqueued and released. -/
def RunWorld.enqueueRelease (w : RunWorld) (command : Command) : RunWorld :=
  (w.emit (RunEvent.enqueue command)).emit (RunEvent.release command)

/-- The part of `Run` after the replay check (lines 656 to 704): the
single-list path or the multi-list path, then `ResetQueueIndex`. -/
def GraphExec.launch (env : RunEnv) (exec : GraphExec) (stream hip_stream : Stream)
    (w : RunWorld) : hipError_t × GraphExec × RunWorld :=
  if exec.parallelLists_.length = 1 then
    let w1 : RunWorld :=
      if exec.device_kernarg_pool_ = true then
        let s := w.Marker env hip_stream []
        s.2.enqueueRelease s.1
      else w
    let r := runSingleLoop env stream hip_stream exec.topoOrder_ hipError_t.hipSuccess w1
    let w2 : RunWorld :=
      if env.DEBUG_CLR_GRAPH_PACKET_CAPTURE = true then
        let e := r.2.Marker env hip_stream []
        (e.2.emit (RunEvent.setEventScope e.1)).enqueueRelease e.1
      else r.2
    (r.1, exec.ResetQueueIndex, w2)
  else
    let u := UpdateStream exec.parallelLists_ hip_stream exec w
    let f := FillCommands env u.1.nodeWaitLists_ u.1.topoOrder_ u.1.clonedGraph_ 0 0
      hip_stream u.2
    let exec1 : GraphExec := { u.1 with nodeWaitLists_ := f.2.1 }
    if f.1 ≠ hipError_t.hipSuccess then (f.1, exec1, f.2.2.2.2)
    else
      let w1 : RunWorld :=
        if f.2.2.1 ≠ 0 then f.2.2.2.2.enqueueRelease f.2.2.1 else f.2.2.2.2
      let w2 := enqueueAll stream exec1.topoOrder_ w1
      let w3 : RunWorld := if f.2.2.2.1 ≠ 0 then w2.enqueueRelease f.2.2.2.1 else w2
      (f.1, exec1.ResetQueueIndex, w3)

/-- The loop of the replay check: some node of `topoOrder_` is a `MemAlloc`
node whose memory is still active. -/
def hasActiveMemAlloc (heap : NodeHeap) : List Node → Bool
  | [] => false
  | node :: rest =>
    if (heap node).type_ = hipGraphNodeType.MemAlloc ∧ (heap node).isActiveMem_ = true then true
    else hasActiveMemAlloc heap rest

/-- `GraphExec::Run(stream)`: the status, the `GraphExec` and the world
afterwards. -/
def GraphExec.Run (env : RunEnv) (exec : GraphExec) (stream : Stream) (w : RunWorld) :
    hipError_t × GraphExec × RunWorld :=
  if env.getStream stream = 0 then (hipError_t.hipErrorInvalidResourceHandle, exec, w)
  else
    let hip_stream := if stream = 0 then env.NullStream else stream
    let w1 : RunWorld :=
      if exec.flags_ &&& hipGraphInstantiateFlagAutoFreeOnLaunch ≠ 0 then
        match exec.topoOrder_ with
        | [] => w
        | node :: _ =>
          { w with heap := env.FreeAllMemory w.heap (w.heap node).parentGraph_ hip_stream
                   trace := w.trace ++
                     [RunEvent.FreeAllMemory (w.heap node).parentGraph_ hip_stream] }
      else w
    if exec.repeatLaunch_ = true then
      if hasActiveMemAlloc w1.heap exec.topoOrder_ = true then
        (hipError_t.hipErrorInvalidValue, exec, w1)
      else exec.launch env stream hip_stream w1
    else { exec with repeatLaunch_ := true }.launch env stream hip_stream w1

/-- An environment in which every handle resolves (the null handle to the null
stream 99), every `CreateCommand` succeeds with one command, markers get the
address 1000 and `FreeAllMemory` marks every node's memory inactive. -/
def sampleEnv : RunEnv :=
  { getStream := fun s => if s = 0 then 99 else s
    NullStream := 99
    DEBUG_CLR_GRAPH_PACKET_CAPTURE := false
    CreateCommand := fun _ node _ => (hipError_t.hipSuccess, [node + 500])
    newMarker := fun _ => 1000
    FreeAllMemory := fun heap _ _ n => { heap n with isActiveMem_ := false } }

/-- A world whose node `1` is a `MemAlloc` node with active memory and no
`MemFree` partner. -/
def sampleWorld : RunWorld :=
  { heap := fun n =>
      if n = 1 then
        { type_ := hipGraphNodeType.MemAlloc, edges_ := [], dependencies_ := [],
          parentGraph_ := 100, isActiveMem_ := true }
      else mkNode [] []
    queue := fun _ => 0
    commands := fun _ => []
    trace := [] }

/-- A `GraphExec` instantiated without flags from the one-node graph of
`sampleWorld`, not launched yet. -/
def sampleExec : GraphExec :=
  { parallelLists_ := [[1]], topoOrder_ := [1], nodeWaitLists_ := fun _ => none,
    clonedGraph_ := { vertices_ := [1] }, parallel_streams_ := [50],
    currentQueueIndex_ := 0, flags_ := 0, repeatLaunch_ := false,
    device_kernarg_pool_ := false }

/-- The environment `sampleEnv` with a stricter stream resolution: only the
handle 7 resolves. -/
def strictEnv : RunEnv :=
  { sampleEnv with getStream := fun s => if s = 7 then 7 else 0 }

/-! ## Handle validation -/

/-- The process-wide state the handle checks see: the live sets
`Graph::graphSet_` and `GraphExec::graphExecSet_` (their elements), and the
`GraphExec` object behind each live address. -/
structure HandleState where
  graphSet_ : List Nat
  graphExecSet_ : List Nat
  graphExec : Nat → GraphExec

/-- `Graph::isGraphValid(pGraph)`. -/
def Graph.isGraphValid (s : HandleState) (pGraph : Nat) : Bool :=
  if pGraph ∉ s.graphSet_ then false else true

/-- `GraphExec::isGraphExecValid(pGraphExec)`. -/
def GraphExec.isGraphExecValid (s : HandleState) (pGraphExec : Nat) : Bool :=
  if pGraphExec ∉ s.graphExecSet_ then false else true

/-- Modelled from the spec: destroying a `GraphExec` (its destructor is in the
header) removes it from the global live set. -/
def GraphExec.destroy (s : HandleState) (pGraphExec : Nat) : HandleState :=
  { s with graphExecSet_ := s.graphExecSet_.filter (fun p => decide (p ≠ pGraphExec)) }

/-- Modelled from the spec: the entry point that runs a `GraphExec` given by
its handle; the entry points are not part of the sources at hand. "Each handle
type is validated on every call via its global registry before use; an
unrecognized handle yields an invalid-resource-handle error rather than
undefined behavior": the handle is checked with `isGraphExecValid`, and `Run`
is called on the object behind a live handle only. -/
def GraphExec.RunByHandle (env : RunEnv) (s : HandleState) (pGraphExec : Nat)
    (stream : Stream) (w : RunWorld) : hipError_t × HandleState × RunWorld :=
  if GraphExec.isGraphExecValid s pGraphExec = false then
    (hipError_t.hipErrorInvalidResourceHandle, s, w)
  else
    let r := (s.graphExec pGraphExec).Run env stream w
    (r.1, { s with graphExec := Function.update s.graphExec pGraphExec r.2.1 }, r.2.2)

/-- The `hip::Stream*` that `Run` launches on: the device's null stream for the
null handle, the handle itself otherwise (line 637). -/
def RunEnv.hipStream (env : RunEnv) (stream : Stream) : Stream :=
  if stream = 0 then env.NullStream else stream

/-- The world after the auto-free step of `Run` (lines 639 to 643). -/
def GraphExec.autoFree (env : RunEnv) (exec : GraphExec) (hip_stream : Stream) (w : RunWorld) :
    RunWorld :=
  if exec.flags_ &&& hipGraphInstantiateFlagAutoFreeOnLaunch ≠ 0 then
    match exec.topoOrder_ with
    | [] => w
    | node :: _ =>
      { w with heap := env.FreeAllMemory w.heap (w.heap node).parentGraph_ hip_stream
               trace := w.trace ++
                 [RunEvent.FreeAllMemory (w.heap node).parentGraph_ hip_stream] }
  else w

/-- What the single-list loop does for one node when packet capture is off. -/
def singleNodeEvents (stream hip_stream : Stream) (node : Node) : List RunEvent :=
  [RunEvent.SetStream node hip_stream, RunEvent.CreateCommand node hip_stream,
    RunEvent.EnqueueCommands node stream]

/-- The `GraphExec` `sampleExec` with its kernel arguments in device memory. -/
def deviceArgsExec : GraphExec :=
  { sampleExec with device_kernarg_pool_ := true }

/-! ## Vocabulary of the multi-list path -/

/-- The streams `k` successive calls of `GetAvailableStreams` hand out when the
round-robin index is `index`. -/
def auxStreams (pool : List Stream) : Nat → Nat → List Stream
  | _, 0 => []
  | index, k + 1 => pool.getD index 0 :: auxStreams pool (index + 1) k

/-- The world after every node of every list has been given the stream paired
with the list, list after list. -/
def bindLists : List (List Node × Stream) → RunWorld → RunWorld
  | [], w => w
  | p :: rest, w => bindLists rest (setStreamList p.2 p.1 w)

/-- The pairing of the parallel lists with their streams that `UpdateStream`
makes: the first list with the caller's stream, the following lists with the
streams handed out by the pool. -/
def GraphExec.streamPlan (exec : GraphExec) (hip_stream : Stream) : List (List Node × Stream) :=
  exec.parallelLists_.zip
    (hip_stream ::
      auxStreams exec.parallel_streams_ exec.currentQueueIndex_ (exec.parallelLists_.length - 1))


/-- A world of plain nodes without edges: nothing assigned, created or enqueued
yet. -/
def plainWorld : RunWorld :=
  { heap := fun _ => mkNode [] []
    queue := fun _ => 0
    commands := fun _ => []
    trace := [] }

/-- A `GraphExec` of four independent nodes, one parallel list each, as `Init`
leaves it: four streams in the pool (three lists after the first plus the
minimum of one) and the round-robin index at its start. -/
def fourListExec : GraphExec :=
  { parallelLists_ := [[1], [2], [3], [4]], topoOrder_ := [1, 2, 3, 4],
    nodeWaitLists_ := fun _ => none, clonedGraph_ := { vertices_ := [1, 2, 3, 4] },
    parallel_streams_ := [50, 51, 52, 53], currentQueueIndex_ := 0, flags_ := 0,
    repeatLaunch_ := false, device_kernarg_pool_ := false }

/-- The environment `sampleEnv` in which `CreateCommand` fails for the node 1
and succeeds for every other node. -/
def failFirstEnv : RunEnv :=
  { sampleEnv with
    CreateCommand := fun _ node _ =>
      if node = 1 then (hipError_t.hipErrorOutOfMemory, [])
      else (hipError_t.hipSuccess, [node + 500]) }

/-- The world `plainWorld` with the edge `1 -> 2`: the node 2 depends on the
node 1. -/
def pairWorld : RunWorld :=
  { plainWorld with
    heap := fun n =>
      if n = 1 then mkNode [2] [] else if n = 2 then mkNode [] [1] else mkNode [] [] }

/-- A `GraphExec` of the chain `1 -> 2` of `pairWorld`: one parallel list. -/
def pairExec : GraphExec :=
  { parallelLists_ := [[1, 2]], topoOrder_ := [1, 2], nodeWaitLists_ := fun _ => none,
    clonedGraph_ := { vertices_ := [1, 2] }, parallel_streams_ := [50],
    currentQueueIndex_ := 0, flags_ := 0, repeatLaunch_ := false,
    device_kernarg_pool_ := false }

/-- A `GraphExec` of two independent nodes, one parallel list each, as `Init`
leaves it: two streams in the pool and the round-robin index at its start. -/
def twoListExec : GraphExec :=
  { parallelLists_ := [[1], [2]], topoOrder_ := [1, 2], nodeWaitLists_ := fun _ => none,
    clonedGraph_ := { vertices_ := [1, 2] }, parallel_streams_ := [50, 51],
    currentQueueIndex_ := 0, flags_ := 0, repeatLaunch_ := false,
    device_kernarg_pool_ := false }


/-- The nodes of `nodes` that are not on `stream`, in the order of `nodes`. -/
def offStream (queue : Node → Stream) (stream : Stream) (nodes : List Node) : List Node :=
  nodes.filter (fun n => decide (queue n ≠ stream))

/-- The wait-list updates of the root loop of `FillCommands`: the first command
of every root of `roots` that has commands gets the wait list `[marker]`. -/
def rootWaitEvents (commands : Node → List Command) (marker : Command) (roots : List Node) :
    List RunEvent :=
  roots.filterMap (fun r =>
    (commands r).head?.map (fun c => RunEvent.updateEventWaitList c [marker]))

/-- The last command of every node of `leaves` that has commands, in the order
of `leaves`. -/
def lastCommands (commands : Node → List Command) (leaves : List Node) : List Command :=
  leaves.filterMap (fun l => (commands l).getLast?)

/-- The events of the set-up part of the multi-list path: a stream is
assigned, a node's commands are created, a node's wait lists are updated. -/
def RunEvent.isSetup : RunEvent → Bool
  | RunEvent.SetStream _ _ => true
  | RunEvent.CreateCommand _ _ => true
  | RunEvent.UpdateEventWaitLists _ _ => true
  | _ => false


/-- The environment `sampleEnv` in which `CreateCommand` fails for the node 3
and succeeds for every other node. -/
def failThirdEnv : RunEnv :=
  { sampleEnv with
    CreateCommand := fun _ node _ =>
      if node = 3 then (hipError_t.hipErrorOutOfMemory, [])
      else (hipError_t.hipSuccess, [node + 500]) }

/-- A `GraphExec` of three independent nodes, one parallel list each, as `Init`
leaves it: three streams in the pool and the round-robin index at its start. -/
def threeListExec : GraphExec :=
  { parallelLists_ := [[1], [2], [3]], topoOrder_ := [1, 2, 3],
    nodeWaitLists_ := fun _ => none, clonedGraph_ := { vertices_ := [1, 2, 3] },
    parallel_streams_ := [50, 51, 52], currentQueueIndex_ := 0, flags_ := 0,
    repeatLaunch_ := false, device_kernarg_pool_ := false }


/-! ## Instantiation: `Init`, `CreateStreams`, `CaptureAQLPackets` -/

/-- What the instantiation does to the outside, in program order: `newStream`
is `new hip::Stream(...)` with the address it returned, `Create` is
`stream->Create()` with its result, `Destroy` is `hip::Stream::Destroy`;
`deviceLocalAlloc` and `hostAlloc` carry the size asked for and the address
returned. -/
inductive InstEvent where
  | newStream (stream : Stream)
  | Create (stream : Stream) (ok : Bool)
  | Destroy (stream : Stream)
  | SetStream (node : Node) (stream : Stream)
  | deviceLocalAlloc (size : Nat) (pool : Nat)
  | hostAlloc (size : Nat) (pool : Nat)
  | CreateCommand (node : Node) (queue : Stream)
  | EnableCapturing (node : Node) (kernArgOffset : Nat)
  deriving DecidableEq, Repr

/-- The state outside the `GraphExec` that the instantiation reads and writes:
the nodes, the queue every node is assigned to, and the trace of what has been
done. -/
structure InstWorld where
  heap : NodeHeap
  queue : Node → Stream
  trace : List InstEvent

/-- What the instantiation calls and does not define: the nodes' stream
requirement (`GetNumParallelStreams(num)` gives the status and the new value of
`num`), the allocation and creation of a stream (`0` is `nullptr`), the kernel
nodes' argument sizes, the device's large-bar flag and its two allocators,
`CreateCommand`, and `allocKernArg`. -/
structure InstEnv where
  GetNumParallelStreams : Node → Nat → hipError_t × Nat
  newStream : InstWorld → Stream
  Create : InstWorld → Stream → Bool
  GetKerArgSize : Node → Nat
  GetKernargSegmentByteSize : Node → Nat
  GetKernargSegmentAlignment : Node → Nat
  largeBar_ : Bool
  deviceLocalAlloc : InstWorld → Nat → Nat
  hostAlloc : InstWorld → Nat → Nat
  CreateCommand : InstWorld → Node → Stream → hipError_t
  allocKernArg : Nat → Nat → Nat → Nat → Nat → Nat × Nat

/-- One more event on the trace. -/
def InstWorld.emit (w : InstWorld) (e : InstEvent) : InstWorld :=
  { w with trace := w.trace ++ [e] }

/-- Modelled from the spec: `node->SetStream(stream, exec)` (header) assigns
the queue the node's commands will enqueue to. -/
def InstWorld.SetStream (w : InstWorld) (node : Node) (stream : Stream) : InstWorld :=
  { w with queue := Function.update w.queue node stream
           trace := w.trace ++ [InstEvent.SetStream node stream] }

/-- The loop of `CreateStreams`; the first argument is the number of rounds
left, `num_streams - i`. A null stream is not created; a stream whose `Create`
fails is destroyed; in both cases the loop is left with the out-of-memory
status. -/
def createStreamsLoop (env : InstEnv) :
    Nat → GraphExec → InstWorld → hipError_t × GraphExec × InstWorld
  | 0, exec, w => (hipError_t.hipSuccess, exec, w)
  | k + 1, exec, w =>
    let stream := env.newStream w
    let w1 := w.emit (InstEvent.newStream stream)
    if stream = 0 then (hipError_t.hipErrorOutOfMemory, exec, w1)
    else
      let ok := env.Create w1 stream
      let w2 := w1.emit (InstEvent.Create stream ok)
      if ok = false then
        (hipError_t.hipErrorOutOfMemory, exec, w2.emit (InstEvent.Destroy stream))
      else
        createStreamsLoop env k
          { exec with parallel_streams_ := exec.parallel_streams_ ++ [stream] } w2

/-- `GraphExec::CreateStreams(num_streams)`; `reserve` changes no contents. -/
def GraphExec.CreateStreams (env : InstEnv) (exec : GraphExec) (num_streams : Nat)
    (w : InstWorld) : hipError_t × GraphExec × InstWorld :=
  createStreamsLoop env num_streams exec w

/-- The loop of `Init` over `topoOrder_`: the status (the first failure, if
any) and `min_num_streams` afterwards. -/
def initLoop (env : InstEnv) : List Node → Nat → hipError_t × Nat
  | [], min_num_streams => (hipError_t.hipSuccess, min_num_streams)
  | node :: rest, min_num_streams =>
    let r := env.GetNumParallelStreams node min_num_streams
    if r.1 ≠ hipError_t.hipSuccess then r else initLoop env rest r.2

/-- The argument `parallelLists_.size() - 1 + min_num_streams` of the call of
`CreateStreams` in `Init`: computed in `size_t` (64 bits) and converted to the
`uint32_t` parameter. -/
def initNumStreams (size min_num_streams : Nat) : Nat :=
  (((size + (2 ^ 64 - 1)) % 2 ^ 64 + min_num_streams) % 2 ^ 64) % 2 ^ 32

/-- `GraphExec::Init()`. -/
def GraphExec.Init (env : InstEnv) (exec : GraphExec) (w : InstWorld) :
    hipError_t × GraphExec × InstWorld :=
  let r := initLoop env exec.topoOrder_ 1
  if r.1 ≠ hipError_t.hipSuccess then (r.1, exec, w)
  else exec.CreateStreams env (initNumStreams exec.parallelLists_.length r.2) w


/-- The inner loop of the first loop of `CaptureAQLPackets`: every node of the
list is put on `stream`; the accumulator is `KernArgSizeForGraph` (a `size_t`)
and `GraphHasOnlyKerns`. -/
def captureList (env : InstEnv) (stream : Stream) :
    List Node → Nat × Bool → InstWorld → (Nat × Bool) × InstWorld
  | [], acc, w => (acc, w)
  | node :: rest, acc, w =>
    if (w.heap node).type_ = hipGraphNodeType.Kernel then
      captureList env stream rest ((acc.1 + env.GetKerArgSize node) % 2 ^ 64, acc.2)
        (w.SetStream node stream)
    else captureList env stream rest (acc.1, false) (w.SetStream node stream)

/-- The first loop of `CaptureAQLPackets`: every parallel list takes a stream
from `GetAvailableStreams`. -/
def captureLists (env : InstEnv) :
    List (List Node) → Nat × Bool → GraphExec → InstWorld →
      (Nat × Bool) × GraphExec × InstWorld
  | [], acc, exec, w => (acc, exec, w)
  | list :: rest, acc, exec, w =>
    let r := exec.GetAvailableStreams
    let c := captureList env r.1 list acc w
    captureLists env rest c.1 r.2 c.2

/-- The last loop of `CaptureAQLPackets`: every kernel node of `topoOrder_`
creates its command, takes its share of the pool and is enabled for capturing;
a null share ends the loop with the memory-allocation status. `allocKernArg`
(header) is the environment's: from the pool's address, size and current offset
and the size and alignment asked for it gives the address and the new current
offset. -/
def captureKernels (env : InstEnv) :
    List Node → hipError_t → GraphExec → InstWorld → hipError_t × GraphExec × InstWorld
  | [], status, exec, w => (status, exec, w)
  | node :: rest, status, exec, w =>
    if (w.heap node).type_ = hipGraphNodeType.Kernel then
      let status1 := env.CreateCommand w node (w.queue node)
      let w1 := w.emit (InstEvent.CreateCommand node (w.queue node))
      let a := env.allocKernArg exec.kernarg_pool_graph_ exec.kernarg_pool_size_graph_
        exec.kernarg_pool_cur_graph_offset_ (env.GetKernargSegmentByteSize node)
        (env.GetKernargSegmentAlignment node)
      let exec1 : GraphExec := { exec with kernarg_pool_cur_graph_offset_ := a.2 }
      if a.1 = 0 then (hipError_t.hipErrorMemoryAllocation, exec1, w1)
      else captureKernels env rest status1 exec1 (w1.emit (InstEvent.EnableCapturing node a.1))
    else captureKernels env rest status exec w

/-- `GraphExec::CaptureAQLPackets()`. -/
def GraphExec.CaptureAQLPackets (env : InstEnv) (exec : GraphExec) (w : InstWorld) :
    hipError_t × GraphExec × InstWorld :=
  let c := captureLists env exec.parallelLists_ (0, true) exec w
  let a : GraphExec × InstWorld :=
    if c.1.2 = true ∧ env.largeBar_ = true then
      let p := env.deviceLocalAlloc c.2.2 c.1.1
      ({ c.2.1 with kernarg_pool_graph_ := p, device_kernarg_pool_ := true },
        c.2.2.emit (InstEvent.deviceLocalAlloc c.1.1 p))
    else
      let p := env.hostAlloc c.2.2 c.1.1
      ({ c.2.1 with kernarg_pool_graph_ := p }, c.2.2.emit (InstEvent.hostAlloc c.1.1 p))
  if a.1.kernarg_pool_graph_ = 0 then (hipError_t.hipErrorMemoryAllocation, a.1, a.2)
  else
    captureKernels env a.1.topoOrder_ hipError_t.hipSuccess
      { a.1 with kernarg_pool_size_graph_ := c.1.1 } a.2

/-- An environment in which every node is content with the stream count it is
given, the k-th stream allocated gets an address of its own and is created, the
device has no large bar and both allocators and `allocKernArg` succeed. -/
def sampleInstEnv : InstEnv :=
  { GetNumParallelStreams := fun _ n => (hipError_t.hipSuccess, n)
    newStream := fun w => 50 + w.trace.length
    Create := fun _ _ => true
    GetKerArgSize := fun _ => 16
    GetKernargSegmentByteSize := fun _ => 16
    GetKernargSegmentAlignment := fun _ => 8
    largeBar_ := false
    deviceLocalAlloc := fun _ _ => 4096
    hostAlloc := fun _ _ => 8192
    CreateCommand := fun _ _ _ => hipError_t.hipSuccess
    allocKernArg := fun pool _ cur size _ => (pool + cur, cur + size) }

/-- The environment `sampleInstEnv` short of resources: the second and every
later stream fails in `Create`, and both allocators return null. -/
def scarceInstEnv : InstEnv :=
  { sampleInstEnv with
    Create := fun w _ => decide (w.trace.length < 2)
    deviceLocalAlloc := fun _ _ => 0
    hostAlloc := fun _ _ => 0 }

/-- The environment `sampleInstEnv` without memory for the kernel-argument
pool: every stream is created, and both allocators return null. -/
def noPoolInstEnv : InstEnv :=
  { sampleInstEnv with
    deviceLocalAlloc := fun _ _ => 0
    hostAlloc := fun _ _ => 0 }

/-- The environment `sampleInstEnv` in which the node 2 fails to report its
stream requirement. -/
def brokenNodeInstEnv : InstEnv :=
  { sampleInstEnv with
    GetNumParallelStreams := fun node n =>
      if node = 2 then (hipError_t.hipErrorInvalidValue, n) else (hipError_t.hipSuccess, n) }

/-- A world of plain nodes for the instantiation: nothing assigned or done
yet. -/
def plainInstWorld : InstWorld :=
  { heap := fun _ => mkNode [] [], queue := fun _ => 0, trace := [] }

/-- The `GraphExec` `threeListExec` before `Init`: no stream in the pool. -/
def freshExec : GraphExec :=
  { threeListExec with parallel_streams_ := [] }


/-- The sum of `GetKerArgSize` over the kernel nodes of `nodes`, as a number. -/
def kernArgSum (env : InstEnv) (heap : NodeHeap) (nodes : List Node) : Nat :=
  ((nodes.filter (fun n => decide ((heap n).type_ = hipGraphNodeType.Kernel))).map
    env.GetKerArgSize).sum


/-- A world of kernel nodes for the instantiation: nothing assigned or done
yet. -/
def kernelInstWorld : InstWorld :=
  { heap := fun _ => { mkNode [] [] with type_ := hipGraphNodeType.Kernel }
    queue := fun _ => 0, trace := [] }

/-- The environment `sampleInstEnv` on a device with a large bar. -/
def largeBarInstEnv : InstEnv :=
  { sampleInstEnv with largeBar_ := true }


/-! ## Memcpy node validation -/

/-- Modelled from the spec: the copy kinds of `hipMemcpyKind`, declared in the
public runtime header, which is not part of the sources at hand. -/
inductive hipMemcpyKind where
  | hipMemcpyHostToHost | hipMemcpyHostToDevice | hipMemcpyDeviceToHost
  | hipMemcpyDeviceToDevice | hipMemcpyDefault
  deriving DecidableEq, Repr

/-- Modelled from the spec: the memory types of `hipMemoryType`, declared in
the public runtime header, which is not part of the sources at hand. -/
inductive hipMemoryType where
  | hipMemoryTypeHost | hipMemoryTypeDevice | hipMemoryTypeArray | hipMemoryTypeUnified
  | hipMemoryTypeManaged
  deriving DecidableEq, Repr

/-- What the validation reads of an `amd::Memory`: the device
`getContext().devices()[0]` and the flags `getMemFlags()`. -/
structure Memory where
  device : Nat
  memFlags : Nat
  deriving DecidableEq, Repr

/-- Modelled from the spec: the OpenCL flag `CL_MEM_USE_HOST_PTR`, `1 << 3`. -/
def CL_MEM_USE_HOST_PTR : Nat := 8

/-- Modelled from the spec: the OpenCL flag `CL_MEM_SVM_FINE_GRAIN_BUFFER`,
`1 << 10`. -/
def CL_MEM_SVM_FINE_GRAIN_BUFFER : Nat := 1024

/-- An `amd::Coord3D`. -/
abbrev Coord3D := Nat × Nat × Nat

/-- The fields of the driver descriptor `HIP_MEMCPY3D` that the validation
reads or writes; pointers and array handles are addresses. -/
structure HIP_MEMCPY3D where
  srcXInBytes : Nat
  srcY : Nat
  srcZ : Nat
  srcMemoryType : hipMemoryType
  srcHost : Nat
  srcDevice : Nat
  srcArray : Nat
  srcPitch : Nat
  srcHeight : Nat
  dstXInBytes : Nat
  dstY : Nat
  dstZ : Nat
  dstMemoryType : hipMemoryType
  dstHost : Nat
  dstDevice : Nat
  dstArray : Nat
  dstPitch : Nat
  dstHeight : Nat
  WidthInBytes : Nat
  Height : Nat
  Depth : Nat

/-- A call of one of the eight pair-specific validators
`ihipMemcpy{HtoD,DtoH,DtoD,HtoA,AtoH,DtoA,AtoD,AtoA}Validate` with its input
arguments, in the order of the call. -/
inductive CopyValidator where
  | HtoD (srcHost dstDevice : Nat) (srcOrigin dstOrigin copyRegion : Coord3D)
      (srcRowPitch srcSlicePitch dstRowPitch dstSlicePitch : Nat)
  | DtoH (srcDevice dstHost : Nat) (srcOrigin dstOrigin copyRegion : Coord3D)
      (srcRowPitch srcSlicePitch dstRowPitch dstSlicePitch : Nat)
  | DtoD (srcDevice dstDevice : Nat) (srcOrigin dstOrigin copyRegion : Coord3D)
      (srcRowPitch srcSlicePitch dstRowPitch dstSlicePitch : Nat)
  | HtoA (srcHost dstArray : Nat) (srcOrigin dstOrigin copyRegion : Coord3D)
      (srcRowPitch srcSlicePitch : Nat)
  | AtoH (srcArray dstHost : Nat) (srcOrigin dstOrigin copyRegion : Coord3D)
      (dstRowPitch dstSlicePitch : Nat)
  | DtoA (srcDevice dstArray : Nat) (srcOrigin dstOrigin copyRegion : Coord3D)
      (srcRowPitch srcSlicePitch : Nat)
  | AtoD (srcArray dstDevice : Nat) (srcOrigin dstOrigin copyRegion : Coord3D)
      (dstRowPitch dstSlicePitch : Nat)
  | AtoA (srcArray dstArray : Nat) (srcOrigin dstOrigin copyRegion : Coord3D)
  deriving DecidableEq, Repr

/-- What the validation calls and does not define: the generic
pre-validations, the conversion to the driver descriptor, the address
resolution `getMemoryObject(ptr, offset)` (the allocation, if any, and the
offset inside it; the first argument numbers the call inside the function, so
that two resolutions of one pointer need not agree), and the eight
pair-specific validators. -/
structure MemEnv where
  ihipMemcpy_validate : Nat → Nat → Nat → hipMemcpyKind → hipError_t
  ihipMemcpy3D_validate : Nat → hipError_t
  getDrvMemcpy3DDesc : Nat → HIP_MEMCPY3D
  getMemoryObject : Nat → Nat → Option (Memory × Nat)
  validate : CopyValidator → hipError_t

/-- `GraphMemcpyNode1D::ValidateParams(dst, src, count, kind)`; `none` when a
null `amd::Memory*` is dereferenced. The four resolutions are the calls 0 to 3:
`origSrcMemory`, `origDstMemory`, `srcMemory`, `dstMemory`. -/
def GraphMemcpyNode1D.ValidateParams (env : MemEnv) (dst src count : Nat)
    (kind : hipMemcpyKind) : Option hipError_t :=
  let status := env.ihipMemcpy_validate dst src count kind
  if status ≠ hipError_t.hipSuccess then some status
  else
    let origSrcMemory := (env.getMemoryObject 0 src).map Prod.fst
    let origDstMemory := (env.getMemoryObject 1 dst).map Prod.fst
    let srcMemory := (env.getMemoryObject 2 src).map Prod.fst
    let dstMemory := (env.getMemoryObject 3 dst).map Prod.fst
    match srcMemory, dstMemory with
    | none, some d =>
      match origDstMemory with
      | none => none
      | some od =>
        if od.device ≠ d.device then some hipError_t.hipErrorInvalidValue
        else if kind ≠ hipMemcpyKind.hipMemcpyHostToDevice ∧
            kind ≠ hipMemcpyKind.hipMemcpyDefault then
          some hipError_t.hipErrorInvalidValue
        else some hipError_t.hipSuccess
    | some s, none =>
      match origSrcMemory with
      | none => none
      | some os =>
        if os.device ≠ s.device then some hipError_t.hipErrorInvalidValue
        else if kind ≠ hipMemcpyKind.hipMemcpyDeviceToHost ∧
            kind ≠ hipMemcpyKind.hipMemcpyDefault then
          some hipError_t.hipErrorInvalidValue
        else some hipError_t.hipSuccess
    | some s, some d =>
      match origDstMemory with
      | none => none
      | some od =>
        if od.device ≠ d.device then some hipError_t.hipErrorInvalidValue
        else
          match origSrcMemory with
          | none => none
          | some os =>
            if os.device ≠ s.device then some hipError_t.hipErrorInvalidValue
            else some hipError_t.hipSuccess
    | none, none => some hipError_t.hipSuccess

/-- An environment with three allocations, at the addresses 4096 and 12288 on
the device 0 and at the address 8192 on the device 1, in which every address
resolves the same way at every call and the generic pre-validations and the
pair-specific validators accept everything. -/
def sampleMemEnv : MemEnv :=
  { ihipMemcpy_validate := fun _ _ _ _ => hipError_t.hipSuccess
    ihipMemcpy3D_validate := fun _ => hipError_t.hipSuccess
    getDrvMemcpy3DDesc := fun _ =>
      { srcXInBytes := 0, srcY := 0, srcZ := 0,
        srcMemoryType := hipMemoryType.hipMemoryTypeDevice,
        srcHost := 0, srcDevice := 4096, srcArray := 0, srcPitch := 64, srcHeight := 1,
        dstXInBytes := 0, dstY := 0, dstZ := 0,
        dstMemoryType := hipMemoryType.hipMemoryTypeDevice,
        dstHost := 0, dstDevice := 8192, dstArray := 0, dstPitch := 64, dstHeight := 1,
        WidthInBytes := 64, Height := 1, Depth := 1 }
    getMemoryObject := fun _ p =>
      if p = 4096 then some ({ device := 0, memFlags := 0 }, 0)
      else if p = 8192 then some ({ device := 1, memFlags := 0 }, 0)
      else if p = 12288 then some ({ device := 0, memFlags := 0 }, 0)
      else none
    validate := fun _ => hipError_t.hipSuccess }


/-- Lines 114 to 125 of `GraphMemcpyNode::ValidateParams`: a Unified source is
typed by the flags of the allocation behind `srcDevice` (call 0 of
`getMemoryObject`); for a host-typed one `srcHost` takes `srcDevice` and
`srcXInBytes` grows by the offset. `none` when the allocation is null and its
flags are read. -/
def unifiedSrc (env : MemEnv) (pCopy : HIP_MEMCPY3D) : Option (hipMemoryType × HIP_MEMCPY3D) :=
  if pCopy.srcMemoryType = hipMemoryType.hipMemoryTypeUnified then
    match env.getMemoryObject 0 pCopy.srcDevice with
    | none => none
    | some (memObj, offset) =>
      if (CL_MEM_SVM_FINE_GRAIN_BUFFER ||| CL_MEM_USE_HOST_PTR) &&& memObj.memFlags ≠ 0 then
        some (hipMemoryType.hipMemoryTypeHost,
          { pCopy with srcHost := pCopy.srcDevice
                       srcXInBytes := (pCopy.srcXInBytes + offset) % 2 ^ 64 })
      else some (hipMemoryType.hipMemoryTypeDevice, pCopy)
  else some (pCopy.srcMemoryType, pCopy)

/-- Lines 127 to 136: the same for the destination (call 1). -/
def unifiedDst (env : MemEnv) (pCopy : HIP_MEMCPY3D) : Option (hipMemoryType × HIP_MEMCPY3D) :=
  if pCopy.dstMemoryType = hipMemoryType.hipMemoryTypeUnified then
    match env.getMemoryObject 1 pCopy.dstDevice with
    | none => none
    | some (memObj, offset) =>
      if (CL_MEM_SVM_FINE_GRAIN_BUFFER ||| CL_MEM_USE_HOST_PTR) &&& memObj.memFlags ≠ 0 then
        some (hipMemoryType.hipMemoryTypeHost,
          { pCopy with dstHost := pCopy.dstDevice
                       dstXInBytes := (pCopy.dstXInBytes + offset) % 2 ^ 64 })
      else some (hipMemoryType.hipMemoryTypeDevice, pCopy)
  else some (pCopy.dstMemoryType, pCopy)

/-- Lines 140 to 147: a host-typed source whose `srcHost` resolves to an
allocation (call 2) becomes device-typed and `srcDevice` takes `srcHost`. -/
def pinnedSrc (env : MemEnv) (srcMemoryType : hipMemoryType) (pCopy : HIP_MEMCPY3D) :
    hipMemoryType × HIP_MEMCPY3D :=
  if srcMemoryType = hipMemoryType.hipMemoryTypeHost then
    if (env.getMemoryObject 2 pCopy.srcHost).isSome = true then
      (hipMemoryType.hipMemoryTypeDevice, { pCopy with srcDevice := pCopy.srcHost })
    else (hipMemoryType.hipMemoryTypeHost, pCopy)
  else (srcMemoryType, pCopy)

/-- Lines 149 to 156: a host-typed destination whose `dstHost` resolves to an
allocation (call 3) becomes device-typed; the assignment of line 154 gives
`dstDevice` the value of `dstDevice`. -/
def pinnedDst (env : MemEnv) (dstMemoryType : hipMemoryType) (pCopy : HIP_MEMCPY3D) :
    hipMemoryType × HIP_MEMCPY3D :=
  if dstMemoryType = hipMemoryType.hipMemoryTypeHost then
    if (env.getMemoryObject 3 pCopy.dstHost).isSome = true then
      (hipMemoryType.hipMemoryTypeDevice, { pCopy with dstDevice := pCopy.dstDevice })
    else (hipMemoryType.hipMemoryTypeHost, pCopy)
  else (dstMemoryType, pCopy)

/-- The status of a validator call as `ValidateParams` passes it on: the
failure, or `hipSuccess`. -/
def validated (env : MemEnv) (c : CopyValidator) : hipError_t × List CopyValidator :=
  if env.validate c ≠ hipError_t.hipSuccess then (env.validate c, [c])
  else (hipError_t.hipSuccess, [c])

/-- Lines 158 to 258: the pair of memory types selects the validator; the
status and the validator calls made. Slice pitches are `size_t` products. -/
def GraphMemcpyNode.dispatch (env : MemEnv) (srcMemoryType dstMemoryType : hipMemoryType)
    (pCopy : HIP_MEMCPY3D) : hipError_t × List CopyValidator :=
  let srcOrigin : Coord3D := (pCopy.srcXInBytes, pCopy.srcY, pCopy.srcZ)
  let dstOrigin : Coord3D := (pCopy.dstXInBytes, pCopy.dstY, pCopy.dstZ)
  let copyRegion : Coord3D := (pCopy.WidthInBytes, pCopy.Height, pCopy.Depth)
  let srcSlice := (pCopy.srcPitch * pCopy.srcHeight) % 2 ^ 64
  let dstSlice := (pCopy.dstPitch * pCopy.dstHeight) % 2 ^ 64
  if srcMemoryType = hipMemoryType.hipMemoryTypeHost ∧
      dstMemoryType = hipMemoryType.hipMemoryTypeDevice then
    validated env (CopyValidator.HtoD pCopy.srcHost pCopy.dstDevice srcOrigin dstOrigin
      copyRegion pCopy.srcPitch srcSlice pCopy.dstPitch dstSlice)
  else if srcMemoryType = hipMemoryType.hipMemoryTypeDevice ∧
      dstMemoryType = hipMemoryType.hipMemoryTypeHost then
    validated env (CopyValidator.DtoH pCopy.srcDevice pCopy.dstHost srcOrigin dstOrigin
      copyRegion pCopy.srcPitch srcSlice pCopy.dstPitch dstSlice)
  else if srcMemoryType = hipMemoryType.hipMemoryTypeDevice ∧
      dstMemoryType = hipMemoryType.hipMemoryTypeDevice then
    validated env (CopyValidator.DtoD pCopy.srcDevice pCopy.dstDevice srcOrigin dstOrigin
      copyRegion pCopy.srcPitch srcSlice pCopy.dstPitch dstSlice)
  else if srcMemoryType = hipMemoryType.hipMemoryTypeHost ∧
      dstMemoryType = hipMemoryType.hipMemoryTypeArray then
    validated env (CopyValidator.HtoA pCopy.srcHost pCopy.dstArray srcOrigin dstOrigin
      copyRegion pCopy.srcPitch srcSlice)
  else if srcMemoryType = hipMemoryType.hipMemoryTypeArray ∧
      dstMemoryType = hipMemoryType.hipMemoryTypeHost then
    validated env (CopyValidator.AtoH pCopy.srcArray pCopy.dstHost srcOrigin dstOrigin
      copyRegion pCopy.dstPitch dstSlice)
  else if srcMemoryType = hipMemoryType.hipMemoryTypeDevice ∧
      dstMemoryType = hipMemoryType.hipMemoryTypeArray then
    validated env (CopyValidator.DtoA pCopy.srcDevice pCopy.dstArray srcOrigin dstOrigin
      copyRegion pCopy.srcPitch srcSlice)
  else if srcMemoryType = hipMemoryType.hipMemoryTypeArray ∧
      dstMemoryType = hipMemoryType.hipMemoryTypeDevice then
    validated env (CopyValidator.AtoD pCopy.srcArray pCopy.dstDevice srcOrigin dstOrigin
      copyRegion pCopy.dstPitch dstSlice)
  else if srcMemoryType = hipMemoryType.hipMemoryTypeArray ∧
      dstMemoryType = hipMemoryType.hipMemoryTypeArray then
    validated env (CopyValidator.AtoA pCopy.srcArray pCopy.dstArray srcOrigin dstOrigin
      copyRegion)
  else (hipError_t.hipErrorInvalidValue, [])

/-- `GraphMemcpyNode::ValidateParams(pNodeParams)`: the status and the
validator calls made; `none` when a null `amd::Memory*` is dereferenced. -/
def GraphMemcpyNode.ValidateParams (env : MemEnv) (pNodeParams : Nat) :
    Option (hipError_t × List CopyValidator) :=
  let status := env.ihipMemcpy3D_validate pNodeParams
  if status ≠ hipError_t.hipSuccess then some (status, [])
  else
    match unifiedSrc env (env.getDrvMemcpy3DDesc pNodeParams) with
    | none => none
    | some s =>
      match unifiedDst env s.2 with
      | none => none
      | some d =>
        let s1 := pinnedSrc env s.1 d.2
        let d1 := pinnedDst env d.1 s1.2
        some (GraphMemcpyNode.dispatch env s1.1 d1.1 d1.2)

/-- The memory types a validator is the one for. -/
def CopyValidator.pair : CopyValidator → hipMemoryType × hipMemoryType
  | CopyValidator.HtoD .. => (hipMemoryType.hipMemoryTypeHost, hipMemoryType.hipMemoryTypeDevice)
  | CopyValidator.DtoH .. => (hipMemoryType.hipMemoryTypeDevice, hipMemoryType.hipMemoryTypeHost)
  | CopyValidator.DtoD .. =>
    (hipMemoryType.hipMemoryTypeDevice, hipMemoryType.hipMemoryTypeDevice)
  | CopyValidator.HtoA .. => (hipMemoryType.hipMemoryTypeHost, hipMemoryType.hipMemoryTypeArray)
  | CopyValidator.AtoH .. => (hipMemoryType.hipMemoryTypeArray, hipMemoryType.hipMemoryTypeHost)
  | CopyValidator.DtoA .. =>
    (hipMemoryType.hipMemoryTypeDevice, hipMemoryType.hipMemoryTypeArray)
  | CopyValidator.AtoD .. =>
    (hipMemoryType.hipMemoryTypeArray, hipMemoryType.hipMemoryTypeDevice)
  | CopyValidator.AtoA .. => (hipMemoryType.hipMemoryTypeArray, hipMemoryType.hipMemoryTypeArray)

/-- The type an endpoint is validated as, by the rules the code applies in
turn: a Unified endpoint is typed by its allocation's flags (host-typed when
they contain fine-grain-SVM or use-host-pointer, `hostOf` then being the device
address), and an endpoint that is host-typed, nominally or by that rule,
becomes device-typed when its host address resolves to an allocation. -/
def resolvedType (env : MemEnv) (callUnified callPinned : Nat) (nominal : hipMemoryType)
    (host device : Nat) : Option hipMemoryType :=
  match nominal with
  | hipMemoryType.hipMemoryTypeUnified =>
    match env.getMemoryObject callUnified device with
    | none => none
    | some (memObj, _) =>
      if (CL_MEM_SVM_FINE_GRAIN_BUFFER ||| CL_MEM_USE_HOST_PTR) &&& memObj.memFlags ≠ 0 then
        if (env.getMemoryObject callPinned device).isSome = true then
          some hipMemoryType.hipMemoryTypeDevice
        else some hipMemoryType.hipMemoryTypeHost
      else some hipMemoryType.hipMemoryTypeDevice
  | hipMemoryType.hipMemoryTypeHost =>
    if (env.getMemoryObject callPinned host).isSome = true then
      some hipMemoryType.hipMemoryTypeDevice
    else some hipMemoryType.hipMemoryTypeHost
  | t => some t

/-- The environment `sampleMemEnv` in which the allocation at 4096 was made
with `CL_MEM_USE_HOST_PTR` and the descriptor is a copy from the Unified
address 4096 to the device address 8192. -/
def unifiedMemEnv : MemEnv :=
  { sampleMemEnv with
    getDrvMemcpy3DDesc := fun p =>
      { sampleMemEnv.getDrvMemcpy3DDesc p with
        srcMemoryType := hipMemoryType.hipMemoryTypeUnified }
    getMemoryObject := fun _ p =>
      if p = 4096 then some ({ device := 0, memFlags := 8 }, 0)
      else if p = 8192 then some ({ device := 1, memFlags := 0 }, 0)
      else none }

/-- The list is a path of the graph: every entry but the first is in the edge
list of the entry before it. -/
def IsPath (h : NodeHeap) (l : List Node) : Prop :=
  List.Chain' (fun x y => y ∈ (h x).edges_) l

/-- Every recorded dependency is an edge: `v` in `dependencies[w]` has `w` in
its edge list. -/
def DepsSound (h : NodeHeap) (dependencies : DepMap) : Prop :=
  ∀ w v, v ∈ (dependencies w).getD [] → w ∈ (h v).edges_

/-- The invariant of `GetRunListUtil` about the shape of its outputs: the
parallel lists are paths, the recorded dependencies are edges and the nodes
recorded as dependencies are visited. -/
structure PathInv (h : NodeHeap) (s : RunState) : Prop where
  paths : ∀ l ∈ s.parallelLists, IsPath h l
  deps : DepsSound h s.dependencies
  seen : ∀ w v, v ∈ (s.dependencies w).getD [] → s.visited v = true

/-- What a returning call `util v s` of the recursive helper guarantees about
the shape of the outputs when `singleList` with `v` appended is a path. -/
def PathSpec (h : NodeHeap) (util : Node → RunState → Option RunState) : Prop :=
  ∀ v s s1, util v s = some s1 → PathInv h s → IsPath h (s.singleList ++ [v]) →
    PathInv h s1 ∧ s1.singleList = [] ∧ ∀ x, s.visited x = true → s1.visited x = true

/-! # Theorems -/

/-! ## Kahn's algorithm -/

theorem topoRelax_inDegree (es : List Node) (inDegree : Node → Int) (q : List Node) (v : Node) :
    (topoRelax es inDegree q).1 v = inDegree v - (es.count v : Int) := by
  induction es generalizing inDegree q with
  | nil => simp [topoRelax]
  | cons e rest ih =>
    simp only [topoRelax]
    rw [ih]
    by_cases hev : e = v
    · subst hev
      simp [Function.update_same]
      ring
    · have hve : v ≠ e := fun x => hev x.symm
      simp [Function.update_noteq hve, List.count_cons, hev]

theorem topoRelax_queue (es : List Node) (inDegree : Node → Int) (q : List Node) :
    ∃ N : List Node, (topoRelax es inDegree q).2 = q ++ N ∧ N.Nodup ∧
      ∀ v, v ∈ N ↔ (0 < inDegree v ∧ inDegree v ≤ (es.count v : Int)) := by
  induction es generalizing inDegree q with
  | nil =>
    refine ⟨[], by simp [topoRelax], List.nodup_nil, ?_⟩
    intro v
    simp only [List.not_mem_nil, List.count_nil, Nat.cast_zero, false_iff]
    omega
  | cons e rest ih =>
    simp only [topoRelax]
    obtain ⟨N, hq, hnd, hmem⟩ := ih (Function.update inDegree e (inDegree e - 1))
      (if Function.update inDegree e (inDegree e - 1) e = 0 then q ++ [e] else q)
    rw [hq]
    by_cases h1 : inDegree e = 1
    · have hz : Function.update inDegree e (inDegree e - 1) e = 0 := by
        simp [Function.update_same, h1]
      refine ⟨e :: N, by rw [if_pos hz]; simp, ?_, ?_⟩
      · refine List.nodup_cons.mpr ⟨?_, hnd⟩
        intro hin
        have := (hmem e).1 hin
        rw [hz] at this
        omega
      · intro v
        by_cases hev : v = e
        · subst hev
          simp only [List.mem_cons, true_or, List.count_cons_self, true_iff]
          rw [h1]
          push_cast
          refine ⟨by norm_num, ?_⟩
          have := Int.natCast_nonneg (List.count v rest)
          omega
        · rw [List.mem_cons, hmem v, Function.update_noteq hev]
          have hev2 : e ≠ v := fun x => hev x.symm
          simp [hev, List.count_cons, hev2]
    · have hz : ¬ Function.update inDegree e (inDegree e - 1) e = 0 := by
        simp only [Function.update_same]
        omega
      refine ⟨N, by rw [if_neg hz], hnd, ?_⟩
      intro v
      rw [hmem v]
      by_cases hev : v = e
      · subst hev
        simp only [Function.update_same, List.count_cons_self]
        push_cast
        omega
      · have hev2 : e ≠ v := fun x => hev x.symm
        rw [Function.update_noteq hev]
        simp [List.count_cons, hev2]

theorem topoInit_spec (h : NodeHeap) (vs : List Node) (s : TopoState) :
    (topoInit h vs s).q = s.q ++ vs.filter (fun e => decide ((h e).GetInDegree = 0)) ∧
    (topoInit h vs s).TopoOrder = s.TopoOrder ∧
    ∀ v, (topoInit h vs s).inDegree v =
      if v ∈ vs then ((h v).GetInDegree : Int) else s.inDegree v := by
  induction vs generalizing s with
  | nil => simp [topoInit]
  | cons e rest ih =>
    simp only [topoInit]
    obtain ⟨hq, ho, hd⟩ := ih
      { q := if (h e).GetInDegree = 0 then s.q ++ [e] else s.q
        inDegree := Function.update s.inDegree e ((h e).GetInDegree : Int)
        TopoOrder := s.TopoOrder }
    refine ⟨?_, ?_, ?_⟩
    · rw [hq]
      by_cases hz : (h e).GetInDegree = 0 <;> simp [hz, List.filter_cons]
    · rw [ho]
    · intro v
      rw [hd v]
      by_cases hv : v ∈ rest
      · simp [hv]
      · by_cases hve : v = e
        · subst hve
          simp [Function.update_same]
        · simp [hv, hve, Function.update_noteq hve]

theorem topoInv_init (h : NodeHeap) (V : List Node) (hV : V.Nodup) :
    TopoInv h V (topoInit h V ⟨[], fun _ => 0, []⟩) := by
  obtain ⟨hq, ho, hd⟩ := topoInit_spec h V ⟨[], fun _ => 0, []⟩
  simp only [List.nil_append] at hq ho
  refine ⟨?_, ?_, ?_, ?_⟩
  · intro x hx
    rw [hq, ho] at hx
    simp only [List.nil_append, List.mem_filter] at hx
    exact hx.1
  · rw [hq, ho]
    simpa using hV.filter _
  · intro v
    rw [hd v, hq, ho]
    by_cases hv : v ∈ V
    · simp [hv, List.mem_filter]
    · simp [hv]
  · intro v hv
    rw [hd v, ho]
    simp [hv, GraphNode.GetInDegree]

theorem topoInv_step (h : NodeHeap) (V : List Node) (s : TopoState) (node : Node)
    (q : List Node) (hs : TopoInv h V s) (hq : s.q = node :: q) :
    TopoInv h V (topoStep h node q s) := by
  obtain ⟨N, hN, hnd, hmem⟩ := topoRelax_queue (h node).edges_ s.inDegree q
  have hdeg := topoRelax_inDegree (h node).edges_ s.inDegree q
  have hsub := hs.sub
  have hnodup := hs.nodup
  have hle := hs.deg_le
  rw [hq] at hsub hnodup hle
  have hNfresh : ∀ x ∈ N, x ∈ V ∧ x ∉ s.TopoOrder ++ node :: q := by
    intro x hx
    have hpos := ((hmem x).1 hx).1
    have := (hle x).not.1 (by omega)
    push_neg at this
    exact this
  have hlist : (topoStep h node q s).TopoOrder ++ (topoStep h node q s).q =
      (s.TopoOrder ++ node :: q) ++ N := by
    simp [topoStep, hN]
  refine ⟨?_, ?_, ?_, ?_⟩
  · intro x hx
    rw [hlist, List.mem_append] at hx
    rcases hx with hx | hx
    · exact hsub x hx
    · exact (hNfresh x hx).1
  · rw [hlist]
    refine List.Nodup.append hnodup hnd ?_
    intro x hx1 hx2
    exact (hNfresh x hx2).2 hx1
  · intro v
    rw [hlist, List.mem_append]
    show (topoRelax (h node).edges_ s.inDegree q).1 v ≤ 0 ↔ _
    rw [hdeg v, hmem v, ← or_assoc, ← hle v]
    have := Int.natCast_nonneg (List.count v (h node).edges_)
    constructor
    · intro hle0
      by_cases hp : s.inDegree v ≤ 0
      · exact Or.inl hp
      · exact Or.inr ⟨by omega, by omega⟩
    · rintro (hp | ⟨_, hp⟩) <;> omega
  · intro v hv
    show (topoRelax (h node).edges_ s.inDegree q).1 v = _
    rw [hdeg v, hs.deg_eq v hv]
    simp only [topoStep, List.map_append, List.sum_append, List.map_cons, List.map_nil,
      List.sum_cons, List.sum_nil]
    push_cast
    ring

/-- The `while` loop terminates within `|V| - |TopoOrder| + 1` iterations and
keeps every property that one iteration keeps. -/
theorem topoLoop_spec (h : NodeHeap) (V : List Node) (P : TopoState → Prop)
    (hstep : ∀ s node q, TopoInv h V s → P s → s.q = node :: q → P (topoStep h node q s))
    (fuel : Nat) (s : TopoState) (hs : TopoInv h V s) (hP : P s)
    (hfuel : V.length < fuel + s.TopoOrder.length) :
    ∃ s1, topoLoop h fuel s = some s1 ∧ TopoInv h V s1 ∧ P s1 ∧ s1.q = [] := by
  induction fuel generalizing s with
  | zero =>
    exfalso
    have hsubp : (s.TopoOrder ++ s.q).Subperm V :=
      List.subperm_of_subset hs.nodup hs.sub
    have := hsubp.length_le
    simp only [List.length_append] at this
    omega
  | succ fuel ih =>
    rcases hq : s.q with _ | ⟨node, q⟩
    · exact ⟨s, by simp [topoLoop, hq], hs, hP, hq⟩
    · simp only [topoLoop, hq]
      apply ih _ (topoInv_step h V s node q hs hq) (hstep s node q hs hP hq)
      have hsubp : (s.TopoOrder ++ s.q).Subperm V :=
        List.subperm_of_subset hs.nodup hs.sub
      have := hsubp.length_le
      simp only [List.length_append, hq, List.length_cons] at this
      simp only [topoStep, List.length_append, List.length_singleton]
      omega

theorem sum_map_count_eq_countP (l d : List Node) (hl : l.Nodup) :
    (l.map (fun u => d.count u)).sum = d.countP (fun x => decide (x ∈ l)) := by
  induction d with
  | nil => simp
  | cons x d ih =>
    have hsplit : (l.map (fun u => (x :: d).count u)).sum =
        (l.map (fun u => d.count u)).sum + l.count x := by
      clear ih hl
      induction l with
      | nil => simp
      | cons a l ihl =>
        rw [List.map_cons, List.sum_cons, ihl, List.map_cons, List.sum_cons]
        by_cases hxa : x = a
        · subst hxa; simp; omega
        · have hax : a ≠ x := fun e => hxa e.symm
          simp [List.count_cons, hxa, hax]; omega
    rw [hsplit, ih, List.countP_cons]
    by_cases hx : x ∈ l
    · simp [hx, List.count_eq_one_of_mem hl hx]
    · simp [hx, List.count_eq_zero_of_not_mem hx]

/-- With consistent lists, a vertex whose counter is at most 0 has all its
dependencies emitted, and a vertex whose counter is positive has a dependency
that is not emitted. -/
theorem topoInv_deps (h : NodeHeap) (g : Graph) (hc : g.Consistent h) (s : TopoState)
    (hs : TopoInv h g.vertices_ s) (v : Node) (hv : v ∈ g.vertices_) :
    (s.inDegree v ≤ 0 → ∀ u ∈ (h v).dependencies_, u ∈ s.TopoOrder) ∧
    (0 < s.inDegree v → ∃ u ∈ (h v).dependencies_, u ∉ s.TopoOrder) := by
  have hnd : s.TopoOrder.Nodup := (List.nodup_append.1 hs.nodup).1
  have hsum : (s.TopoOrder.map (fun u => (h u).edges_.count v)).sum =
      (h v).dependencies_.countP (fun x => decide (x ∈ s.TopoOrder)) := by
    rw [← sum_map_count_eq_countP _ _ hnd]
    congr 1
    apply List.map_congr_left
    intro u hu
    exact hc u (hs.sub u (List.mem_append_left _ hu)) v hv
  have hdeg := hs.deg_eq v hv
  rw [hsum] at hdeg
  have hle : (h v).dependencies_.countP (fun x => decide (x ∈ s.TopoOrder)) ≤
      (h v).dependencies_.length := List.countP_le_length _
  constructor
  · intro h0
    have heq : (h v).dependencies_.countP (fun x => decide (x ∈ s.TopoOrder)) =
        (h v).dependencies_.length := by omega
    have := List.countP_eq_length.1 heq
    simpa using this
  · intro h0
    by_contra hall
    push_neg at hall
    have heq : (h v).dependencies_.countP (fun x => decide (x ∈ s.TopoOrder)) =
        (h v).dependencies_.length := List.countP_eq_length.2 (by simpa using hall)
    omega

theorem topoOrdered_step (h : NodeHeap) (g : Graph) (hc : g.Consistent h) (s : TopoState)
    (node : Node) (q : List Node) (hs : TopoInv h g.vertices_ s) (ho : TopoOrdered h s)
    (hq : s.q = node :: q) : TopoOrdered h (topoStep h node q s) := by
  have hnodup := hs.nodup
  rw [hq] at hnodup
  have hnot : node ∉ s.TopoOrder := by
    intro hin
    have := (List.nodup_append.1 hnodup).2.2
    exact this hin (List.mem_cons_self _ _) 
  have hnodeV : node ∈ g.vertices_ := hs.sub node (by simp [hq])
  have hle : s.inDegree node ≤ 0 := (hs.deg_le node).2 (Or.inr (by simp [hq]))
  have hdeps := (topoInv_deps h g hc s hs node hnodeV).1 hle
  intro v hv u hu
  simp only [topoStep, List.mem_append, List.mem_singleton] at hv ⊢
  rcases hv with hv | hv
  · obtain ⟨hu1, hu2⟩ := ho v hv u hu
    refine ⟨Or.inl hu1, ?_⟩
    rw [List.indexOf_append_of_mem hu1, List.indexOf_append_of_mem hv]
    exact hu2
  · subst hv
    have hu1 := hdeps u hu
    refine ⟨Or.inl hu1, ?_⟩
    rw [List.indexOf_append_of_mem hu1, List.indexOf_append_of_not_mem hnot]
    have := List.indexOf_lt_length.2 hu1
    omega

/-- The state `TopologicalOrder` leaves when the lists are consistent: the loop
ends with enough fuel, the emitted nodes are distinct vertices, every emitted
node comes after all its dependencies, and the counters tell which vertices
were emitted. -/
theorem topoLoop_final (h : NodeHeap) (g : Graph) (hnd : g.vertices_.Nodup)
    (hc : g.Consistent h) (fuel : Nat) (hfuel : g.vertices_.length < fuel) :
    ∃ s1, topoLoop h fuel (topoInit h g.vertices_ ⟨[], fun _ => 0, []⟩) = some s1 ∧
      TopoInv h g.vertices_ s1 ∧ TopoOrdered h s1 ∧ s1.q = [] := by
  have hinit := topoInv_init h g.vertices_ hnd
  have ho0 : TopoOrdered h (topoInit h g.vertices_ ⟨[], fun _ => 0, []⟩) := by
    intro v hv
    rw [(topoInit_spec h g.vertices_ ⟨[], fun _ => 0, []⟩).2.1] at hv
    simp at hv
  exact topoLoop_spec h g.vertices_ (TopoOrdered h)
    (fun s node q hs hP hq => topoOrdered_step h g hc s node q hs hP hq)
    fuel _ hinit ho0 (by omega)

theorem edge_mem_dependencies (h : NodeHeap) (g : Graph) (hc : g.Consistent h) (u v : Node)
    (he : g.Edge h u v) : u ∈ (h v).dependencies_ := by
  obtain ⟨hu, hv, hin⟩ := he
  have := hc u hu v hv
  exact List.count_pos_iff.1 (by rw [← this]; exact List.count_pos_iff.2 hin)

theorem transGen_before (h : NodeHeap) (g : Graph) (hc : g.Consistent h) (s : TopoState)
    (ho : TopoOrdered h s) (a b : Node) (hab : Relation.TransGen (g.Edge h) a b)
    (hb : b ∈ s.TopoOrder) :
    a ∈ s.TopoOrder ∧ s.TopoOrder.indexOf a < s.TopoOrder.indexOf b := by
  induction hab with
  | single he => exact ho _ hb _ (edge_mem_dependencies h g hc _ _ he)
  | tail _ he ih =>
    obtain ⟨h1, h2⟩ := ho _ hb _ (edge_mem_dependencies h g hc _ _ he)
    obtain ⟨h3, h4⟩ := ih h1
    exact ⟨h3, by omega⟩

/-- In an acyclic graph whose dependency lists stay inside the graph, every
vertex is emitted. -/
theorem topo_all_emitted (h : NodeHeap) (g : Graph) (hc : g.Consistent h)
    (hd : g.DependenciesInside h) (ha : g.Acyclic h) (s : TopoState)
    (hs : TopoInv h g.vertices_ s) (hq : s.q = []) :
    ∀ v ∈ g.vertices_, v ∈ s.TopoOrder := by
  have key : ∀ v ∈ g.vertices_, v ∉ s.TopoOrder →
      ∃ u, g.Edge h u v ∧ u ∉ s.TopoOrder := by
    intro v hv hnot
    have hpos : 0 < s.inDegree v := by
      have := (hs.deg_le v).not.2 (by simp [hq, hv, hnot])
      omega
    obtain ⟨u, hu, hun⟩ := (topoInv_deps h g hc s hs v hv).2 hpos
    have huV := hd v hv u hu
    refine ⟨u, ⟨huV, hv, ?_⟩, hun⟩
    have := hc u huV v hv
    exact List.count_pos_iff.1 (by rw [this]; exact List.count_pos_iff.2 hu)
  let r : {x // x ∈ g.vertices_} → {x // x ∈ g.vertices_} → Prop :=
    fun a b => Relation.TransGen (g.Edge h) a.1 b.1
  haveI : IsTrans _ r := ⟨fun _ _ _ hab hbc => Relation.TransGen.trans hab hbc⟩
  haveI : IsIrrefl _ r := ⟨fun a haa => ha a.1 haa⟩
  have wf : WellFounded r := Finite.wellFounded_of_trans_of_irrefl r
  intro v hv
  have : ∀ a : {x // x ∈ g.vertices_}, a.1 ∈ s.TopoOrder := by
    intro a
    induction a using wf.induction with
    | _ a ih =>
      by_contra hnot
      obtain ⟨u, hue, hun⟩ := key a.1 a.2 hnot
      exact hun (ih ⟨u, hue.1⟩ (Relation.TransGen.single hue))
  exact this ⟨v, hv⟩

theorem TopologicalOrder_eq (h : NodeHeap) (g : Graph) (fuel : Nat) (s1 : TopoState)
    (hrun : topoLoop h fuel (topoInit h g.vertices_ ⟨[], fun _ => 0, []⟩) = some s1) :
    g.TopologicalOrder h [] fuel =
      some (decide (g.vertices_.length = s1.TopoOrder.length), s1.TopoOrder) := by
  simp [Graph.TopologicalOrder, hrun, Graph.GetNodeCount]

/-- A graph whose edges all go from a lower to a higher rank has no cycle. -/
theorem acyclic_of_rank (h : NodeHeap) (g : Graph) (rank : Node → Nat)
    (hr : ∀ u ∈ g.vertices_, ∀ v ∈ (h u).edges_, rank u < rank v) : g.Acyclic h := by
  have hlt : ∀ a b, Relation.TransGen (g.Edge h) a b → rank a < rank b := by
    intro a b hab
    induction hab with
    | single he => exact hr _ he.1 _ he.2.2
    | tail _ he ih => exact lt_trans ih (hr _ he.1 _ he.2.2)
  intro v hv
  exact lt_irrefl _ (hlt v v hv)

/-- C1 (amended): for a graph with distinct vertices, mutually consistent edge
and dependency lists, edge lists and dependency lists that stay inside the
graph, and no directed cycle, `TopologicalOrder` called with an empty output
vector returns true (given fuel above the vertex count) and the output is a
permutation of the vertices in which, for every edge `u -> v`, `u` has a
smaller index than `v`. -/
theorem TopologicalOrder_dag (h : NodeHeap) (g : Graph) (hnd : g.vertices_.Nodup)
    (hc : g.Consistent h) (he : g.EdgesInside h) (hd : g.DependenciesInside h)
    (ha : g.Acyclic h) (fuel : Nat) (hfuel : g.vertices_.length < fuel) :
    ∃ order, g.TopologicalOrder h [] fuel = some (true, order) ∧
      order.Perm g.vertices_ ∧
      ∀ u ∈ g.vertices_, ∀ v ∈ (h u).edges_, order.indexOf u < order.indexOf v := by
  obtain ⟨s1, hrun, hinv, hord, hq⟩ := topoLoop_final h g hnd hc fuel hfuel
  have hall := topo_all_emitted h g hc hd ha s1 hinv hq
  have hnd1 : s1.TopoOrder.Nodup := (List.nodup_append.1 hinv.nodup).1
  have hperm : s1.TopoOrder.Perm g.vertices_ :=
    (List.perm_ext_iff_of_nodup hnd1 hnd).2
      (fun a => ⟨fun ha1 => hinv.sub a (List.mem_append_left _ ha1), hall a⟩)
  refine ⟨s1.TopoOrder, ?_, hperm, ?_⟩
  · rw [TopologicalOrder_eq h g fuel s1 hrun, hperm.length_eq]
    simp
  · intro u hu v hv
    have hvV := he u hu v hv
    exact (hord v (hall v hvV) u (edge_mem_dependencies h g hc u v ⟨hu, hvV, hv⟩)).2

/-- Witness of C1 (amended): the diamond graph. -/
theorem TopologicalOrder_dag_witness :
    ∃ order, diamondGraph.TopologicalOrder diamondHeap [] 5 = some (true, order) ∧
      order.Perm diamondGraph.vertices_ ∧
      ∀ u ∈ diamondGraph.vertices_, ∀ v ∈ (diamondHeap u).edges_,
        order.indexOf u < order.indexOf v :=
  TopologicalOrder_dag diamondHeap diamondGraph (by decide)
    (by unfold Graph.Consistent; decide) (by unfold Graph.EdgesInside; decide)
    (by unfold Graph.DependenciesInside; decide)
    (acyclic_of_rank diamondHeap diamondGraph (fun n => n) (by decide)) 5 (by decide)

/-- C1 as stated fails: `foreignDepGraph` has distinct vertices, its lists are
consistent for every pair of nodes of the heap, its (empty) edge lists stay
inside the graph and the heap has no cycle at all, yet `TopologicalOrder`
returns false with an empty order, because the only vertex waits for a
dependency that is not a vertex. -/
theorem TopologicalOrder_foreign_dependency :
    foreignDepGraph.vertices_.Nodup ∧
    (∀ u v, (foreignDepHeap u).edges_.count v = (foreignDepHeap v).dependencies_.count u) ∧
    foreignDepGraph.EdgesInside foreignDepHeap ∧
    (∀ v, ¬ Relation.TransGen (fun a b => b ∈ (foreignDepHeap a).edges_) v v) ∧
    foreignDepGraph.Acyclic foreignDepHeap ∧
    ∀ fuel, foreignDepGraph.TopologicalOrder foreignDepHeap [] (fuel + 1) =
      some (false, []) := by
  have hrank : ∀ a b, Relation.TransGen (fun a b => b ∈ (foreignDepHeap a).edges_) a b →
      a < b := by
    intro a b hab
    induction hab with
    | single he =>
      simp only [foreignDepHeap, mkNode] at he
      split_ifs at he <;> simp_all
    | tail _ he ih =>
      simp only [foreignDepHeap, mkNode] at he
      split_ifs at he <;> simp_all
  refine ⟨by decide, ?_, by unfold Graph.EdgesInside; decide, ?_, ?_, ?_⟩
  · intro u v
    simp only [foreignDepHeap, mkNode]
    split_ifs <;> simp_all [List.count_cons]
  · intro v hv
    exact lt_irrefl _ (hrank v v hv)
  · exact acyclic_of_rank _ _ (fun n => n) (by decide)
  · intro fuel
    rfl

theorem transGen_edge_mem (h : NodeHeap) (g : Graph) (a b : Node)
    (hab : Relation.TransGen (g.Edge h) a b) : a ∈ g.vertices_ := by
  induction hab with
  | single he => exact he.1
  | tail _ _ ih => exact ih

/-- C2: for a graph with distinct vertices and mutually consistent edge and
dependency lists, `TopologicalOrder` called with an empty output vector (and
fuel above the vertex count) returns false when the graph contains a directed
cycle, the produced order is then strictly shorter than the vertex count and
holds no vertex lying on a cycle; conversely, it returns true only when the
graph is acyclic. -/
theorem TopologicalOrder_cycle (h : NodeHeap) (g : Graph) (hnd : g.vertices_.Nodup)
    (hc : g.Consistent h) (fuel : Nat) (hfuel : g.vertices_.length < fuel) :
    ((∃ c, Relation.TransGen (g.Edge h) c c) →
      ∃ order, g.TopologicalOrder h [] fuel = some (false, order) ∧
        order.length < g.vertices_.length ∧
        ∀ c, Relation.TransGen (g.Edge h) c c → c ∉ order) ∧
    (∀ order, g.TopologicalOrder h [] fuel = some (true, order) → g.Acyclic h) := by
  obtain ⟨s1, hrun, hinv, hord, hq⟩ := topoLoop_final h g hnd hc fuel hfuel
  have hnd1 : s1.TopoOrder.Nodup := (List.nodup_append.1 hinv.nodup).1
  have hnot : ∀ c, Relation.TransGen (g.Edge h) c c → c ∉ s1.TopoOrder := by
    intro c hcc hin
    exact lt_irrefl _ (transGen_before h g hc s1 hord c c hcc hin).2
  have hshort : ∀ c, Relation.TransGen (g.Edge h) c c →
      s1.TopoOrder.length < g.vertices_.length := by
    intro c hcc
    have hcV := transGen_edge_mem h g c c hcc
    have hsp : (c :: s1.TopoOrder).Subperm g.vertices_ := by
      apply List.subperm_of_subset (List.nodup_cons.2 ⟨hnot c hcc, hnd1⟩)
      intro x hx
      rcases List.mem_cons.1 hx with hx | hx
      · exact hx ▸ hcV
      · exact hinv.sub x (List.mem_append_left _ hx)
    have := hsp.length_le
    simp only [List.length_cons] at this
    omega
  rw [TopologicalOrder_eq h g fuel s1 hrun]
  constructor
  · rintro ⟨c, hcc⟩
    refine ⟨s1.TopoOrder, ?_, hshort c hcc, hnot⟩
    have := hshort c hcc
    simp only [Option.some.injEq, Prod.mk.injEq, and_true, decide_eq_false_iff_not]
    omega
  · intro order heq c hcc
    have := hshort c hcc
    simp only [Option.some.injEq, Prod.mk.injEq, decide_eq_true_eq] at heq
    omega

/-- Witness of C2: the two-cycle `1 -> 2 -> 1`. -/
theorem TopologicalOrder_cycle_witness :
    ∃ order, twoCycleGraph.TopologicalOrder twoCycleHeap [] 3 = some (false, order) ∧
      order.length < twoCycleGraph.vertices_.length ∧
      ∀ c, Relation.TransGen (twoCycleGraph.Edge twoCycleHeap) c c → c ∉ order :=
  (TopologicalOrder_cycle twoCycleHeap twoCycleGraph (by decide)
    (by unfold Graph.Consistent; decide) 3 (by decide)).1
    ⟨1, Relation.TransGen.tail
      (Relation.TransGen.single (by unfold Graph.Edge; decide : twoCycleGraph.Edge twoCycleHeap 1 2))
      (by unfold Graph.Edge; decide : twoCycleGraph.Edge twoCycleHeap 2 1)⟩

/-! ## `GetRunList` on the fork and on the diamond -/

/-- C3 fails on the code: the fork `V -> X`, `V -> Y` with vertices inserted as
`Y, V, X` (`Y = 1`, `V = 2`, `X = 3`) is a DAG with consistent lists, distinct
vertices and no sub-graph node; `GetRunList` returns the lists `[Y]` and
`[V, X]` with an empty dependency map, so the edge `V -> Y` has its endpoints in
different lists and nothing recorded that relates them. -/
theorem GetRunList_fork_edge_dropped :
    forkGraph.vertices_.Nodup ∧ forkGraph.Consistent forkHeap ∧
    forkGraph.EdgesInside forkHeap ∧ forkGraph.DependenciesInside forkHeap ∧
    forkGraph.Acyclic forkHeap ∧
    (∀ v ∈ forkGraph.vertices_, (forkHeap v).type_ ≠ hipGraphNodeType.Graph) ∧
    forkGraph.Edge forkHeap 2 1 ∧
    (∀ fuel, forkGraph.GetRunList (fun _ out => out) forkHeap [] (fun _ => none) (fuel + 2) =
      some ([[1], [2, 3]], fun _ => none)) ∧
    ¬ Honoured [[1], [2, 3]] (fun _ => none) 2 1 := by
  have hacyc : forkGraph.Acyclic forkHeap := by
    apply acyclic_of_rank forkHeap forkGraph (fun n => if n = 2 then 0 else 1)
    unfold forkGraph
    decide
  have hlast : ∀ x, ¬ WaitsFor [[1], [2, 3]] (fun _ => none) x 1 := by
    intro x hx
    rcases hx with ⟨l, hl, hx1, h1, hlt⟩ | hx
    · simp only [List.mem_cons, List.mem_singleton, List.not_mem_nil, or_false] at hl
      rcases hl with rfl | rfl
      · simp only [List.mem_singleton] at hx1
        subst hx1
        exact lt_irrefl _ hlt
      · simp at h1
    · simp at hx
  refine ⟨by decide, by unfold Graph.Consistent; decide, by unfold Graph.EdgesInside; decide,
    by unfold Graph.DependenciesInside; decide, hacyc, by decide,
    by unfold Graph.Edge; decide, ?_, ?_⟩
  · intro fuel
    rfl
  · intro hh
    cases hh with
    | single hw => exact hlast _ hw
    | tail _ hw => exact hlast _ hw

/-- Evaluation of `GetRunList` on a diamond over four distinct nodes. -/
theorem GetRunList_diamond_eval
    (childRunList : Node → List (List Node) × DepMap → List (List Node) × DepMap)
    (h : NodeHeap) (g : Graph) (a b c d : Node)
    (hab : a ≠ b) (hac : a ≠ c) (had : a ≠ d) (hbc : b ≠ c) (hbd : b ≠ d) (hcd : c ≠ d)
    (hV : g.vertices_ = [a, b, c, d])
    (hsub : ∀ v ∈ g.vertices_, (h v).type_ ≠ hipGraphNodeType.Graph)
    (ha : (h a).edges_ = [b, c]) (hb : (h b).edges_ = [d]) (hc : (h c).edges_ = [d])
    (hd : (h d).edges_ = []) (fuel : Nat) :
    g.GetRunList childRunList h [] (fun _ => none) (fuel + 3) =
      some ([[a, b, d], [c]], pushDependency (pushDependency (fun _ => none) c a) d c) := by
  have hta : (h a).type_ ≠ hipGraphNodeType.Graph := hsub a (by simp [hV])
  have htb : (h b).type_ ≠ hipGraphNodeType.Graph := hsub b (by simp [hV])
  have htc : (h c).type_ ≠ hipGraphNodeType.Graph := hsub c (by simp [hV])
  have htd : (h d).type_ ≠ hipGraphNodeType.Graph := hsub d (by simp [hV])
  simp [Graph.GetRunList, hV, runListLoop, nodeGetRunList, hta, htb, htc, htd,
    Graph.GetRunListUtil, runEdges, ha, hb, hc, hd, Function.update_apply, mergeLists,
    pushDependency, hab, hac, had, hbc, hbd, hcd, hab.symm, hac.symm, had.symm, hbc.symm,
    hbd.symm, hcd.symm]

/-- C4 as stated fails: on the diamond (`A = 1`, `B = 2`, `C = 3`, `D = 4`)
`GetRunList` records `C` alone in `dependencies[D]`; `B` is not in it. -/
theorem GetRunList_diamond_B_not_recorded :
    ∃ lists deps,
      diamondGraph.GetRunList (fun _ out => out) diamondHeap [] (fun _ => none) 5 =
        some (lists, deps) ∧
      deps 4 = some [3] ∧ ¬ (2 ∈ (deps 4).getD [] ∧ 3 ∈ (deps 4).getD []) :=
  ⟨[[1, 2, 4], [3]], pushDependency (pushDependency (fun _ => none) 3 1) 4 3,
    GetRunList_diamond_eval (fun _ out => out) diamondHeap diamondGraph 1 2 3 4
      (by decide) (by decide) (by decide) (by decide) (by decide) (by decide) rfl (by decide)
      rfl rfl rfl rfl 2,
    rfl, by decide⟩

/-- C4 (amended): on the diamond `A -> B`, `A -> C`, `B -> D`, `C -> D` with
vertices inserted as `A, B, C, D` and `A`'s edge list `B` then `C`, `GetRunList`
from empty outputs produces exactly the two parallel lists `[A, B, D]` (through
`B`) and `[C]` (through `C`), and the dependency map has exactly two entries:
`dependencies[C] = [A]` and `dependencies[D] = [C]`. `B` is not recorded for
`D`: it precedes `D` inside the first list. -/
theorem GetRunList_diamond
    (childRunList : Node → List (List Node) × DepMap → List (List Node) × DepMap)
    (h : NodeHeap) (g : Graph) (a b c d : Node)
    (hab : a ≠ b) (hac : a ≠ c) (had : a ≠ d) (hbc : b ≠ c) (hbd : b ≠ d) (hcd : c ≠ d)
    (hV : g.vertices_ = [a, b, c, d])
    (hsub : ∀ v ∈ g.vertices_, (h v).type_ ≠ hipGraphNodeType.Graph)
    (ha : (h a).edges_ = [b, c]) (hb : (h b).edges_ = [d]) (hc : (h c).edges_ = [d])
    (hd : (h d).edges_ = []) (fuel : Nat) :
    ∃ deps, g.GetRunList childRunList h [] (fun _ => none) (fuel + 3) =
        some ([[a, b, d], [c]], deps) ∧
      deps c = some [a] ∧ deps d = some [c] ∧ (∀ k, k ≠ c → k ≠ d → deps k = none) ∧
      Precedes [a, b, d] b d := by
  refine ⟨pushDependency (pushDependency (fun _ => none) c a) d c,
    GetRunList_diamond_eval childRunList h g a b c d hab hac had hbc hbd hcd hV hsub ha hb hc hd
      fuel, ?_, ?_, ?_, ?_⟩
  · simp [pushDependency, Function.update_apply, hcd]
  · simp [pushDependency, Function.update_apply, hcd.symm]
  · intro k hkc hkd
    simp [pushDependency, Function.update_apply, hkc, hkd]
  · refine ⟨by simp, by simp, ?_⟩
    rw [List.indexOf_cons_ne _ hab, List.indexOf_cons_self, List.indexOf_cons_ne _ had,
      List.indexOf_cons_ne _ hbd, List.indexOf_cons_self]
    omega

/-- Witness of C4 (amended): the diamond over the addresses 1, 2, 3, 4. -/
theorem GetRunList_diamond_witness :
    ∃ deps, diamondGraph.GetRunList (fun _ out => out) diamondHeap [] (fun _ => none) 3 =
        some ([[1, 2, 4], [3]], deps) ∧
      deps 3 = some [1] ∧ deps 4 = some [3] ∧ (∀ k, k ≠ 3 → k ≠ 4 → deps k = none) ∧
      Precedes [1, 2, 4] 2 4 :=
  GetRunList_diamond (fun _ out => out) diamondHeap diamondGraph 1 2 3 4
    (by decide) (by decide) (by decide) (by decide) (by decide) (by decide) rfl (by decide)
    rfl rfl rfl rfl 0

/-! ## `GetRunList` partitions the vertex set -/

theorem mergeLists_perm (adjNode : Node) (lists : List (List Node)) (singleList : List Node) :
    ((mergeLists adjNode lists singleList).2 ++
      (mergeLists adjNode lists singleList).1.flatten).Perm (singleList ++ lists.flatten) := by
  induction lists generalizing singleList with
  | nil => simp [mergeLists]
  | cons list rest ih =>
    simp only [mergeLists]
    rw [List.perm_iff_count]
    intro a
    split_ifs with hhead
    · have := List.perm_iff_count.1 (ih []) a
      simp only [List.flatten_cons, List.count_append, List.nil_append] at this ⊢
      omega
    · have := List.perm_iff_count.1 (ih singleList) a
      simp only [List.flatten_cons, List.count_append] at this ⊢
      omega

theorem mergeLists_nonempty (adjNode : Node) (lists : List (List Node)) (singleList : List Node)
    (hne : ∀ l ∈ lists, l ≠ []) :
    ∀ l ∈ (mergeLists adjNode lists singleList).1, l ≠ [] := by
  induction lists generalizing singleList with
  | nil => simp [mergeLists]
  | cons list rest ih =>
    have hlist : list ≠ [] := hne list (List.mem_cons_self _ _)
    have hrest : ∀ l ∈ rest, l ≠ [] := fun l hl => hne l (List.mem_cons_of_mem _ hl)
    simp only [mergeLists]
    split_ifs with hhead
    · intro l hl
      rcases List.mem_cons.1 hl with rfl | hl
      · simp [hlist]
      · exact ih [] hrest l hl
    · intro l hl
      rcases List.mem_cons.1 hl with rfl | hl
      · exact hlist
      · exact ih singleList hrest l hl

/-- The invariant only looks at the lists through the multiset of their
entries. -/
theorem runInv_of_perm (V : List Node) (s t : RunState) (hs : RunInv V s)
    (hvis : t.visited = s.visited)
    (hperm : (t.singleList ++ t.parallelLists.flatten).Perm (s.singleList ++ s.parallelLists.flatten))
    (hne : ∀ l ∈ t.parallelLists, l ≠ []) : RunInv V t :=
  { nodup := hperm.nodup_iff.2 hs.nodup
    mem := fun x => by rw [hvis, hs.mem x, hperm.mem_iff]
    nonempty := hne
    sub := fun x hx => hs.sub x (by rw [← hvis]; exact hx) }

theorem runInv_length_le (V : List Node) (s : RunState) (hs : RunInv V s) :
    (s.singleList ++ s.parallelLists.flatten).length ≤ V.length :=
  (List.subperm_of_subset hs.nodup
    (fun x hx => hs.sub x ((hs.mem x).2 hx))).length_le

theorem runInv_length_mono (V : List Node) (s t : RunState) (hs : RunInv V s) (ht : RunInv V t)
    (hmono : ∀ x, s.visited x = true → t.visited x = true) :
    (s.singleList ++ s.parallelLists.flatten).length ≤
      (t.singleList ++ t.parallelLists.flatten).length :=
  (List.subperm_of_subset hs.nodup
    (fun x hx => (ht.mem x).1 (hmono x ((hs.mem x).2 hx)))).length_le

theorem runInv_congr (V : List Node) (s t : RunState) (hs : RunInv V s)
    (hvis : t.visited = s.visited) (hsl : t.singleList = s.singleList)
    (hpl : t.parallelLists = s.parallelLists) : RunInv V t :=
  runInv_of_perm V s t hs hvis (by rw [hsl, hpl]) (by rw [hpl]; exact hs.nonempty)

theorem runInv_unvisited_lt (V : List Node) (s : RunState) (hs : RunInv V s) (v : Node)
    (hv : v ∈ V) (hnot : s.visited v = false) :
    (s.singleList ++ s.parallelLists.flatten).length < V.length := by
  have hvn : v ∉ s.singleList ++ s.parallelLists.flatten := by
    intro hin
    have := (hs.mem v).2 hin
    rw [hnot] at this
    exact Bool.false_ne_true this
  have hsp : (v :: (s.singleList ++ s.parallelLists.flatten)).Subperm V := by
    apply List.subperm_of_subset (List.nodup_cons.2 ⟨hvn, hs.nodup⟩)
    intro x hx
    rcases List.mem_cons.1 hx with hx | hx
    · exact hx ▸ hv
    · exact hs.sub x ((hs.mem x).2 hx)
  have := hsp.length_le
  simp only [List.length_cons] at this
  omega

theorem runEdges_spec (V : List Node) (util : Node → RunState → Option RunState) (bound : Nat)
    (hutil : UtilSpec V util bound) (v : Node) (es : List Node) (hes : ∀ x ∈ es, x ∈ V)
    (s : RunState) (hs : RunInv V s)
    (hb : V.length ≤ bound + (s.singleList ++ s.parallelLists.flatten).length) :
    ∃ s1, runEdges util v es s = some s1 ∧ RunInv V s1 ∧
      (∀ x, s.visited x = true → s1.visited x = true) := by
  induction es generalizing s with
  | nil => exact ⟨s, rfl, hs, fun _ hx => hx⟩
  | cons adjNode rest ih =>
    have hrest : ∀ x ∈ rest, x ∈ V := fun x hx => hes x (List.mem_cons_of_mem _ hx)
    simp only [runEdges]
    by_cases hvis : s.visited adjNode = false
    · rw [if_pos hvis]
      have hs1 : RunInv V (if s.singleList = [] then
          { s with dependencies := pushDependency s.dependencies adjNode v } else s) := by
        split_ifs
        · exact runInv_congr V s _ hs rfl rfl rfl
        · exact hs
      obtain ⟨s2, hrun, hs2, _, hmono, _⟩ := hutil adjNode _ hs1
        (by split_ifs <;> exact hvis) (hes adjNode (List.mem_cons_self _ _))
        (by split_ifs <;> exact hb)
      simp only [hrun]
      have hmono1 : ∀ x, s.visited x = true → s2.visited x = true := by
        intro x hx
        apply hmono x
        split_ifs <;> exact hx
      have hlen := runInv_length_mono V s s2 hs hs2 hmono1
      obtain ⟨s3, hrun3, hs3, hmono3⟩ := ih hrest s2 hs2 (by omega)
      exact ⟨s3, hrun3, hs3, fun x hx => hmono3 x (hmono1 x hx)⟩
    · rw [if_neg hvis]
      have hperm := mergeLists_perm adjNode s.parallelLists s.singleList
      have hne := mergeLists_nonempty adjNode s.parallelLists s.singleList hs.nonempty
      have hs1 : RunInv V { s with parallelLists := (mergeLists adjNode s.parallelLists s.singleList).1
                                   singleList := (mergeLists adjNode s.parallelLists s.singleList).2 } :=
        runInv_of_perm V s _ hs rfl hperm hne
      split_ifs with hsl
      · have hs2 : RunInv V
            { s with parallelLists := (mergeLists adjNode s.parallelLists s.singleList).1
                     singleList := (mergeLists adjNode s.parallelLists s.singleList).2
                     dependencies := pushDependency s.dependencies adjNode v } :=
          runInv_congr V _ _ hs1 rfl rfl rfl
        obtain ⟨s3, hrun3, hs3, hmono3⟩ := ih hrest _ hs2
          (by have := hperm.length_eq; dsimp only at this ⊢; omega)
        exact ⟨s3, hrun3, hs3, fun x hx => hmono3 x hx⟩
      · obtain ⟨s3, hrun3, hs3, hmono3⟩ := ih hrest _ hs1
          (by have := hperm.length_eq; dsimp only at this ⊢; omega)
        exact ⟨s3, hrun3, hs3, fun x hx => hmono3 x hx⟩

theorem GetRunListUtil_spec (h : NodeHeap) (V : List Node)
    (he : ∀ u ∈ V, ∀ x ∈ (h u).edges_, x ∈ V) (fuel : Nat) :
    UtilSpec V (Graph.GetRunListUtil h fuel) fuel := by
  induction fuel with
  | zero =>
    intro v s hs hnot hv hb
    have := runInv_unvisited_lt V s hs v hv hnot
    omega
  | succ fuel ih =>
    intro v s hs hnot hv hb
    have hlt := runInv_unvisited_lt V s hs v hv hnot
    have hvn : v ∉ s.singleList ++ s.parallelLists.flatten := by
      intro hin
      have := (hs.mem v).2 hin
      rw [hnot] at this
      exact Bool.false_ne_true this
    have hs0 : RunInv V { s with visited := Function.update s.visited v true
                                 singleList := s.singleList ++ [v] } := by
      refine ⟨?_, ?_, hs.nonempty, ?_⟩
      · have : (s.singleList ++ [v] ++ s.parallelLists.flatten).Perm
            (v :: (s.singleList ++ s.parallelLists.flatten)) := by
          rw [List.perm_iff_count]
          intro a
          simp only [List.count_append, List.count_cons, List.count_nil]
          omega
        exact this.nodup_iff.2 (List.nodup_cons.2 ⟨hvn, hs.nodup⟩)
      · intro x
        by_cases hxv : x = v
        · subst hxv
          simp
        · simp only [Function.update_noteq hxv, hs.mem x, List.mem_append, List.mem_singleton,
            hxv, or_false]
      · intro x hx
        by_cases hxv : x = v
        · exact hxv ▸ hv
        · have hx1 : s.visited x = true := by
            simpa [Function.update_noteq hxv] using hx
          exact hs.sub x hx1
    obtain ⟨s1, hrun, hs1, hmono⟩ := runEdges_spec V (Graph.GetRunListUtil h fuel) fuel ih v
      (h v).edges_ (he v hv) _ hs0
      (by simp only [List.length_append, List.length_singleton] at hb hlt ⊢; omega)
    simp only [Graph.GetRunListUtil, hrun]
    have hmono1 : ∀ x, s.visited x = true → s1.visited x = true := by
      intro x hx
      apply hmono x
      by_cases hxv : x = v
      · subst hxv; simp
      · simpa [Function.update_noteq hxv] using hx
    have hv1 : s1.visited v = true := hmono v (by simp)
    by_cases hsl : s1.singleList = []
    · refine ⟨s1, by simp [hsl], hs1, hsl, hmono1, hv1⟩
    · refine ⟨{ s1 with parallelLists := s1.parallelLists ++ [s1.singleList]
                        singleList := [] }, by rw [if_pos hsl], ?_, rfl, hmono1, hv1⟩
      refine runInv_of_perm V s1 _ hs1 rfl ?_ ?_
      · rw [List.perm_iff_count]
        intro a
        simp only [List.flatten_append, List.flatten_cons, List.flatten_nil, List.count_append,
          List.count_nil]
        omega
      · intro l hl
        rcases List.mem_append.1 hl with hl | hl
        · exact hs1.nonempty l hl
        · simp only [List.mem_singleton] at hl
          exact hl ▸ hsl

theorem runListLoop_spec
    (childRunList : Node → List (List Node) × DepMap → List (List Node) × DepMap)
    (h : NodeHeap) (V : List Node) (he : ∀ u ∈ V, ∀ x ∈ (h u).edges_, x ∈ V)
    (fuel : Nat) (hfuel : V.length ≤ fuel) (vs : List Node) (hvs : ∀ x ∈ vs, x ∈ V)
    (hty : ∀ x ∈ vs, (h x).type_ ≠ hipGraphNodeType.Graph)
    (s : RunState) (hs : RunInv V s) (hsl : s.singleList = []) :
    ∃ s1, runListLoop childRunList h fuel vs s = some s1 ∧ RunInv V s1 ∧ s1.singleList = [] ∧
      (∀ x, s.visited x = true → s1.visited x = true) ∧
      ∀ x ∈ vs, s1.visited x = true := by
  induction vs generalizing s with
  | nil => exact ⟨s, rfl, hs, hsl, fun _ hx => hx, by simp⟩
  | cons node rest ih =>
    have hrest : ∀ x ∈ rest, x ∈ V := fun x hx => hvs x (List.mem_cons_of_mem _ hx)
    have htyr : ∀ x ∈ rest, (h x).type_ ≠ hipGraphNodeType.Graph :=
      fun x hx => hty x (List.mem_cons_of_mem _ hx)
    have hnode : (h node).type_ ≠ hipGraphNodeType.Graph := hty node (List.mem_cons_self _ _)
    simp only [runListLoop, nodeGetRunList, if_neg hnode]
    by_cases hvis : s.visited node = false
    · rw [if_pos hvis]
      obtain ⟨s2, hrun, hs2, hsl2, hmono2, hv2⟩ := GetRunListUtil_spec h V he fuel node s hs hvis
        (hvs node (List.mem_cons_self _ _)) (by omega)
      have hrun1 : Graph.GetRunListUtil h fuel node
          { visited := s.visited, singleList := s.singleList, parallelLists := s.parallelLists,
            dependencies := s.dependencies } = some s2 := hrun
      simp only [hrun1]
      obtain ⟨s3, hrun3, hs3, hsl3, hmono3, hall3⟩ := ih hrest htyr s2 hs2 hsl2
      refine ⟨s3, hrun3, hs3, hsl3, fun x hx => hmono3 x (hmono2 x hx), ?_⟩
      intro x hx
      rcases List.mem_cons.1 hx with rfl | hx
      · exact hmono3 x hv2
      · exact hall3 x hx
    · rw [if_neg hvis]
      obtain ⟨s3, hrun3, hs3, hsl3, hmono3, hall3⟩ := ih hrest htyr s hs hsl
      refine ⟨s3, hrun3, hs3, hsl3, hmono3, ?_⟩
      intro x hx
      rcases List.mem_cons.1 hx with rfl | hx
      · exact hmono3 x (by simpa using hvis)
      · exact hall3 x hx

/-- The state `GetRunList` ends in when it starts from empty outputs on a graph
without sub-graph nodes whose edges stay inside the graph. -/
theorem GetRunList_final
    (childRunList : Node → List (List Node) × DepMap → List (List Node) × DepMap)
    (h : NodeHeap) (g : Graph) (he : g.EdgesInside h)
    (hty : ∀ v ∈ g.vertices_, (h v).type_ ≠ hipGraphNodeType.Graph)
    (fuel : Nat) (hfuel : g.vertices_.length ≤ fuel) :
    ∃ lists deps, g.GetRunList childRunList h [] (fun _ => none) fuel = some (lists, deps) ∧
      (∀ l ∈ lists, l ≠ []) ∧ lists.flatten.Nodup ∧
      ∀ x, x ∈ lists.flatten ↔ x ∈ g.vertices_ := by
  have hs0 : RunInv g.vertices_
      { visited := fun _ => false, singleList := [], parallelLists := [],
        dependencies := fun _ => none } :=
    ⟨by simp, by simp, by simp, by simp⟩
  obtain ⟨s1, hrun, hs1, hsl1, _, hall⟩ := runListLoop_spec childRunList h g.vertices_ he fuel
    hfuel g.vertices_ (fun _ hx => hx) hty _ hs0 rfl
  refine ⟨s1.parallelLists, s1.dependencies, by simp [Graph.GetRunList, hrun], hs1.nonempty,
    ?_, ?_⟩
  · have := hs1.nodup
    rwa [hsl1, List.nil_append] at this
  · intro x
    have := hs1.mem x
    rw [hsl1, List.nil_append] at this
    exact ⟨fun hx => hs1.sub x (this.2 hx), fun hx => this.1 (hall x hx)⟩

/-- C6 (amended): for every graph with distinct vertices, no sub-graph nodes
and edge lists that stay inside the graph (cyclic or not), the parallel lists
`GetRunList` produces from empty outputs partition the vertex set: every list
is non-empty, every list entry is a vertex, every vertex occurs exactly once
over all the lists, and the lengths add up to the vertex count. -/
theorem GetRunList_partition
    (childRunList : Node → List (List Node) × DepMap → List (List Node) × DepMap)
    (h : NodeHeap) (g : Graph) (hnd : g.vertices_.Nodup) (he : g.EdgesInside h)
    (hty : ∀ v ∈ g.vertices_, (h v).type_ ≠ hipGraphNodeType.Graph)
    (fuel : Nat) (hfuel : g.vertices_.length ≤ fuel) :
    ∃ lists deps, g.GetRunList childRunList h [] (fun _ => none) fuel = some (lists, deps) ∧
      (∀ l ∈ lists, l ≠ []) ∧
      (∀ l ∈ lists, ∀ x ∈ l, x ∈ g.vertices_) ∧
      (∀ v ∈ g.vertices_, (lists.map (fun l => l.count v)).sum = 1) ∧
      (lists.map List.length).sum = g.vertices_.length := by
  obtain ⟨lists, deps, hrun, hne, hnd1, hmem⟩ :=
    GetRunList_final childRunList h g he hty fuel hfuel
  have hperm : lists.flatten.Perm g.vertices_ := (List.perm_ext_iff_of_nodup hnd1 hnd).2 hmem
  refine ⟨lists, deps, hrun, hne, ?_, ?_, ?_⟩
  · intro l hl x hx
    exact (hmem x).1 (List.mem_flatten.2 ⟨l, hl, hx⟩)
  · intro v hv
    have h1 : lists.flatten.count v = 1 :=
      List.count_eq_one_of_mem hnd1 ((hmem v).2 hv)
    rw [List.count_flatten] at h1
    exact h1
  · rw [← List.length_flatten]
    exact hperm.length_eq

/-- Witness of C6 (amended): the two-cycle `1 -> 2 -> 1`. -/
theorem GetRunList_partition_witness :
    ∃ lists deps, twoCycleGraph.GetRunList (fun _ out => out) twoCycleHeap [] (fun _ => none) 2 =
        some (lists, deps) ∧
      (∀ l ∈ lists, l ≠ []) ∧
      (∀ l ∈ lists, ∀ x ∈ l, x ∈ twoCycleGraph.vertices_) ∧
      (∀ v ∈ twoCycleGraph.vertices_, (lists.map (fun l => l.count v)).sum = 1) ∧
      (lists.map List.length).sum = twoCycleGraph.vertices_.length :=
  GetRunList_partition (fun _ out => out) twoCycleHeap twoCycleGraph (by decide)
    (by unfold Graph.EdgesInside; decide) (by decide) 2 (by decide)

/-- C6 as stated fails: the one-vertex graph whose vertex `1` has the foreign
node `2` in its edge list has distinct vertices and no sub-graph node, yet
`GetRunList` returns the single list `[1, 2]`: the lists hold a node that is
not a vertex and their total length, 2, is not the vertex count. -/
theorem GetRunList_foreign_edge :
    foreignEdgeGraph.vertices_.Nodup ∧
    (∀ v ∈ foreignEdgeGraph.vertices_,
      (foreignEdgeHeap v).type_ ≠ hipGraphNodeType.Graph) ∧
    (∀ fuel, foreignEdgeGraph.GetRunList (fun _ out => out) foreignEdgeHeap []
      (fun _ => none) (fuel + 2) = some ([[1, 2]], fun _ => none)) ∧
    2 ∉ foreignEdgeGraph.vertices_ ∧
    ([[1, 2]].map List.length).sum ≠ foreignEdgeGraph.vertices_.length :=
  ⟨by decide, by decide, fun _ => rfl, by decide, by decide⟩

/-! ## `GetRunList` on a simple chain -/

theorem isChain_tail (h : NodeHeap) (a : Node) (L : List Node) (hc : IsChain h (a :: L)) :
    IsChain h L := by
  cases L with
  | nil => trivial
  | cons b rest => exact hc.2

theorem isChain_suffix (h : NodeHeap) (A L : List Node) (hc : IsChain h (A ++ L)) :
    IsChain h L := by
  induction A with
  | nil => exact hc
  | cons a A ih => exact ih (isChain_tail h a (A ++ L) hc)

/-- One top-level call of `GetRunListUtil` on a chain: starting at `b`, it walks
the unvisited stretch `b :: B`, reaches the visited suffix `S` (or the end of
the chain) and leaves the single parallel list `sl ++ b :: B ++ S`. -/
theorem chain_walk (h : NodeHeap) (B : List Node) :
    ∀ (b : Node) (S : List Node) (fuel : Nat) (s : RunState),
      IsChain h (b :: B ++ S) → (b :: B ++ S).Nodup →
      (∀ x ∈ b :: B, s.visited x = false) → (∀ x ∈ S, s.visited x = true) →
      s.parallelLists = (if S = [] then [] else [S]) → B.length + 1 ≤ fuel →
      ∃ s1, Graph.GetRunListUtil h fuel b s = some s1 ∧ s1.singleList = [] ∧
        s1.parallelLists = [s.singleList ++ b :: B ++ S] ∧
        s1.dependencies = s.dependencies ∧
        ∀ x, s1.visited x = (decide (x ∈ b :: B) || s.visited x) := by
  induction B with
  | nil =>
    intro b S fuel s hchain hnd hB hS hpl hfuel
    obtain ⟨fuel, rfl⟩ : ∃ f, fuel = f + 1 := ⟨fuel - 1, by simp at hfuel; omega⟩
    have hvis : ∀ x, Function.update s.visited b true x = (decide (x ∈ [b]) || s.visited x) := by
      intro x
      by_cases hx : x = b
      · subst hx; simp
      · simp [Function.update_noteq hx, hx]
    cases S with
    | nil =>
      have hedges : (h b).edges_ = [] := hchain
      simp only [if_pos] at hpl
      refine ⟨{ s with visited := Function.update s.visited b true
                       singleList := []
                       parallelLists := [s.singleList ++ [b]] }, ?_, rfl, by simp, rfl, hvis⟩
      simp [Graph.GetRunListUtil, hedges, runEdges, hpl]
    | cons c S1 =>
      have hedges : (h b).edges_ = [c] := hchain.1
      have hcv : s.visited c = true := hS c (List.mem_cons_self _ _)
      have hcb : c ≠ b := by
        intro hcb
        have := (List.nodup_cons.1 hnd).1
        simp [hcb] at this
      simp only [if_neg (List.cons_ne_nil c S1)] at hpl
      refine ⟨{ s with visited := Function.update s.visited b true
                       singleList := []
                       parallelLists := [s.singleList ++ b :: c :: S1] }, ?_, rfl, by simp, rfl,
        hvis⟩
      simp [Graph.GetRunListUtil, hedges, runEdges, hpl, Function.update_noteq hcb, hcv,
        mergeLists]
  | cons b1 B ih =>
    intro b S fuel s hchain hnd hB hS hpl hfuel
    obtain ⟨fuel, rfl⟩ : ∃ f, fuel = f + 1 := ⟨fuel - 1, by simp at hfuel; omega⟩
    have hedges : (h b).edges_ = [b1] := hchain.1
    have hnd1 : (b1 :: B ++ S).Nodup := (List.nodup_cons.1 hnd).2
    have hbn : b ∉ b1 :: B ++ S := (List.nodup_cons.1 hnd).1
    have hb1b : b1 ≠ b := by
      intro e
      apply hbn
      simp [e]
    have hb1v : s.visited b1 = false := hB b1 (by simp)
    obtain ⟨s1, hrun, hsl1, hpl1, hdep1, hvis1⟩ := ih b1 S fuel
      { s with visited := Function.update s.visited b true
               singleList := s.singleList ++ [b] }
      hchain.2 hnd1
      (by
        intro x hx
        have hxb : x ≠ b := by
          intro e
          apply hbn
          rw [← e]
          exact List.mem_append_left _ hx
        simp only [Function.update_noteq hxb]
        exact hB x (List.mem_cons_of_mem _ hx))
      (by
        intro x hx
        by_cases hxb : x = b
        · subst hxb; simp
        · simp only [Function.update_noteq hxb]
          exact hS x hx)
      hpl (by simp at hfuel ⊢; omega)
    refine ⟨s1, ?_, hsl1, ?_, hdep1, ?_⟩
    · simp [Graph.GetRunListUtil, hedges, runEdges, Function.update_noteq hb1b, hb1v, hrun, hsl1]
    · rw [hpl1]
      simp
    · intro x
      rw [hvis1 x]
      by_cases hxb : x = b
      · subst hxb; simp
      · simp [Function.update_noteq hxb, hxb]

theorem chain_loop
    (childRunList : Node → List (List Node) × DepMap → List (List Node) × DepMap)
    (h : NodeHeap) (c : List Node) (hchain : IsChain h c) (hnd : c.Nodup)
    (hty : ∀ v ∈ c, (h v).type_ ≠ hipGraphNodeType.Graph)
    (fuel : Nat) (hfuel : c.length ≤ fuel) (vs : List Node) (hvs : ∀ x ∈ vs, x ∈ c) :
    ∀ (S : List Node) (s : RunState), ChainState c S s →
      ∃ s1 S1, runListLoop childRunList h fuel vs s = some s1 ∧ ChainState c S1 s1 ∧
        (∀ x ∈ S, x ∈ S1) ∧ ∀ x ∈ vs, x ∈ S1 := by
  induction vs with
  | nil => exact fun S s hs => ⟨s, S, rfl, hs, fun _ hx => hx, by simp⟩
  | cons node rest ih =>
    intro S s hs
    have hrest : ∀ x ∈ rest, x ∈ c := fun x hx => hvs x (List.mem_cons_of_mem _ hx)
    have hnode : (h node).type_ ≠ hipGraphNodeType.Graph :=
      hty node (hvs node (List.mem_cons_self _ _))
    obtain ⟨A, hc, hA, hS, hsl, hpl, hdep⟩ := hs
    have hnc : node ∈ A ++ S := hc ▸ hvs node (List.mem_cons_self _ _)
    simp only [runListLoop, nodeGetRunList, if_neg hnode]
    by_cases hvis : s.visited node = false
    · rw [if_pos hvis]
      have hnA : node ∈ A := by
        rcases List.mem_append.1 hnc with hx | hx
        · exact hx
        · have := hS node hx
          rw [hvis] at this
          exact absurd this Bool.false_ne_true
      obtain ⟨A1, B, hAB⟩ := List.append_of_mem hnA
      have hc1 : c = A1 ++ (node :: B ++ S) := by rw [hc, hAB]; simp
      have hnd1 : (A1 ++ (node :: B ++ S)).Nodup := hc1 ▸ hnd
      have hlen : B.length + 1 ≤ fuel := by
        have : c.length = A1.length + (B.length + 1 + S.length) := by
          rw [hc1]; simp; omega
        omega
      obtain ⟨s1, hrun, hsl1, hpl1, hdep1, hvis1⟩ := chain_walk h B node S fuel s
        (isChain_suffix h A1 _ (hc1 ▸ hchain)) (List.nodup_append.1 hnd1).2.1
        (by
          intro x hx
          apply hA x
          rw [hAB]
          exact List.mem_append_right _ hx)
        hS hpl hlen
      have hrun1 : Graph.GetRunListUtil h fuel node
          { visited := s.visited, singleList := s.singleList, parallelLists := s.parallelLists,
            dependencies := s.dependencies } = some s1 := hrun
      simp only [hrun1]
      have hs1 : ChainState c (node :: B ++ S) s1 := by
        refine ⟨A1, hc1, ?_, ?_, hsl1, ?_, ?_⟩
        · intro x hx
          rw [hvis1 x]
          have hxn : x ∉ node :: B := by
            intro hin
            exact (List.nodup_append.1 hnd1).2.2 hx (List.mem_append_left S hin)
          have hxA : s.visited x = false := hA x (by rw [hAB]; exact List.mem_append_left _ hx)
          simp [hxn, hxA]
        · intro x hx
          rw [hvis1 x]
          rcases List.mem_append.1 hx with hx | hx
          · simp [hx]
          · simp [hS x hx]
        · rw [hpl1, hsl]
          simp
        · intro k
          rw [hdep1]
          exact hdep k
      obtain ⟨s2, S2, hrun2, hs2, hmono2, hall2⟩ := ih hrest _ s1 hs1
      refine ⟨s2, S2, hrun2, hs2, ?_, ?_⟩
      · intro x hx
        exact hmono2 x (List.mem_append_right _ hx)
      · intro x hx
        rcases List.mem_cons.1 hx with rfl | hx
        · exact hmono2 x (by simp)
        · exact hall2 x hx
    · rw [if_neg hvis]
      have hnS : node ∈ S := by
        rcases List.mem_append.1 hnc with hx | hx
        · exact absurd (hA node hx) hvis
        · exact hx
      obtain ⟨s2, S2, hrun2, hs2, hmono2, hall2⟩ := ih hrest S s ⟨A, hc, hA, hS, hsl, hpl, hdep⟩
      refine ⟨s2, S2, hrun2, hs2, hmono2, ?_⟩
      intro x hx
      rcases List.mem_cons.1 hx with rfl | hx
      · exact hmono2 x hnS
      · exact hall2 x hx

/-- C5: for every simple chain `v1 -> v2 -> ... -> vn` (`n >= 1`, distinct nodes,
no sub-graph node), whatever the order in which the nodes were inserted into
the graph, `GetRunList` called with empty outputs yields exactly one parallel
list, the chain in chain order, and leaves the dependency map empty. -/
theorem GetRunList_chain
    (childRunList : Node → List (List Node) × DepMap → List (List Node) × DepMap)
    (h : NodeHeap) (g : Graph) (c : List Node) (hne : c ≠ []) (hnd : c.Nodup)
    (hchain : IsChain h c) (hperm : g.vertices_.Perm c)
    (hty : ∀ v ∈ c, (h v).type_ ≠ hipGraphNodeType.Graph)
    (fuel : Nat) (hfuel : c.length ≤ fuel) :
    ∃ deps, g.GetRunList childRunList h [] (fun _ => none) fuel = some ([c], deps) ∧
      ∀ k, deps k = none := by
  have hs0 : ChainState c []
      { visited := fun _ => false, singleList := [], parallelLists := [],
        dependencies := fun _ => none } :=
    ⟨c, by simp, by simp, by simp, rfl, by simp, by simp⟩
  obtain ⟨s1, S1, hrun, ⟨A, hc, hA, hS, hsl, hpl, hdep⟩, _, hall⟩ :=
    chain_loop childRunList h c hchain hnd hty fuel hfuel g.vertices_
      (fun x hx => hperm.mem_iff.1 hx) [] _ hs0
  have hAnil : A = [] := by
    cases A with
    | nil => rfl
    | cons a A1 =>
      exfalso
      have haS : a ∈ S1 := hall a (hperm.mem_iff.2 (by rw [hc]; simp))
      have hnd1 : (a :: A1 ++ S1).Nodup := hc ▸ hnd
      exact (List.nodup_append.1 hnd1).2.2 (List.mem_cons_self _ _) haS
  have hS1 : S1 = c := by rw [hc, hAnil]; simp
  refine ⟨s1.dependencies, ?_, hdep⟩
  simp [Graph.GetRunList, hrun, hpl, hS1, hne]

/-- Witness of C5: the spec's chain `A -> B -> C`, inserted as `B, C, A`. -/
theorem GetRunList_chain_witness :
    ∃ deps, chainGraph.GetRunList (fun _ out => out) chainHeap [] (fun _ => none) 3 =
        some ([[1, 2, 3]], deps) ∧ ∀ k, deps k = none :=
  GetRunList_chain (fun _ out => out) chainHeap chainGraph [1, 2, 3] (by decide) (by decide)
    ⟨rfl, rfl, rfl⟩ (by decide) (by decide) 3 (by decide)

/-! ## Root and leaf enumeration -/

theorem foldl_push_eq_filter (p : Node → Prop) [DecidablePred p] (vs acc : List Node) :
    vs.foldl (fun out entry => if p entry then out ++ [entry] else out) acc =
      acc ++ vs.filter (fun v => decide (p v)) := by
  induction vs generalizing acc with
  | nil => simp
  | cons v rest ih =>
    simp only [List.foldl_cons, ih, List.filter_cons]
    by_cases hp : p v <;> simp [hp]

theorem foldl_count_eq_length (p : Node → Prop) [DecidablePred p] (vs : List Node) (acc : Nat) :
    vs.foldl (fun n entry => if p entry then n + 1 else n) acc =
      acc + (vs.filter (fun v => decide (p v))).length := by
  induction vs generalizing acc with
  | nil => simp
  | cons v rest ih =>
    simp only [List.foldl_cons, ih, List.filter_cons]
    by_cases hp : p v <;> simp [hp]
    omega

/-- C9: `GetRootNodes` returns exactly the vertices with in-degree 0 and
`GetLeafNodes` exactly the vertices with out-degree 0, each as the
order-preserving sub-sequence of the vertex sequence; `GetLeafNodeCount` is the
length of `GetLeafNodes`; for a graph made of one isolated node both results are
the one-element list holding that node. -/
theorem GetRootNodes_GetLeafNodes (h : NodeHeap) (g : Graph) :
    g.GetRootNodes h = g.vertices_.filter (fun v => decide ((h v).GetInDegree = 0)) ∧
    g.GetLeafNodes h = g.vertices_.filter (fun v => decide ((h v).GetOutDegree = 0)) ∧
    (g.GetRootNodes h).Sublist g.vertices_ ∧
    (g.GetLeafNodes h).Sublist g.vertices_ ∧
    (∀ v, v ∈ g.GetRootNodes h ↔ v ∈ g.vertices_ ∧ (h v).GetInDegree = 0) ∧
    (∀ v, v ∈ g.GetLeafNodes h ↔ v ∈ g.vertices_ ∧ (h v).GetOutDegree = 0) ∧
    g.GetLeafNodeCount h = (g.GetLeafNodes h).length ∧
    (∀ n, g.vertices_ = [n] → (h n).dependencies_ = [] → (h n).edges_ = [] →
      g.GetRootNodes h = [n] ∧ g.GetLeafNodes h = [n]) := by
  have hroots : g.GetRootNodes h =
      g.vertices_.filter (fun v => decide ((h v).GetInDegree = 0)) := by
    simp [Graph.GetRootNodes, foldl_push_eq_filter]
  have hleaves : g.GetLeafNodes h =
      g.vertices_.filter (fun v => decide ((h v).GetOutDegree = 0)) := by
    simp [Graph.GetLeafNodes, foldl_push_eq_filter]
  refine ⟨hroots, hleaves, ?_, ?_, ?_, ?_, ?_, ?_⟩
  · rw [hroots]; exact List.filter_sublist _
  · rw [hleaves]; exact List.filter_sublist _
  · intro v; rw [hroots]; simp [List.mem_filter]
  · intro v; rw [hleaves]; simp [List.mem_filter]
  · rw [hleaves]
    simp [Graph.GetLeafNodeCount, foldl_count_eq_length]
  · intro n hV hd he
    rw [hroots, hleaves, hV]
    simp [GraphNode.GetInDegree, GraphNode.GetOutDegree, hd, he]

/-! ## `Graph::clone` -/

theorem cloneVertices_spec (newGraph : Nat) (vs : List Node) :
    ∀ (fresh : List Node) (m : Mem) (clonedNodes : NodeMap), vs.length = fresh.length →
      ∃ m1 cn1, cloneVertices newGraph vs fresh m clonedNodes = some (m1, cn1) ∧
        (m1.graph newGraph).vertices_ = (m.graph newGraph).vertices_ ++ fresh ∧
        (∀ g, g ≠ newGraph → m1.graph g = m.graph g) ∧
        (∀ x, x ∉ fresh → m1.node x = m.node x) ∧
        (∀ a ∈ fresh, (m1.node a).edges_ = [] ∧ (m1.node a).dependencies_ = []) ∧
        (∀ k, k ∉ vs → cn1 k = clonedNodes k) ∧
        (∀ k ∈ vs, ∃ a ∈ fresh, cn1 k = some a) := by
  induction vs with
  | nil =>
    intro fresh m cn hlen
    have hf : fresh = [] := List.length_eq_zero.1 hlen.symm
    subst hf
    exact ⟨m, cn, rfl, by simp, fun _ _ => rfl, fun _ _ => rfl, by simp, fun _ _ => rfl, by simp⟩
  | cons entry rest ih =>
    intro fresh m cn hlen
    cases fresh with
    | nil => simp at hlen
    | cons node fresh =>
      obtain ⟨m1, cn1, hrun, hg, hog, hnode, hempty, hcn, hkeys⟩ := ih fresh
        { node := Function.update m.node node ((m.node entry).clone.SetParentGraph newGraph)
          graph := Function.update m.graph newGraph
            { vertices_ := (m.graph newGraph).vertices_ ++ [node] }
          nodeSet_ := Function.update m.nodeSet_ node true }
        (Function.update cn entry (some node)) (by simpa using hlen)
      refine ⟨m1, cn1, by simp only [cloneVertices, hrun], ?_, ?_, ?_, ?_, ?_, ?_⟩
      · rw [hg]; simp
      · intro g hgne
        rw [hog g hgne]
        simp [Function.update_noteq hgne]
      · intro x hx
        have hx1 : x ∉ fresh := fun hin => hx (List.mem_cons_of_mem _ hin)
        have hx2 : x ≠ node := fun e => hx (e ▸ List.mem_cons_self _ _)
        rw [hnode x hx1]
        simp [Function.update_noteq hx2]
      · intro a ha
        by_cases haf : a ∈ fresh
        · exact hempty a haf
        · have han : a = node := by
            rcases List.mem_cons.1 ha with e | e
            · exact e
            · exact absurd e haf
          rw [hnode a haf, han]
          simp [GraphNode.clone, GraphNode.SetParentGraph]
      · intro k hk
        have hk1 : k ∉ rest := fun hin => hk (List.mem_cons_of_mem _ hin)
        have hk2 : k ≠ entry := fun e => hk (e ▸ List.mem_cons_self _ _)
        rw [hcn k hk1, Function.update_noteq hk2]
      · intro k hk
        by_cases hkr : k ∈ rest
        · obtain ⟨a, ha, hka⟩ := hkeys k hkr
          exact ⟨a, List.mem_cons_of_mem _ ha, hka⟩
        · have hke : k = entry := by
            rcases List.mem_cons.1 hk with e | e
            · exact e
            · exact absurd e hkr
          refine ⟨node, List.mem_cons_self _ _, ?_⟩
          rw [hcn k hkr, hke, Function.update_same]

theorem cloneVertices_exact (newGraph : Nat) (vs : List Node) :
    ∀ (fresh : List Node) (m : Mem) (clonedNodes : NodeMap) (m1 : Mem) (cn1 : NodeMap),
      vs.length = fresh.length → vs.Nodup → fresh.Nodup → (∀ a ∈ fresh, a ∉ vs) →
      cloneVertices newGraph vs fresh m clonedNodes = some (m1, cn1) →
      ∀ p ∈ vs.zip fresh, cn1 p.1 = some p.2 ∧
        m1.node p.2 = (m.node p.1).clone.SetParentGraph newGraph := by
  induction vs with
  | nil => intro fresh m cn m1 cn1 _ _ _ _ _ p hp; simp at hp
  | cons entry rest ih =>
    intro fresh m cn m1 cn1 hlen hnd hfnd hdisj hrun p hp
    cases fresh with
    | nil => simp at hlen
    | cons node fresh =>
      simp only [cloneVertices] at hrun
      have hlen1 : rest.length = fresh.length := by simpa using hlen
      obtain ⟨m2, cn2, hrun2, _, _, hnode, _, hcn, _⟩ := cloneVertices_spec newGraph rest fresh
        { node := Function.update m.node node ((m.node entry).clone.SetParentGraph newGraph)
          graph := Function.update m.graph newGraph
            { vertices_ := (m.graph newGraph).vertices_ ++ [node] }
          nodeSet_ := Function.update m.nodeSet_ node true }
        (Function.update cn entry (some node)) hlen1
      rw [hrun2] at hrun
      simp only [Option.some.injEq, Prod.mk.injEq] at hrun
      obtain ⟨rfl, rfl⟩ := hrun
      simp only [List.zip_cons_cons, List.mem_cons] at hp
      rcases hp with rfl | hp
      · constructor
        · rw [hcn entry (List.nodup_cons.1 hnd).1, Function.update_same]
        · rw [hnode node (List.nodup_cons.1 hfnd).1]
          simp
      · have hp1 : p.1 ∈ rest := (List.of_mem_zip hp).1
        have hp2 : p.2 ∈ fresh := (List.of_mem_zip hp).2
        obtain ⟨h1, h2⟩ := ih fresh _ _ m2 cn2 hlen1 (List.nodup_cons.1 hnd).2
          (List.nodup_cons.1 hfnd).2
          (fun a ha hin => hdisj a (List.mem_cons_of_mem _ ha) (List.mem_cons_of_mem _ hin))
          hrun2 p hp
        refine ⟨h1, ?_⟩
        rw [h2]
        have hne : p.1 ≠ node := by
          intro e
          exact hdisj node (List.mem_cons_self _ _) (e ▸ List.mem_cons_of_mem _ hp1)
        simp [Function.update_noteq hne]

theorem remapList_present (l : List Node) (clonedNodes : NodeMap)
    (hl : ∀ e ∈ l, clonedNodes e ≠ none) :
    remapList l clonedNodes = (l.map (fun e => (clonedNodes e).getD 0), clonedNodes) := by
  induction l with
  | nil => rfl
  | cons e rest ih =>
    have he := hl e (List.mem_cons_self _ _)
    obtain ⟨a, ha⟩ := Option.ne_none_iff_exists'.1 he
    have hidx : clonedNodes.index e = (a, clonedNodes) := by simp [NodeMap.index, ha]
    simp only [remapList, hidx, ih (fun x hx => hl x (List.mem_cons_of_mem _ hx)),
      List.map_cons, ha, Option.getD_some]

theorem remapLoop_proj {α : Type} (get : GraphNode → List Node)
    (set : GraphNode → List Node → GraphNode) (p : GraphNode → α)
    (hp : ∀ n l, p (set n l) = p n) (vs : List Node) :
    ∀ (heap : NodeHeap) (clonedNodes : NodeMap) (x : Node),
      p ((remapLoop get set vs heap clonedNodes).1 x) = p (heap x) := by
  induction vs with
  | nil => intro heap cn x; rfl
  | cons node rest ih =>
    intro heap cn x
    simp only [remapLoop]
    rw [ih]
    by_cases hx : x = ((remapList (get (heap node)) cn).2.index node).1
    · rw [hx, Function.update_same, hp]
    · rw [Function.update_noteq hx]

theorem remapLoop_exact (get : GraphNode → List Node) (set : GraphNode → List Node → GraphNode)
    (hget : ∀ n l, get (set n l) = l) (clonedNodes : NodeMap) (heap0 : NodeHeap)
    (F : List Node) (vs : List Node) :
    ∀ (fs : List Node) (heap : NodeHeap), vs.length = fs.length → fs.Nodup →
      (∀ a ∈ fs, a ∈ F) → (∀ v ∈ vs, v ∉ F) →
      (∀ p ∈ vs.zip fs, clonedNodes p.1 = some p.2) →
      (∀ v ∈ vs, ∀ e ∈ get (heap0 v), clonedNodes e ≠ none) →
      (∀ x, x ∉ F → heap x = heap0 x) →
      (remapLoop get set vs heap clonedNodes).2 = clonedNodes ∧
      (∀ x, x ∉ fs → (remapLoop get set vs heap clonedNodes).1 x = heap x) ∧
      ∀ p ∈ vs.zip fs, get ((remapLoop get set vs heap clonedNodes).1 p.2) =
        (get (heap0 p.1)).map (fun e => (clonedNodes e).getD 0) := by
  induction vs with
  | nil =>
    intro fs heap _ _ _ _ _ _ _
    exact ⟨rfl, fun _ _ => rfl, by simp⟩
  | cons node rest ih =>
    intro fs heap hlen hfnd hfs hvs hzip hpres hheap
    cases fs with
    | nil => simp at hlen
    | cons a fs =>
      have hna : clonedNodes node = some a := hzip (node, a) (by simp)
      have hnode0 : heap node = heap0 node := hheap node (hvs node (List.mem_cons_self _ _))
      have hlist := remapList_present (get (heap0 node)) clonedNodes
        (hpres node (List.mem_cons_self _ _))
      have hidx : clonedNodes.index node = (a, clonedNodes) := by simp [NodeMap.index, hna]
      simp only [remapLoop, hnode0, hlist, hidx]
      have haF : a ∈ F := hfs a (List.mem_cons_self _ _)
      obtain ⟨h1, h2, h3⟩ := ih fs
        (Function.update heap a
          (set (heap a) ((get (heap0 node)).map (fun e => (clonedNodes e).getD 0))))
        (by simpa using hlen) (List.nodup_cons.1 hfnd).2
        (fun x hx => hfs x (List.mem_cons_of_mem _ hx))
        (fun v hv => hvs v (List.mem_cons_of_mem _ hv))
        (fun p hp => hzip p (by simp only [List.zip_cons_cons]; exact List.mem_cons_of_mem _ hp))
        (fun v hv => hpres v (List.mem_cons_of_mem _ hv))
        (by
          intro x hx
          have hxa : x ≠ a := fun e => hx (e ▸ haF)
          rw [Function.update_noteq hxa]
          exact hheap x hx)
      refine ⟨h1, ?_, ?_⟩
      · intro x hx
        have hx1 : x ∉ fs := fun hin => hx (List.mem_cons_of_mem _ hin)
        have hx2 : x ≠ a := fun e => hx (e ▸ List.mem_cons_self _ _)
        rw [h2 x hx1, Function.update_noteq hx2]
      · intro p hp
        simp only [List.zip_cons_cons, List.mem_cons] at hp
        rcases hp with rfl | hp
        · rw [h2 a (List.nodup_cons.1 hfnd).1, Function.update_same, hget]
        · exact h3 p hp

/-- C7 (amended): for every graph with distinct vertices whose edges and
dependencies point only at its own vertices, `Graph::clone` called with an
empty `clonedNodes` map (the allocator handing out the distinct addresses
`fresh`, none of them a vertex of the original) returns a graph with the same
number of vertices, the clone vertices being `fresh` in order; for every
original vertex `v` and the clone vertex `a` at the same index, `a` has the type
of `v`, its edge list and its dependency list are those of `v` with every entry
replaced by the clone vertex at the same index as that entry (the map
`clonedNodes`, same length, same order), and `clonedNodes` maps `v` to `a`;
`clonedNodes` has no other entries. -/
theorem clone_structure (m : Mem) (this newGraph : Nat) (fresh : List Node)
    (hnd : (m.graph this).vertices_.Nodup)
    (he : (m.graph this).EdgesInside m.node)
    (hd : (m.graph this).DependenciesInside m.node)
    (hlen : (m.graph this).vertices_.length = fresh.length) (hfnd : fresh.Nodup)
    (hdisj : ∀ a ∈ fresh, a ∉ (m.graph this).vertices_) :
    ∃ m1 cn, Graph.clone m this newGraph fresh (fun _ => none) = some (m1, cn) ∧
      (m1.graph newGraph).vertices_ = fresh ∧
      (m1.graph newGraph).vertices_.length = (m.graph this).vertices_.length ∧
      (∀ k, k ∉ (m.graph this).vertices_ → cn k = none) ∧
      ∀ p ∈ (m.graph this).vertices_.zip fresh,
        cn p.1 = some p.2 ∧
        (m1.node p.2).type_ = (m.node p.1).type_ ∧
        (m1.node p.2).edges_ = (m.node p.1).edges_.map (fun e => (cn e).getD 0) ∧
        (m1.node p.2).dependencies_ =
          (m.node p.1).dependencies_.map (fun e => (cn e).getD 0) := by
  obtain ⟨m1, cn1, hrun, hg, _, hnode, _, hcn, hkeys⟩ :=
    cloneVertices_spec newGraph (m.graph this).vertices_ fresh
      { m with graph := Function.update m.graph newGraph { vertices_ := [] } }
      (fun _ => none) hlen
  have hzip := cloneVertices_exact newGraph (m.graph this).vertices_ fresh _ _ m1 cn1 hlen hnd
    hfnd hdisj hrun
  have hpres : ∀ v ∈ (m.graph this).vertices_, cn1 v ≠ none := by
    intro v hv
    obtain ⟨a, _, ha⟩ := hkeys v hv
    simp [ha]
  obtain ⟨h21, h22, h23⟩ := remapLoop_exact GraphNode.edges_ GraphNode.SetEdges
    (fun _ _ => rfl) cn1 m.node fresh (m.graph this).vertices_ fresh m1.node hlen hfnd
    (fun _ ha => ha) (fun v hv hin => hdisj v hin hv) (fun p hp => (hzip p hp).1)
    (fun v hv e hev => hpres e (he v hv e hev)) hnode
  obtain ⟨h31, _, h33⟩ := remapLoop_exact GraphNode.dependencies_ GraphNode.SetDependencies
    (fun _ _ => rfl) cn1 m.node fresh (m.graph this).vertices_ fresh
    (remapLoop GraphNode.edges_ GraphNode.SetEdges (m.graph this).vertices_ m1.node cn1).1
    hlen hfnd (fun _ ha => ha) (fun v hv hin => hdisj v hin hv) (fun p hp => (hzip p hp).1)
    (fun v hv e hev => hpres e (hd v hv e hev))
    (fun x hx => by rw [h22 x hx]; exact hnode x hx)
  refine ⟨{ m1 with node := (remapLoop GraphNode.dependencies_ GraphNode.SetDependencies
      (m.graph this).vertices_
      (remapLoop GraphNode.edges_ GraphNode.SetEdges (m.graph this).vertices_ m1.node cn1).1
      cn1).1 }, cn1, ?_, ?_, ?_, ?_, ?_⟩
  · simp only [Graph.clone, hrun, h21, h31]
  · rw [hg]; simp
  · rw [hg]; simp [hlen]
  · intro k hk
    rw [hcn k hk]
  · intro p hp
    refine ⟨(hzip p hp).1, ?_, ?_, h33 p hp⟩
    · show (((remapLoop GraphNode.dependencies_ GraphNode.SetDependencies _ _ cn1).1 p.2)).type_ = _
      rw [remapLoop_proj GraphNode.dependencies_ GraphNode.SetDependencies GraphNode.type_
          (fun _ _ => rfl),
        remapLoop_proj GraphNode.edges_ GraphNode.SetEdges GraphNode.type_ (fun _ _ => rfl),
        (hzip p hp).2]
      rfl
    · show (((remapLoop GraphNode.dependencies_ GraphNode.SetDependencies _ _ cn1).1 p.2)).edges_ = _
      rw [remapLoop_proj GraphNode.dependencies_ GraphNode.SetDependencies GraphNode.edges_
        (fun _ _ => rfl)]
      exact h23 p hp

/-- Witness of C7 (amended): cloning the diamond to the addresses 11, 12, 13, 14. -/
theorem clone_structure_witness :
    ∃ m1 cn, Graph.clone diamondMem 100 200 [11, 12, 13, 14] (fun _ => none) = some (m1, cn) ∧
      (m1.graph 200).vertices_ = [11, 12, 13, 14] ∧
      (m1.graph 200).vertices_.length = (diamondMem.graph 100).vertices_.length ∧
      (∀ k, k ∉ (diamondMem.graph 100).vertices_ → cn k = none) ∧
      ∀ p ∈ (diamondMem.graph 100).vertices_.zip [11, 12, 13, 14],
        cn p.1 = some p.2 ∧
        (m1.node p.2).type_ = (diamondMem.node p.1).type_ ∧
        (m1.node p.2).edges_ = (diamondMem.node p.1).edges_.map (fun e => (cn e).getD 0) ∧
        (m1.node p.2).dependencies_ =
          (diamondMem.node p.1).dependencies_.map (fun e => (cn e).getD 0) :=
  clone_structure diamondMem 100 200 [11, 12, 13, 14] (by decide)
    (by unfold Graph.EdgesInside; decide) (by unfold Graph.DependenciesInside; decide)
    (by decide) (by decide) (by decide)

/-- C7 as stated fails: the graph of `twiceMem` holds the isolated node `1`
twice, so its (empty) edge and dependency lists point only at its own vertices;
`clone` with an empty map and the fresh addresses 11, 12 returns the vertices
`[11, 12]`, but `clonedNodes[1]` is 12: the original's vertex at index 0 is not
mapped to the clone's vertex at index 0. -/
theorem clone_repeated_vertex :
    (twiceMem.graph 100).EdgesInside twiceMem.node ∧
    (twiceMem.graph 100).DependenciesInside twiceMem.node ∧
    (twiceMem.graph 100).vertices_.head? = some 1 ∧
    (Graph.clone twiceMem 100 200 [11, 12] (fun _ => none)).map
        (fun r => ((r.1.graph 200).vertices_, r.2 1)) = some ([11, 12], some 12) ∧
    ¬ (Graph.clone twiceMem 100 200 [11, 12] (fun _ => none)).map
        (fun r => r.2 1) = some ((some 11 : Option Node)) := by
  refine ⟨by unfold Graph.EdgesInside; decide, by unfold Graph.DependenciesInside; decide,
    by decide, by decide, by decide⟩

theorem index_safe (P : Node → Prop) (h0 : P 0) (clonedNodes : NodeMap) (k : Node)
    (hval : ∀ k y, clonedNodes k = some y → P y) :
    P (clonedNodes.index k).1 ∧ (∀ j y, (clonedNodes.index k).2 j = some y → P y) ∧
      ∀ j a, clonedNodes j = some a → (clonedNodes.index k).2 j = some a := by
  unfold NodeMap.index
  cases hk : clonedNodes k with
  | some v => exact ⟨hval k v hk, hval, fun _ _ hj => hj⟩
  | none =>
    refine ⟨h0, ?_, ?_⟩
    · intro j y hj
      by_cases hjk : j = k
      · subst hjk
        simp only [Function.update_same, Option.some.injEq] at hj
        exact hj ▸ h0
      · simp only [Function.update_noteq hjk] at hj
        exact hval j y hj
    · intro j a hj
      have hjk : j ≠ k := by
        intro e
        rw [e, hk] at hj
        exact Option.noConfusion hj
      simp only [Function.update_noteq hjk]
      exact hj

theorem remapList_safe (P : Node → Prop) (h0 : P 0) (l : List Node) :
    ∀ (clonedNodes : NodeMap), (∀ k y, clonedNodes k = some y → P y) →
      (∀ y ∈ (remapList l clonedNodes).1, P y) ∧
      (∀ j y, (remapList l clonedNodes).2 j = some y → P y) ∧
      ∀ j a, clonedNodes j = some a → (remapList l clonedNodes).2 j = some a := by
  induction l with
  | nil => exact fun cn hval => ⟨by simp [remapList], hval, fun _ _ hj => hj⟩
  | cons e rest ih =>
    intro cn hval
    obtain ⟨h1, h2, h3⟩ := index_safe P h0 cn e hval
    obtain ⟨h4, h5, h6⟩ := ih (cn.index e).2 h2
    simp only [remapList]
    refine ⟨?_, h5, fun j a hj => h6 j a (h3 j a hj)⟩
    intro y hy
    rcases List.mem_cons.1 hy with rfl | hy
    · exact h1
    · exact h4 y hy

theorem remapLoop_safe (get : GraphNode → List Node) (set : GraphNode → List Node → GraphNode)
    (hset : ∀ n l e, (e ∈ (set n l).edges_ ∨ e ∈ (set n l).dependencies_) →
      (e ∈ n.edges_ ∨ e ∈ n.dependencies_ ∨ e ∈ l))
    (F V : List Node) (heap0 : NodeHeap) (vs : List Node) :
    ∀ (heap : NodeHeap) (clonedNodes : NodeMap), (∀ v ∈ vs, v ∈ V) →
      (∀ k y, clonedNodes k = some y → y = 0 ∨ y ∈ F) →
      (∀ k ∈ V, ∃ a ∈ F, clonedNodes k = some a) →
      (∀ a ∈ F, ∀ e, (e ∈ (heap a).edges_ ∨ e ∈ (heap a).dependencies_) → e = 0 ∨ e ∈ F) →
      (∀ x, x ∉ F → heap x = heap0 x) →
      (∀ k y, (remapLoop get set vs heap clonedNodes).2 k = some y → y = 0 ∨ y ∈ F) ∧
      (∀ k ∈ V, ∃ a ∈ F, (remapLoop get set vs heap clonedNodes).2 k = some a) ∧
      (∀ a ∈ F, ∀ e, (e ∈ ((remapLoop get set vs heap clonedNodes).1 a).edges_ ∨
        e ∈ ((remapLoop get set vs heap clonedNodes).1 a).dependencies_) → e = 0 ∨ e ∈ F) ∧
      (∀ x, x ∉ F → (remapLoop get set vs heap clonedNodes).1 x = heap0 x) := by
  induction vs with
  | nil => exact fun heap cn _ hval hkeys hlists hheap => ⟨hval, hkeys, hlists, hheap⟩
  | cons node rest ih =>
    intro heap cn hvs hval hkeys hlists hheap
    obtain ⟨h1, h2, h3⟩ := remapList_safe (fun y => y = 0 ∨ y ∈ F) (Or.inl rfl)
      (get (heap node)) cn hval
    obtain ⟨a, haF, hna⟩ := hkeys node (hvs node (List.mem_cons_self _ _))
    have hidx : (remapList (get (heap node)) cn).2.index node =
        (a, (remapList (get (heap node)) cn).2) := by
      simp [NodeMap.index, h3 node a hna]
    simp only [remapLoop, hidx]
    apply ih _ _ (fun v hv => hvs v (List.mem_cons_of_mem _ hv)) h2
    · intro k hk
      obtain ⟨b, hbF, hkb⟩ := hkeys k hk
      exact ⟨b, hbF, h3 k b hkb⟩
    · intro b hbF e he
      by_cases hba : b = a
      · subst hba
        rw [Function.update_same] at he
        rcases hset _ _ e he with h | h | h
        · exact hlists b hbF e (Or.inl h)
        · exact hlists b hbF e (Or.inr h)
        · exact h1 e h
      · rw [Function.update_noteq hba] at he
        exact hlists b hbF e he
    · intro x hx
      have hxa : x ≠ a := fun e => hx (e ▸ haF)
      rw [Function.update_noteq hxa]
      exact hheap x hx

/-- What the clone made by `Graph::clone()` looks like from the original: its
vertices are the fresh addresses, every entry of their lists is a fresh address
or null, and no node outside the fresh addresses and no other graph changed. -/
theorem cloneDefault_safe (m : Mem) (this newGraph : Nat) (fresh : List Node)
    (hlen : (m.graph this).vertices_.length = fresh.length) :
    ∃ m1, Graph.cloneDefault m this newGraph fresh = some m1 ∧
      (m1.graph newGraph).vertices_ = fresh ∧
      (∀ g, g ≠ newGraph → m1.graph g = m.graph g) ∧
      (∀ a ∈ fresh, ∀ e, (e ∈ (m1.node a).edges_ ∨ e ∈ (m1.node a).dependencies_) →
        e = 0 ∨ e ∈ fresh) ∧
      (∀ x, x ∉ fresh → m1.node x = m.node x) := by
  obtain ⟨m1, cn1, hrun, hg, hog, hnode, hempty, hcn, hkeys⟩ :=
    cloneVertices_spec newGraph (m.graph this).vertices_ fresh
      { m with graph := Function.update m.graph newGraph { vertices_ := [] } }
      (fun _ => none) hlen
  have hval1 : ∀ k y, cn1 k = some y → y = 0 ∨ y ∈ fresh := by
    intro k y hk
    by_cases hkV : k ∈ (m.graph this).vertices_
    · obtain ⟨a, haF, hka⟩ := hkeys k hkV
      rw [hka] at hk
      simp only [Option.some.injEq] at hk
      exact Or.inr (hk ▸ haF)
    · rw [hcn k hkV] at hk
      exact Option.noConfusion hk
  have hlists1 : ∀ a ∈ fresh, ∀ e,
      (e ∈ (m1.node a).edges_ ∨ e ∈ (m1.node a).dependencies_) → e = 0 ∨ e ∈ fresh := by
    intro a ha e he
    rw [(hempty a ha).1, (hempty a ha).2] at he
    simp at he
  obtain ⟨h21, h22, h23, h24⟩ := remapLoop_safe GraphNode.edges_ GraphNode.SetEdges
    (by
      intro n l e he
      rcases he with he | he
      · exact Or.inr (Or.inr he)
      · exact Or.inr (Or.inl he))
    fresh (m.graph this).vertices_ m.node (m.graph this).vertices_ m1.node cn1
    (fun _ hv => hv) hval1 hkeys hlists1 hnode
  obtain ⟨_, _, h33, h34⟩ := remapLoop_safe GraphNode.dependencies_ GraphNode.SetDependencies
    (by
      intro n l e he
      rcases he with he | he
      · exact Or.inl he
      · exact Or.inr (Or.inr he))
    fresh (m.graph this).vertices_ m.node (m.graph this).vertices_ _ _
    (fun _ hv => hv) h21 h22 h23 h24
  refine ⟨{ m1 with node := (remapLoop GraphNode.dependencies_ GraphNode.SetDependencies
      (m.graph this).vertices_
      (remapLoop GraphNode.edges_ GraphNode.SetEdges (m.graph this).vertices_ m1.node cn1).1
      (remapLoop GraphNode.edges_ GraphNode.SetEdges (m.graph this).vertices_ m1.node cn1).2).1 },
    by simp [Graph.cloneDefault, Graph.clone, hrun], ?_, ?_, h33, h34⟩
  · show (m1.graph newGraph).vertices_ = fresh
    rw [hg]; simp
  · intro g hgne
    show m1.graph g = m.graph g
    rw [hog g hgne]
    simp [Function.update_noteq hgne]

/-- C8: the graph `Graph::clone()` returns shares no node with the original (the
vertices being valid, non-null pointers and the allocator handing out addresses
`fresh` and `newGraph` that are not those of the original's vertices and
graph): no vertex of the clone and no entry of a clone vertex's edge or
dependency list is a vertex of the original, and the original's vertex
sequence and nodes are as before; consequently `AddNode` on the clone,
`RemoveNode` of a clone vertex, and `SetEdges` or `SetDependencies` on a clone
vertex leave the original's vertex sequence and every original node's edge and
dependency lists unchanged. -/
theorem clone_shares_no_node (m : Mem) (this newGraph : Nat) (fresh : List Node)
    (hng : newGraph ≠ this) (h0 : 0 ∉ (m.graph this).vertices_)
    (hlen : (m.graph this).vertices_.length = fresh.length)
    (hdisj : ∀ a ∈ fresh, a ∉ (m.graph this).vertices_) :
    ∃ m1, Graph.cloneDefault m this newGraph fresh = some m1 ∧
      (∀ a ∈ (m1.graph newGraph).vertices_,
        a ∉ (m.graph this).vertices_ ∧
        (∀ e ∈ (m1.node a).edges_, e ∉ (m.graph this).vertices_) ∧
        (∀ e ∈ (m1.node a).dependencies_, e ∉ (m.graph this).vertices_)) ∧
      m1.graph this = m.graph this ∧
      (∀ v ∈ (m.graph this).vertices_, m1.node v = m.node v) ∧
      ∀ a ∈ (m1.graph newGraph).vertices_, ∀ (x : Node) (l : List Node) (m2 : Mem),
        (m2 = Graph.AddNode m1 newGraph x ∨ m2 = Graph.RemoveNode m1 newGraph a ∨
          m2 = m1.SetEdges a l ∨ m2 = m1.SetDependencies a l) →
        m2.graph this = m.graph this ∧
        ∀ v ∈ (m.graph this).vertices_,
          (m2.node v).edges_ = (m.node v).edges_ ∧
          (m2.node v).dependencies_ = (m.node v).dependencies_ := by
  obtain ⟨m1, hrun, hverts, hog, hlists, hnode⟩ := cloneDefault_safe m this newGraph fresh hlen
  have hthis : m1.graph this = m.graph this := hog this (fun e => hng e.symm)
  have hnotV : ∀ e, e = 0 ∨ e ∈ fresh → e ∉ (m.graph this).vertices_ := by
    intro e he
    rcases he with rfl | he
    · exact h0
    · exact hdisj e he
  have horig : ∀ v ∈ (m.graph this).vertices_, m1.node v = m.node v :=
    fun v hv => hnode v (fun hin => hdisj v hin hv)
  refine ⟨m1, hrun, ?_, hthis, horig, ?_⟩
  · intro a ha
    rw [hverts] at ha
    exact ⟨hdisj a ha, fun e he => hnotV e (hlists a ha e (Or.inl he)),
      fun e he => hnotV e (hlists a ha e (Or.inr he))⟩
  · intro a ha x l m2 hm2
    rw [hverts] at ha
    have hav : ∀ v ∈ (m.graph this).vertices_, v ≠ a := fun v hv e => hdisj a ha (e ▸ hv)
    rcases hm2 with rfl | rfl | rfl | rfl
    · refine ⟨?_, ?_⟩
      · simp only [Graph.AddNode, Function.update_noteq (fun e => hng e.symm : this ≠ newGraph)]
        exact hthis
      · intro v hv
        rw [← horig v hv]
        by_cases hvx : v = x
        · subst hvx
          simp [Graph.AddNode, GraphNode.SetParentGraph]
        · simp [Graph.AddNode, Function.update_noteq hvx]
    · refine ⟨?_, ?_⟩
      · simp only [Graph.RemoveNode,
          Function.update_noteq (fun e => hng e.symm : this ≠ newGraph)]
        exact hthis
      · intro v hv
        rw [← horig v hv]
        simp [Graph.RemoveNode]
    · refine ⟨hthis, ?_⟩
      intro v hv
      rw [← horig v hv]
      simp [Mem.SetEdges, Function.update_noteq (hav v hv)]
    · refine ⟨hthis, ?_⟩
      intro v hv
      rw [← horig v hv]
      simp [Mem.SetDependencies, Function.update_noteq (hav v hv)]

/-- Witness of C8: cloning the diamond at graph address 100 into the graph
address 200 and the node addresses 11, 12, 13, 14. -/
theorem clone_shares_no_node_witness :
    ∃ m1, Graph.cloneDefault diamondMem 100 200 [11, 12, 13, 14] = some m1 ∧
      (∀ a ∈ (m1.graph 200).vertices_,
        a ∉ (diamondMem.graph 100).vertices_ ∧
        (∀ e ∈ (m1.node a).edges_, e ∉ (diamondMem.graph 100).vertices_) ∧
        (∀ e ∈ (m1.node a).dependencies_, e ∉ (diamondMem.graph 100).vertices_)) ∧
      m1.graph 100 = diamondMem.graph 100 ∧
      (∀ v ∈ (diamondMem.graph 100).vertices_, m1.node v = diamondMem.node v) ∧
      ∀ a ∈ (m1.graph 200).vertices_, ∀ (x : Node) (l : List Node) (m2 : Mem),
        (m2 = Graph.AddNode m1 200 x ∨ m2 = Graph.RemoveNode m1 200 a ∨
          m2 = m1.SetEdges a l ∨ m2 = m1.SetDependencies a l) →
        m2.graph 100 = diamondMem.graph 100 ∧
        ∀ v ∈ (diamondMem.graph 100).vertices_,
          (m2.node v).edges_ = (diamondMem.node v).edges_ ∧
          (m2.node v).dependencies_ = (diamondMem.node v).dependencies_ :=
  clone_shares_no_node diamondMem 100 200 [11, 12, 13, 14] (by decide) (by decide) (by decide)
    (by decide)

/-! ## Replay safety of `GraphExec::Run` -/

theorem hasActiveMemAlloc_iff (heap : NodeHeap) (l : List Node) :
    hasActiveMemAlloc heap l = true ↔
      ∃ node ∈ l, (heap node).type_ = hipGraphNodeType.MemAlloc ∧
        (heap node).isActiveMem_ = true := by
  induction l with
  | nil => simp [hasActiveMemAlloc]
  | cons node rest ih =>
    simp only [hasActiveMemAlloc, List.mem_cons, exists_eq_or_imp]
    split_ifs with hc
    · simp [hc]
    · rw [ih]
      simp [hc]

theorem updateStreamLoop_fields (stream : Stream) (lists : List (List Node)) :
    ∀ (i : Nat) (exec : GraphExec) (w : RunWorld),
      (updateStreamLoop stream lists i exec w).1.repeatLaunch_ = exec.repeatLaunch_ ∧
      (updateStreamLoop stream lists i exec w).1.topoOrder_ = exec.topoOrder_ ∧
      (updateStreamLoop stream lists i exec w).1.flags_ = exec.flags_ := by
  induction lists with
  | nil => intro i exec w; exact ⟨rfl, rfl, rfl⟩
  | cons list rest ih =>
    intro i exec w
    simp only [updateStreamLoop]
    split_ifs
    · exact ih _ _ _
    · exact ih _ _ _

/-- The launch part of `Run` leaves the repeat-launch flag, the topological
order and the instantiation flags of the `GraphExec` as they are. -/
theorem launch_fields (env : RunEnv) (exec : GraphExec) (stream hip_stream : Stream)
    (w : RunWorld) :
    (exec.launch env stream hip_stream w).2.1.repeatLaunch_ = exec.repeatLaunch_ ∧
    (exec.launch env stream hip_stream w).2.1.topoOrder_ = exec.topoOrder_ ∧
    (exec.launch env stream hip_stream w).2.1.flags_ = exec.flags_ := by
  have hu := updateStreamLoop_fields hip_stream exec.parallelLists_ 0 exec w
  unfold GraphExec.launch
  by_cases h1 : exec.parallelLists_.length = 1
  · rw [if_pos h1]
    exact ⟨rfl, rfl, rfl⟩
  · rw [if_neg h1]
    dsimp only
    split_ifs <;> exact hu

/-- C10 (replay safety): on a valid stream, for a `GraphExec` instantiated
without the auto-free-on-launch flag, (1) a `Run` of a `GraphExec` already
marked as a repeat launch whose `topoOrder_` holds a `MemAlloc` node that is
still active returns the invalid-value error and leaves the `GraphExec` and the
world as they were: no stream assigned, no command created, nothing enqueued;
(2) a first `Run` is not stopped by the check, it is the launch part run on the
`GraphExec` marked as a repeat launch, and the `GraphExec` it leaves is marked
so; (3) hence a second `Run` of that `GraphExec`, on a valid stream and with a
`MemAlloc` node of `topoOrder_` still active, returns the invalid-value error
without any effect. -/
theorem Run_replay_safety (env : RunEnv) (exec : GraphExec) (stream : Stream) (w : RunWorld)
    (hvalid : env.getStream stream ≠ 0)
    (hflag : exec.flags_ &&& hipGraphInstantiateFlagAutoFreeOnLaunch = 0) :
    (exec.repeatLaunch_ = true →
      (∃ node ∈ exec.topoOrder_, (w.heap node).type_ = hipGraphNodeType.MemAlloc ∧
        (w.heap node).isActiveMem_ = true) →
      exec.Run env stream w = (hipError_t.hipErrorInvalidValue, exec, w)) ∧
    (exec.repeatLaunch_ = false →
      exec.Run env stream w =
        { exec with repeatLaunch_ := true }.launch env stream
          (if stream = 0 then env.NullStream else stream) w ∧
      (exec.Run env stream w).2.1.repeatLaunch_ = true ∧
      ∀ (stream2 : Stream) (w2 : RunWorld), env.getStream stream2 ≠ 0 →
        (∃ node ∈ exec.topoOrder_, (w2.heap node).type_ = hipGraphNodeType.MemAlloc ∧
          (w2.heap node).isActiveMem_ = true) →
        (exec.Run env stream w).2.1.Run env stream2 w2 =
          (hipError_t.hipErrorInvalidValue, (exec.Run env stream w).2.1, w2)) := by
  have hreject : ∀ (e : GraphExec) (s : Stream) (v : RunWorld), env.getStream s ≠ 0 →
      e.flags_ &&& hipGraphInstantiateFlagAutoFreeOnLaunch = 0 → e.repeatLaunch_ = true →
      (∃ node ∈ e.topoOrder_, (v.heap node).type_ = hipGraphNodeType.MemAlloc ∧
        (v.heap node).isActiveMem_ = true) →
      e.Run env s v = (hipError_t.hipErrorInvalidValue, e, v) := by
    intro e s v hs hf hr ha
    have hact := (hasActiveMemAlloc_iff v.heap e.topoOrder_).2 ha
    simp [GraphExec.Run, hs, hf, hr, hact]
  refine ⟨fun hr ha => hreject exec stream w hvalid hflag hr ha, ?_⟩
  intro hfirst
  have hrun : exec.Run env stream w =
      { exec with repeatLaunch_ := true }.launch env stream
        (if stream = 0 then env.NullStream else stream) w := by
    simp [GraphExec.Run, hvalid, hflag, hfirst]
  obtain ⟨h1, h2, h3⟩ := launch_fields env { exec with repeatLaunch_ := true } stream
    (if stream = 0 then env.NullStream else stream) w
  refine ⟨hrun, by rw [hrun]; exact h1, ?_⟩
  intro stream2 w2 hvalid2 hactive
  apply hreject _ stream2 w2 hvalid2
  · rw [hrun, h3]; exact hflag
  · rw [hrun]; exact h1
  · rw [hrun, h2]; exact hactive

/-- Witness of C10: `sampleExec` run on the stream 7 in `sampleWorld`. -/
theorem Run_replay_safety_witness :
    (sampleExec.repeatLaunch_ = true →
      (∃ node ∈ sampleExec.topoOrder_,
        (sampleWorld.heap node).type_ = hipGraphNodeType.MemAlloc ∧
        (sampleWorld.heap node).isActiveMem_ = true) →
      sampleExec.Run sampleEnv 7 sampleWorld =
        (hipError_t.hipErrorInvalidValue, sampleExec, sampleWorld)) ∧
    (sampleExec.repeatLaunch_ = false →
      sampleExec.Run sampleEnv 7 sampleWorld =
        { sampleExec with repeatLaunch_ := true }.launch sampleEnv 7
          (if (7 : Stream) = 0 then sampleEnv.NullStream else 7) sampleWorld ∧
      (sampleExec.Run sampleEnv 7 sampleWorld).2.1.repeatLaunch_ = true ∧
      ∀ (stream2 : Stream) (w2 : RunWorld), sampleEnv.getStream stream2 ≠ 0 →
        (∃ node ∈ sampleExec.topoOrder_,
          (w2.heap node).type_ = hipGraphNodeType.MemAlloc ∧
          (w2.heap node).isActiveMem_ = true) →
        (sampleExec.Run sampleEnv 7 sampleWorld).2.1.Run sampleEnv stream2 w2 =
          (hipError_t.hipErrorInvalidValue,
            (sampleExec.Run sampleEnv 7 sampleWorld).2.1, w2)) :=
  Run_replay_safety sampleEnv sampleExec 7 sampleWorld (by decide) (by decide)

/-! ## Stream and handle validation in `Run` -/

/-- C11: `Run` called with a stream handle that does not resolve returns the
invalid-resource-handle error and leaves everything as it was: the `GraphExec`
(its repeat-launch flag included, so that the next `Run` behaves as it would
have without this call) and the world, that is every node's stream assignment,
the nodes' memory flags and the trace of enqueued work. -/
theorem Run_invalid_stream (env : RunEnv) (exec : GraphExec) (stream : Stream) (w : RunWorld)
    (hdead : env.getStream stream = 0) :
    exec.Run env stream w = (hipError_t.hipErrorInvalidResourceHandle, exec, w) ∧
    (exec.Run env stream w).2.1.repeatLaunch_ = exec.repeatLaunch_ ∧
    (exec.Run env stream w).2.2.queue = w.queue ∧
    (exec.Run env stream w).2.2.heap = w.heap ∧
    (exec.Run env stream w).2.2.trace = w.trace ∧
    ∀ (stream2 : Stream) (w2 : RunWorld),
      (exec.Run env stream w).2.1.Run env stream2 w2 = exec.Run env stream2 w2 := by
  have hrun : exec.Run env stream w = (hipError_t.hipErrorInvalidResourceHandle, exec, w) := by
    simp [GraphExec.Run, hdead]
  rw [hrun]
  exact ⟨rfl, rfl, rfl, rfl, rfl, fun _ _ => rfl⟩

/-- Witness of C11: in `strictEnv` the handle 3 does not resolve. -/
theorem Run_invalid_stream_witness :
    sampleExec.Run strictEnv 3 sampleWorld =
      (hipError_t.hipErrorInvalidResourceHandle, sampleExec, sampleWorld) ∧
    (sampleExec.Run strictEnv 3 sampleWorld).2.1.repeatLaunch_ = sampleExec.repeatLaunch_ ∧
    (sampleExec.Run strictEnv 3 sampleWorld).2.2.queue = sampleWorld.queue ∧
    (sampleExec.Run strictEnv 3 sampleWorld).2.2.heap = sampleWorld.heap ∧
    (sampleExec.Run strictEnv 3 sampleWorld).2.2.trace = sampleWorld.trace ∧
    ∀ (stream2 : Stream) (w2 : RunWorld),
      (sampleExec.Run strictEnv 3 sampleWorld).2.1.Run strictEnv stream2 w2 =
        sampleExec.Run strictEnv stream2 w2 :=
  Run_invalid_stream strictEnv sampleExec 3 sampleWorld (by decide)

/-- C12: `isGraphExecValid(p)` and `Graph::isGraphValid(p)` return true exactly
when `p` is in the respective live set; destroying a `GraphExec` makes
`isGraphExecValid` false for its handle and changes it for no other handle. A
`Run` requested on the destroyed handle fails with the invalid-resource-handle
error and leaves everything as it was; on a live handle it is the `Run` of the
object behind the handle. -/
theorem handle_validation (env : RunEnv) (s : HandleState) (p : Nat) (stream : Stream)
    (w : RunWorld) :
    (GraphExec.isGraphExecValid s p = true ↔ p ∈ s.graphExecSet_) ∧
    (Graph.isGraphValid s p = true ↔ p ∈ s.graphSet_) ∧
    GraphExec.isGraphExecValid (GraphExec.destroy s p) p = false ∧
    (∀ q, q ≠ p → (GraphExec.isGraphExecValid (GraphExec.destroy s p) q =
      GraphExec.isGraphExecValid s q)) ∧
    GraphExec.RunByHandle env (GraphExec.destroy s p) p stream w =
      (hipError_t.hipErrorInvalidResourceHandle, GraphExec.destroy s p, w) ∧
    (p ∈ s.graphExecSet_ →
      (GraphExec.RunByHandle env s p stream w).1 = ((s.graphExec p).Run env stream w).1 ∧
      (GraphExec.RunByHandle env s p stream w).2.2 =
        ((s.graphExec p).Run env stream w).2.2) := by
  have hdead : GraphExec.isGraphExecValid (GraphExec.destroy s p) p = false := by
    simp [GraphExec.isGraphExecValid, GraphExec.destroy, List.mem_filter]
  refine ⟨?_, ?_, hdead, ?_, ?_, ?_⟩
  · simp [GraphExec.isGraphExecValid]
  · simp [Graph.isGraphValid]
  · intro q hq
    simp [GraphExec.isGraphExecValid, GraphExec.destroy, List.mem_filter, hq]
  · simp only [GraphExec.RunByHandle, hdead, if_true]
  · intro hlive
    have hv : GraphExec.isGraphExecValid s p ≠ false := by
      simp [GraphExec.isGraphExecValid, hlive]
    simp only [GraphExec.RunByHandle, if_neg hv, and_self]

/-! ## The single-list path of `Run` -/

/-- On a valid stream, when the replay check lets the launch through, `Run` is
the launch part on the `GraphExec` marked as a repeat launch, in the world left
by the auto-free step. -/
theorem Run_eq_launch (env : RunEnv) (exec : GraphExec) (stream : Stream) (w : RunWorld)
    (hvalid : env.getStream stream ≠ 0)
    (hpass : exec.repeatLaunch_ = true →
      hasActiveMemAlloc (exec.autoFree env (env.hipStream stream) w).heap exec.topoOrder_ =
        false) :
    exec.Run env stream w =
      { exec with repeatLaunch_ := true }.launch env stream (env.hipStream stream)
        (exec.autoFree env (env.hipStream stream) w) := by
  cases hr : exec.repeatLaunch_ with
  | false =>
    simp only [GraphExec.Run, if_neg hvalid, hr]
    rfl
  | true =>
    have hp := hpass hr
    have hexec : { exec with repeatLaunch_ := true } = exec := by
      cases exec
      simp only [GraphExec.mk.injEq, true_and, and_true] at hr ⊢
      simp_all
    rw [hexec]
    simp only [GraphExec.autoFree, RunEnv.hipStream] at hp
    simp only [GraphExec.Run, if_neg hvalid, hr, hp]
    rfl

theorem runSingleLoop_spec (env : RunEnv) (stream hip_stream : Stream)
    (hdebug : env.DEBUG_CLR_GRAPH_PACKET_CAPTURE = false) (nodes : List Node) :
    ∀ (status : hipError_t) (w : RunWorld),
      (runSingleLoop env stream hip_stream nodes status w).2.trace =
        w.trace ++ nodes.flatMap (singleNodeEvents stream hip_stream) ∧
      (runSingleLoop env stream hip_stream nodes status w).2.heap = w.heap ∧
      (∀ node ∈ nodes,
        (runSingleLoop env stream hip_stream nodes status w).2.queue node = hip_stream) ∧
      ∀ node, node ∉ nodes →
        (runSingleLoop env stream hip_stream nodes status w).2.queue node = w.queue node := by
  induction nodes with
  | nil => intro status w; simp [runSingleLoop]
  | cons n rest ih =>
    intro status w
    simp only [runSingleLoop, hdebug, Bool.false_eq_true, false_and, if_false]
    obtain ⟨h1, h2, h3, h4⟩ := ih ((w.SetStream n hip_stream).CreateCommand env n).1
      ((((w.SetStream n hip_stream).CreateCommand env n).2).emit
        (RunEvent.EnqueueCommands n stream))
    refine ⟨?_, ?_, ?_, ?_⟩
    · rw [h1]
      simp [RunWorld.emit, RunWorld.CreateCommand, RunWorld.SetStream, singleNodeEvents,
        List.flatMap_cons]
    · rw [h2]
      rfl
    · intro node hnode
      by_cases hin : node ∈ rest
      · exact h3 node hin
      · have hn : node = n := by
          rcases List.mem_cons.1 hnode with e | e
          · exact e
          · exact absurd e hin
        rw [h4 node hin, hn]
        simp [RunWorld.emit, RunWorld.CreateCommand, RunWorld.SetStream]
    · intro node hnode
      have h5 : node ∉ rest := fun hin => hnode (List.mem_cons_of_mem _ hin)
      have h6 : node ≠ n := fun e => hnode (e ▸ List.mem_cons_self _ _)
      rw [h4 node h5]
      simp [RunWorld.emit, RunWorld.CreateCommand, RunWorld.SetStream,
        Function.update_noteq h6]

/-- C13 (amended): when the `GraphExec` has exactly one parallel list, its
kernel arguments are not in device memory and packet capture is off, a `Run`
on a valid stream that passes the replay check does, after the auto-free step,
exactly this: for every node of `topoOrder_`, in that order and once per entry,
it assigns the node to the caller's stream, creates its commands and enqueues
them on the caller's stream; nothing else is done, in particular no marker is
created or enqueued before, between or after them, and every node of
`topoOrder_` is left assigned to the caller's stream. -/
theorem Run_single_list (env : RunEnv) (exec : GraphExec) (stream : Stream) (w : RunWorld)
    (hvalid : env.getStream stream ≠ 0)
    (hpass : exec.repeatLaunch_ = true →
      hasActiveMemAlloc (exec.autoFree env (env.hipStream stream) w).heap exec.topoOrder_ =
        false)
    (hone : exec.parallelLists_.length = 1)
    (hpool : exec.device_kernarg_pool_ = false)
    (hdebug : env.DEBUG_CLR_GRAPH_PACKET_CAPTURE = false) :
    (exec.Run env stream w).2.2.trace =
      (exec.autoFree env (env.hipStream stream) w).trace ++
        exec.topoOrder_.flatMap (singleNodeEvents stream (env.hipStream stream)) ∧
    (∀ node ∈ exec.topoOrder_, (exec.Run env stream w).2.2.queue node = env.hipStream stream) ∧
    (∀ e ∈ exec.topoOrder_.flatMap (singleNodeEvents stream (env.hipStream stream)),
      (∀ c, e ≠ RunEvent.enqueue c) ∧ (∀ c s l, e ≠ RunEvent.newMarker c s l)) := by
  rw [Run_eq_launch env exec stream w hvalid hpass]
  obtain ⟨h1, _, h3, _⟩ := runSingleLoop_spec env stream (env.hipStream stream) hdebug
    exec.topoOrder_ hipError_t.hipSuccess (exec.autoFree env (env.hipStream stream) w)
  refine ⟨?_, ?_, ?_⟩
  · simp only [GraphExec.launch, hone, hpool, hdebug, if_true, Bool.false_eq_true, if_false]
    exact h1
  · intro node hnode
    simp only [GraphExec.launch, hone, hpool, hdebug, if_true, Bool.false_eq_true, if_false]
    exact h3 node hnode
  · intro e he
    simp only [List.mem_flatMap, singleNodeEvents, List.mem_cons, List.mem_singleton,
      List.not_mem_nil, or_false] at he
    obtain ⟨n, _, rfl | rfl | rfl⟩ := he <;> simp

/-- Witness of C13 (amended): the first `Run` of `sampleExec` on the stream 7. -/
theorem Run_single_list_witness :
    (sampleExec.Run sampleEnv 7 sampleWorld).2.2.trace =
      (sampleExec.autoFree sampleEnv (sampleEnv.hipStream 7) sampleWorld).trace ++
        sampleExec.topoOrder_.flatMap (singleNodeEvents 7 (sampleEnv.hipStream 7)) ∧
    (∀ node ∈ sampleExec.topoOrder_,
      (sampleExec.Run sampleEnv 7 sampleWorld).2.2.queue node = sampleEnv.hipStream 7) ∧
    (∀ e ∈ sampleExec.topoOrder_.flatMap (singleNodeEvents 7 (sampleEnv.hipStream 7)),
      (∀ c, e ≠ RunEvent.enqueue c) ∧ (∀ c s l, e ≠ RunEvent.newMarker c s l)) :=
  Run_single_list sampleEnv sampleExec 7 sampleWorld (by decide)
    (fun h => absurd h (by decide)) (by decide) (by decide) (by decide)

/-- C13 as stated fails: `deviceArgsExec` has exactly one parallel list and its
first `Run`, on the valid stream 7, is not stopped by the replay check, yet the
kernel arguments being in device memory a marker is created and enqueued on the
caller's stream before the node's commands. -/
theorem Run_single_list_start_marker :
    deviceArgsExec.parallelLists_.length = 1 ∧ sampleEnv.getStream 7 ≠ 0 ∧
    deviceArgsExec.repeatLaunch_ = false ∧
    (deviceArgsExec.Run sampleEnv 7 sampleWorld).1 = hipError_t.hipSuccess ∧
    (deviceArgsExec.Run sampleEnv 7 sampleWorld).2.2.trace =
      [RunEvent.newMarker 1000 7 [], RunEvent.enqueue 1000, RunEvent.release 1000,
        RunEvent.SetStream 1 7, RunEvent.CreateCommand 1 7, RunEvent.EnqueueCommands 1 7] := by
  decide

/-! ## The multi-list path of `Run`: stream assignment -/

theorem setStreamList_spec (stream : Stream) (l : List Node) :
    ∀ (w : RunWorld),
      (setStreamList stream l w).trace = w.trace ++ l.map (fun n => RunEvent.SetStream n stream) ∧
      (setStreamList stream l w).heap = w.heap ∧
      (setStreamList stream l w).commands = w.commands ∧
      (∀ n ∈ l, (setStreamList stream l w).queue n = stream) ∧
      ∀ n, n ∉ l → (setStreamList stream l w).queue n = w.queue n := by
  induction l with
  | nil => intro w; simp [setStreamList]
  | cons a rest ih =>
    intro w
    obtain ⟨h1, h2, h3, h4, h5⟩ := ih (w.SetStream a stream)
    simp only [setStreamList]
    refine ⟨by rw [h1]; simp [RunWorld.SetStream], by rw [h2]; rfl, by rw [h3]; rfl, ?_, ?_⟩
    · intro n hn
      by_cases hin : n ∈ rest
      · exact h4 n hin
      · have hna : n = a := by
          rcases List.mem_cons.1 hn with e | e
          · exact e
          · exact absurd e hin
        rw [h5 n hin, hna]
        simp [RunWorld.SetStream]
    · intro n hn
      have h6 : n ∉ rest := fun hin => hn (List.mem_cons_of_mem _ hin)
      have h7 : n ≠ a := fun e => hn (e ▸ List.mem_cons_self _ _)
      rw [h5 n h6]
      simp [RunWorld.SetStream, Function.update_noteq h7]

theorem bindLists_spec (pairs : List (List Node × Stream)) :
    ∀ (w : RunWorld),
      (bindLists pairs w).trace =
        w.trace ++ pairs.flatMap (fun p => p.1.map (fun n => RunEvent.SetStream n p.2)) ∧
      (bindLists pairs w).heap = w.heap ∧
      (bindLists pairs w).commands = w.commands ∧
      (∀ n, (∀ p ∈ pairs, n ∉ p.1) → (bindLists pairs w).queue n = w.queue n) ∧
      ((pairs.map Prod.fst).flatten.Nodup →
        ∀ p ∈ pairs, ∀ n ∈ p.1, (bindLists pairs w).queue n = p.2) := by
  induction pairs with
  | nil => intro w; simp [bindLists]
  | cons p rest ih =>
    intro w
    obtain ⟨h1, h2, h3, h4, h5⟩ := ih (setStreamList p.2 p.1 w)
    obtain ⟨g1, g2, g3, g4, g5⟩ := setStreamList_spec p.2 p.1 w
    simp only [bindLists]
    refine ⟨by rw [h1, g1]; simp, by rw [h2, g2], by rw [h3, g3], ?_, ?_⟩
    · intro n hn
      rw [h4 n (fun q hq => hn q (List.mem_cons_of_mem _ hq))]
      exact g5 n (hn p (List.mem_cons_self _ _))
    · intro hnd q hq n hnq
      simp only [List.map_cons, List.flatten_cons] at hnd
      obtain ⟨hnd1, hnd2, hdisj⟩ := List.nodup_append.1 hnd
      rcases List.mem_cons.1 hq with rfl | hq
      · rw [h4 n ?_]
        · exact g4 n hnq
        · intro r hr hnr
          exact hdisj hnq (List.mem_flatten.2 ⟨r.1, List.mem_map.2 ⟨r, hr, rfl⟩, hnr⟩)
      · exact h5 hnd2 q hq n hnq

theorem updateStreamLoop_aux (stream : Stream) (lists : List (List Node)) :
    ∀ (i : Nat) (exec : GraphExec) (w : RunWorld),
      updateStreamLoop stream lists (i + 1) exec w =
        ({ exec with currentQueueIndex_ := exec.currentQueueIndex_ + lists.length },
          bindLists (lists.zip (auxStreams exec.parallel_streams_ exec.currentQueueIndex_
            lists.length)) w) := by
  induction lists with
  | nil => intro i exec w; simp [updateStreamLoop, bindLists]
  | cons l rest ih =>
    intro i exec w
    simp only [updateStreamLoop, Nat.add_one_ne_zero, if_false, GraphExec.GetAvailableStreams,
      ih, List.length_cons, auxStreams, List.zip_cons_cons, bindLists]
    congr 2
    omega

/-- `UpdateStream` pairs the lists with the streams of the stream plan and
advances the round-robin index by the number of lists after the first. -/
theorem UpdateStream_eq (exec : GraphExec) (stream : Stream) (w : RunWorld) :
    UpdateStream exec.parallelLists_ stream exec w =
      ({ exec with currentQueueIndex_ :=
          exec.currentQueueIndex_ + (exec.parallelLists_.length - 1) },
        bindLists (exec.streamPlan stream) w) := by
  unfold UpdateStream GraphExec.streamPlan
  obtain ⟨lists, a, b, c, d, e, f, g, h, i, j, k⟩ := exec
  cases lists with
  | nil => simp [updateStreamLoop, bindLists]
  | cons first rest =>
    simp only [updateStreamLoop, if_true, Nat.zero_add, updateStreamLoop_aux,
      List.length_cons, Nat.add_sub_cancel, List.zip_cons_cons, bindLists]
    rfl

theorem auxStreams_eq (pool : List Stream) (k : Nat) :
    ∀ (index : Nat), index + k ≤ pool.length →
      auxStreams pool index k = (pool.drop index).take k := by
  induction k with
  | zero => intro index _; simp [auxStreams]
  | succ k ih =>
    intro index hle
    have hlt : index < pool.length := by omega
    rw [auxStreams, ih (index + 1) (by omega), List.getD_eq_getElem _ _ hlt,
      List.drop_eq_getElem_cons hlt, List.take_succ_cons]


/-- C17 fails on the single-list path: in `pairWorld` the node 2 depends on
the node 1 and in `failFirstEnv` the `CreateCommand` of the node 1 fails, yet
the `Run` of `pairExec` on the valid stream 7 enqueues the commands of the node
1 and then creates and enqueues those of the later node 2, and returns success,
the status of the last `CreateCommand`; on the multi-list path (`twoListExec`,
same environment) the failure is returned and nothing is enqueued. -/
theorem Run_single_list_ignores_failure :
    pairExec.parallelLists_.length = 1 ∧
    (pairWorld.heap 2).dependencies_ = [1] ∧
    (failFirstEnv.CreateCommand pairWorld 1 7).1 = hipError_t.hipErrorOutOfMemory ∧
    (pairExec.Run failFirstEnv 7 pairWorld).1 = hipError_t.hipSuccess ∧
    (pairExec.Run failFirstEnv 7 pairWorld).2.2.trace =
      [RunEvent.SetStream 1 7, RunEvent.CreateCommand 1 7, RunEvent.EnqueueCommands 1 7,
        RunEvent.SetStream 2 7, RunEvent.CreateCommand 2 7, RunEvent.EnqueueCommands 2 7] ∧
    (twoListExec.Run failFirstEnv 7 plainWorld).1 = hipError_t.hipErrorOutOfMemory ∧
    (twoListExec.Run failFirstEnv 7 plainWorld).2.2.trace =
      [RunEvent.SetStream 1 7, RunEvent.SetStream 2 50, RunEvent.CreateCommand 1 7] := by
  decide

/-- C18 fails for a command-creation failure in `FillCommands`: the `Run` of
`twoListExec` in `failFirstEnv` returns the error with the round-robin index
left at 1, not at its start 0, so the next `Run` of that `GraphExec` (in
`sampleEnv`, where it succeeds) binds the second list to the stream 51 where a
`Run` of the fresh `GraphExec` binds it to the stream 50; a `Run` that succeeds
leaves the index at 0. -/
theorem Run_failure_keeps_queue_index :
    twoListExec.currentQueueIndex_ = 0 ∧
    (twoListExec.Run failFirstEnv 7 plainWorld).1 = hipError_t.hipErrorOutOfMemory ∧
    (twoListExec.Run failFirstEnv 7 plainWorld).2.1.currentQueueIndex_ = 1 ∧
    ((twoListExec.Run failFirstEnv 7 plainWorld).2.1.Run sampleEnv 7
      (twoListExec.Run failFirstEnv 7 plainWorld).2.2).1 = hipError_t.hipSuccess ∧
    ((twoListExec.Run failFirstEnv 7 plainWorld).2.1.Run sampleEnv 7
      (twoListExec.Run failFirstEnv 7 plainWorld).2.2).2.2.queue 2 = 51 ∧
    (twoListExec.Run sampleEnv 7 plainWorld).1 = hipError_t.hipSuccess ∧
    (twoListExec.Run sampleEnv 7 plainWorld).2.2.queue 2 = 50 ∧
    (twoListExec.Run sampleEnv 7 plainWorld).2.1.currentQueueIndex_ = 0 := by
  decide

/-! ## The multi-list path of `Run`: the markers -/

theorem offStream_cons_pos (queue : Node → Stream) (stream : Stream) (n : Node)
    (rest : List Node) (h : queue n ≠ stream) :
    offStream queue stream (n :: rest) = n :: offStream queue stream rest := by
  simp [offStream, List.filter_cons, h]

theorem offStream_cons_neg (queue : Node → Stream) (stream : Stream) (n : Node)
    (rest : List Node) (h : ¬ queue n ≠ stream) :
    offStream queue stream (n :: rest) = offStream queue stream rest := by
  simp only [ne_eq, not_not] at h
  simp [offStream, List.filter_cons, h]

theorem fillRoots_started (env : RunEnv) (stream : Stream) (g : Command) (hg : g ≠ 0)
    (roots : List Node) :
    ∀ (w : RunWorld),
      fillRoots env stream roots g w =
        (true, g,
          { w with
            trace := w.trace ++
              rootWaitEvents w.commands g (offStream w.queue stream roots) }) := by
  induction roots with
  | nil => intro w; simp [fillRoots, offStream, rootWaitEvents]
  | cons root rest ih =>
    intro w
    by_cases h1 : w.queue root ≠ stream
    · simp only [fillRoots, if_pos h1, if_neg hg, offStream_cons_pos _ _ _ _ h1]
      cases hc : (w.commands root).head? with
      | none =>
        simp only [ih, rootWaitEvents, List.filterMap_cons, hc, Option.map_none']
      | some c =>
        simp only [ih, rootWaitEvents, List.filterMap_cons, hc, Option.map_some',
          RunWorld.emit, List.append_assoc, List.singleton_append]
    · simp only [fillRoots, if_neg h1, ih, offStream_cons_neg _ _ _ _ h1]

theorem fillRoots_fresh (env : RunEnv) (stream : Stream) (hm : ∀ v, env.newMarker v ≠ 0)
    (roots : List Node) :
    ∀ (w : RunWorld),
      fillRoots env stream roots 0 w =
        if offStream w.queue stream roots = [] then (true, 0, w)
        else
          (true, env.newMarker w,
            { w with
              trace := w.trace ++
                RunEvent.newMarker (env.newMarker w) stream [] ::
                  rootWaitEvents w.commands (env.newMarker w)
                    (offStream w.queue stream roots) }) := by
  induction roots with
  | nil => intro w; simp [fillRoots, offStream]
  | cons root rest ih =>
    intro w
    by_cases h1 : w.queue root ≠ stream
    · have hne : offStream w.queue stream (root :: rest) ≠ [] := by
        rw [offStream_cons_pos _ _ _ _ h1]
        exact List.cons_ne_nil _ _
      rw [if_neg hne]
      simp only [fillRoots, if_pos h1, if_true, RunWorld.Marker, if_neg (hm w),
        offStream_cons_pos _ _ _ _ h1]
      cases hc : (w.commands root).head? with
      | none =>
        simp only [RunWorld.emit, hc, fillRoots_started env stream _ (hm w), rootWaitEvents,
          List.filterMap_cons, Option.map_none', List.append_assoc, List.singleton_append]
      | some c =>
        simp only [RunWorld.emit, hc, fillRoots_started env stream _ (hm w), rootWaitEvents,
          List.filterMap_cons, Option.map_some', List.append_assoc, List.singleton_append,
          List.cons_append, List.nil_append]
    · simp only [fillRoots, if_neg h1, ih, offStream_cons_neg _ _ _ _ h1]

theorem fillLeaves_eq (stream : Stream) (w : RunWorld) (leaves : List Node) :
    ∀ (acc : List Command),
      fillLeaves stream w leaves acc =
        acc ++ lastCommands w.commands (offStream w.queue stream leaves) := by
  induction leaves with
  | nil => intro acc; simp [fillLeaves, offStream, lastCommands]
  | cons leaf rest ih =>
    intro acc
    by_cases h1 : w.queue leaf ≠ stream
    · rw [offStream_cons_pos _ _ _ _ h1]
      cases hc : (w.commands leaf).getLast? with
      | none =>
        simp only [fillLeaves, if_pos h1, hc, ih, lastCommands, List.filterMap_cons]
      | some c =>
        simp only [fillLeaves, if_pos h1, hc, ih, lastCommands, List.filterMap_cons,
          List.append_assoc, List.singleton_append]
    · simp only [fillLeaves, if_neg h1, ih, offStream_cons_neg _ _ _ _ h1]

theorem enqueueAll_eq (stream : Stream) (nodes : List Node) :
    ∀ (w : RunWorld),
      enqueueAll stream nodes w =
        { w with
          trace := w.trace ++ nodes.map (fun n => RunEvent.EnqueueCommands n stream) } := by
  induction nodes with
  | nil => intro w; simp [enqueueAll]
  | cons node rest ih =>
    intro w
    simp only [enqueueAll, ih, RunWorld.emit, List.map_cons, List.append_assoc,
      List.singleton_append]

theorem fillCreate_spec (env : RunEnv)
    (hc : ∀ v n q, (env.CreateCommand v n q).1 = hipError_t.hipSuccess) (nodes : List Node) :
    ∀ (nodeWaitLists : DepMap) (w : RunWorld),
      (fillCreate env nodes nodeWaitLists w).1 = hipError_t.hipSuccess ∧
      (fillCreate env nodes nodeWaitLists w).2.2.queue = w.queue ∧
      (fillCreate env nodes nodeWaitLists w).2.2.heap = w.heap ∧
      ∃ evs, (fillCreate env nodes nodeWaitLists w).2.2.trace = w.trace ++ evs ∧
        ∀ e ∈ evs, e.isSetup = true := by
  induction nodes with
  | nil => intro nwl w; exact ⟨rfl, rfl, rfl, [], by simp [fillCreate], by simp⟩
  | cons node rest ih =>
    intro nwl w
    have h1 : (w.CreateCommand env node).1 = hipError_t.hipSuccess := hc _ _ _
    simp only [fillCreate, h1, ne_eq, not_true_eq_false, if_false]
    obtain ⟨i1, i2, i3, evs, i4, i5⟩ := ih (Function.update nwl node (some ((nwl node).getD [])))
      ((w.CreateCommand env node).2.emit (RunEvent.UpdateEventWaitLists node
        ((List.map (w.CreateCommand env node).2.commands ((nwl node).getD [])).flatten)))
    refine ⟨i1, by rw [i2]; rfl, by rw [i3]; rfl,
      RunEvent.CreateCommand node (w.queue node) ::
        RunEvent.UpdateEventWaitLists node
          ((List.map (w.CreateCommand env node).2.commands ((nwl node).getD [])).flatten) :: evs,
      ?_, ?_⟩
    · rw [i4]
      simp [RunWorld.emit, RunWorld.CreateCommand]
    · intro e he
      rcases List.mem_cons.1 he with rfl | he
      · rfl
      · rcases List.mem_cons.1 he with rfl | he
        · rfl
        · exact i5 e he


/-- `FillCommands` when every `CreateCommand` succeeds and no marker is null:
after the first loop has left the world `c`, a start marker is created exactly
when some root is not on `stream`, the first command of each such root is made
to wait for it, and an end marker waiting for the last commands of the leaves
not on `stream` is created exactly when there is such a command. -/
theorem FillCommands_success (env : RunEnv) (nodeWaitLists : DepMap) (topoOrder : List Node)
    (clonedGraph : Graph) (stream : Stream) (u : RunWorld)
    (hc : ∀ v n q, (env.CreateCommand v n q).1 = hipError_t.hipSuccess)
    (hm : ∀ v, env.newMarker v ≠ 0) :
    ∃ m e, m ≠ 0 ∧ e ≠ 0 ∧
      FillCommands env nodeWaitLists topoOrder clonedGraph 0 0 stream u =
        (hipError_t.hipSuccess, (fillCreate env topoOrder nodeWaitLists u).2.1,
          (if offStream (fillCreate env topoOrder nodeWaitLists u).2.2.queue stream
              (clonedGraph.GetRootNodes (fillCreate env topoOrder nodeWaitLists u).2.2.heap) = []
            then 0 else m),
          (if lastCommands (fillCreate env topoOrder nodeWaitLists u).2.2.commands
              (offStream (fillCreate env topoOrder nodeWaitLists u).2.2.queue stream
                (clonedGraph.GetLeafNodes (fillCreate env topoOrder nodeWaitLists u).2.2.heap))
              = []
            then 0 else e),
          { (fillCreate env topoOrder nodeWaitLists u).2.2 with
            trace := (fillCreate env topoOrder nodeWaitLists u).2.2.trace ++
              (if offStream (fillCreate env topoOrder nodeWaitLists u).2.2.queue stream
                  (clonedGraph.GetRootNodes (fillCreate env topoOrder nodeWaitLists u).2.2.heap)
                  = []
                then []
                else RunEvent.newMarker m stream [] ::
                  rootWaitEvents (fillCreate env topoOrder nodeWaitLists u).2.2.commands m
                    (offStream (fillCreate env topoOrder nodeWaitLists u).2.2.queue stream
                      (clonedGraph.GetRootNodes
                        (fillCreate env topoOrder nodeWaitLists u).2.2.heap))) ++
              (if lastCommands (fillCreate env topoOrder nodeWaitLists u).2.2.commands
                  (offStream (fillCreate env topoOrder nodeWaitLists u).2.2.queue stream
                    (clonedGraph.GetLeafNodes
                      (fillCreate env topoOrder nodeWaitLists u).2.2.heap)) = []
                then []
                else [RunEvent.newMarker e stream
                  (lastCommands (fillCreate env topoOrder nodeWaitLists u).2.2.commands
                    (offStream (fillCreate env topoOrder nodeWaitLists u).2.2.queue stream
                      (clonedGraph.GetLeafNodes
                        (fillCreate env topoOrder nodeWaitLists u).2.2.heap)))]) }) := by
  have s1 := (fillCreate_spec env hc topoOrder nodeWaitLists u).1
  unfold FillCommands
  generalize fillCreate env topoOrder nodeWaitLists u = fc at s1 ⊢
  obtain ⟨st, nwl, c⟩ := fc
  simp only at s1
  subst s1
  simp only [ne_eq, not_true_eq_false, if_false, fillRoots_fresh env stream hm, fillLeaves_eq,
    List.nil_append]
  by_cases hR : offStream c.queue stream (clonedGraph.GetRootNodes c.heap) = []
  · simp only [hR, if_true, Bool.true_eq_false, if_false]
    by_cases hL : lastCommands c.commands
        (offStream c.queue stream (clonedGraph.GetLeafNodes c.heap)) = []
    · refine ⟨1, 1, by decide, by decide, ?_⟩
      simp [hL]
    · refine ⟨1, env.newMarker c, by decide, hm _, ?_⟩
      simp [hL, RunWorld.Marker, RunWorld.emit, hm]
  · simp only [hR, if_false, Bool.true_eq_false]
    by_cases hL : lastCommands c.commands
        (offStream c.queue stream (clonedGraph.GetLeafNodes c.heap)) = []
    · refine ⟨env.newMarker c, 1, hm _, by decide, ?_⟩
      simp [hL]
    · refine ⟨env.newMarker c, env.newMarker
        { c with
          trace := c.trace ++ RunEvent.newMarker (env.newMarker c) stream [] ::
            rootWaitEvents c.commands (env.newMarker c)
              (offStream c.queue stream (clonedGraph.GetRootNodes c.heap)) }, hm _, hm _, ?_⟩
      simp [hL, RunWorld.Marker, RunWorld.emit, hm]


/-- The multi-list path of `Run` when every `CreateCommand` succeeds and no
marker is null, in full: after the set-up events (streams assigned, commands
created, wait lists updated) come the creation of the start marker and the
wait-list updates of the roots not on the caller's stream, the creation of the
end marker, the enqueue of the start marker, the enqueue of every node's
commands in the order of `topoOrder_`, and the enqueue of the end marker. -/
theorem launch_multi_success (env : RunEnv) (exec : GraphExec) (stream hip_stream : Stream)
    (w : RunWorld) (hmany : exec.parallelLists_.length ≠ 1)
    (hc : ∀ v n q, (env.CreateCommand v n q).1 = hipError_t.hipSuccess)
    (hm : ∀ v, env.newMarker v ≠ 0) :
    ∃ setup m e, (∀ ev ∈ setup, ev.isSetup = true) ∧ m ≠ 0 ∧ e ≠ 0 ∧
      (exec.launch env stream hip_stream w).1 = hipError_t.hipSuccess ∧
      (exec.launch env stream hip_stream w).2.2.heap = w.heap ∧
      (exec.launch env stream hip_stream w).2.2.trace =
        w.trace ++ setup ++
          (if offStream (exec.launch env stream hip_stream w).2.2.queue hip_stream
              (exec.clonedGraph_.GetRootNodes (exec.launch env stream hip_stream w).2.2.heap) = []
            then []
            else RunEvent.newMarker m hip_stream [] ::
              rootWaitEvents (exec.launch env stream hip_stream w).2.2.commands m
                (offStream (exec.launch env stream hip_stream w).2.2.queue hip_stream
                  (exec.clonedGraph_.GetRootNodes
                    (exec.launch env stream hip_stream w).2.2.heap))) ++
          (if lastCommands (exec.launch env stream hip_stream w).2.2.commands
              (offStream (exec.launch env stream hip_stream w).2.2.queue hip_stream
                (exec.clonedGraph_.GetLeafNodes (exec.launch env stream hip_stream w).2.2.heap))
              = []
            then []
            else [RunEvent.newMarker e hip_stream
              (lastCommands (exec.launch env stream hip_stream w).2.2.commands
                (offStream (exec.launch env stream hip_stream w).2.2.queue hip_stream
                  (exec.clonedGraph_.GetLeafNodes
                    (exec.launch env stream hip_stream w).2.2.heap)))]) ++
          (if offStream (exec.launch env stream hip_stream w).2.2.queue hip_stream
              (exec.clonedGraph_.GetRootNodes (exec.launch env stream hip_stream w).2.2.heap) = []
            then [] else [RunEvent.enqueue m, RunEvent.release m]) ++
          exec.topoOrder_.map (fun n => RunEvent.EnqueueCommands n stream) ++
          (if lastCommands (exec.launch env stream hip_stream w).2.2.commands
              (offStream (exec.launch env stream hip_stream w).2.2.queue hip_stream
                (exec.clonedGraph_.GetLeafNodes (exec.launch env stream hip_stream w).2.2.heap))
              = []
            then [] else [RunEvent.enqueue e, RunEvent.release e]) := by
  obtain ⟨m, e, hm0, he0, hF⟩ := FillCommands_success env exec.nodeWaitLists_ exec.topoOrder_
    exec.clonedGraph_ hip_stream (bindLists (exec.streamPlan hip_stream) w) hc hm
  obtain ⟨b1, b2, _, _, _⟩ := bindLists_spec (exec.streamPlan hip_stream) w
  obtain ⟨_, _, c3, evs, c4, c5⟩ := fillCreate_spec env hc exec.topoOrder_ exec.nodeWaitLists_
    (bindLists (exec.streamPlan hip_stream) w)
  refine ⟨(exec.streamPlan hip_stream).flatMap
      (fun p => p.1.map (fun n => RunEvent.SetStream n p.2)) ++ evs, m, e, ?_, hm0, he0, ?_⟩
  · intro ev hev
    rcases List.mem_append.1 hev with h | h
    · obtain ⟨p, _, hp⟩ := List.mem_flatMap.1 h
      obtain ⟨n, _, rfl⟩ := List.mem_map.1 hp
      rfl
    · exact c5 ev h
  · simp only [GraphExec.launch, if_neg hmany, UpdateStream_eq, hF]
    generalize (fillCreate env exec.topoOrder_ exec.nodeWaitLists_
      (bindLists (exec.streamPlan hip_stream) w)).2.2 = c at c3 c4 ⊢
    rw [b2] at c3
    rw [b1] at c4
    by_cases hR : offStream c.queue hip_stream (exec.clonedGraph_.GetRootNodes w.heap) = []
    · by_cases hL : lastCommands c.commands
          (offStream c.queue hip_stream (exec.clonedGraph_.GetLeafNodes w.heap)) = []
      · simp [hR, hL, enqueueAll_eq, c3, c4]
      · simp [hR, hL, he0, enqueueAll_eq, RunWorld.enqueueRelease, RunWorld.emit, c3, c4]
    · by_cases hL : lastCommands c.commands
          (offStream c.queue hip_stream (exec.clonedGraph_.GetLeafNodes w.heap)) = []
      · simp [hR, hL, hm0, enqueueAll_eq, RunWorld.enqueueRelease, RunWorld.emit, c3, c4]
      · simp [hR, hL, hm0, he0, enqueueAll_eq, RunWorld.enqueueRelease, RunWorld.emit, c3, c4]


theorem offStream_ne_nil (queue : Node → Stream) (stream : Stream) (nodes : List Node) :
    offStream queue stream nodes ≠ [] ↔ ∃ n ∈ nodes, queue n ≠ stream := by
  induction nodes with
  | nil => simp [offStream]
  | cons a rest ih =>
    by_cases h : queue a ≠ stream
    · rw [offStream_cons_pos _ _ _ _ h]
      exact ⟨fun _ => ⟨a, List.mem_cons_self _ _, h⟩, fun _ => List.cons_ne_nil _ _⟩
    · rw [offStream_cons_neg _ _ _ _ h, ih]
      constructor
      · rintro ⟨n, hn, hq⟩
        exact ⟨n, List.mem_cons_of_mem _ hn, hq⟩
      · rintro ⟨n, hn, hq⟩
        rcases List.mem_cons.1 hn with rfl | hn
        · exact absurd hq h
        · exact ⟨n, hn, hq⟩

theorem rootWaitEvents_mem (commands : Node → List Command) (m : Command) (roots : List Node)
    (r : Node) (hr : r ∈ roots) (c : Command) (rest : List Command)
    (hcmd : commands r = c :: rest) :
    RunEvent.updateEventWaitList c [m] ∈ rootWaitEvents commands m roots := by
  unfold rootWaitEvents
  exact List.mem_filterMap.2 ⟨r, hr, by rw [hcmd]; rfl⟩

theorem rootWaitEvents_form (commands : Node → List Command) (m : Command) (roots : List Node) :
    ∀ ev ∈ rootWaitEvents commands m roots, ∃ c, ev = RunEvent.updateEventWaitList c [m] := by
  intro ev hev
  unfold rootWaitEvents at hev
  obtain ⟨r, _, hr⟩ := List.mem_filterMap.1 hev
  cases hh : (commands r).head? with
  | none => rw [hh] at hr; cases hr
  | some c =>
    rw [hh] at hr
    exact ⟨c, by simpa using hr.symm⟩

/-- C15 (amended): in the multi-list path of a `Run` on a valid stream that
passes the replay check, when every `CreateCommand` succeeds and no marker
allocation returns null, the events of the `Run` after the auto-free step are:
the set-up events (streams assigned, commands created, wait lists updated);
then, when some root of the cloned graph is not on the caller's stream, the
creation of one start marker `m` on the caller's stream with an empty wait list
followed by the wait-list updates of the roots not on the caller's stream, in
which the first command of every such root gets the wait list `[m]`; then at
most the creation of the end marker; then the enqueue of `m`, before the
enqueue of every node's commands in the order of `topoOrder_`; then at most the
enqueue of the end marker. When every root is on the caller's stream no start
marker is created or enqueued. -/
theorem Run_start_marker (env : RunEnv) (exec : GraphExec) (stream : Stream) (w : RunWorld)
    (hvalid : env.getStream stream ≠ 0)
    (hpass : exec.repeatLaunch_ = true →
      hasActiveMemAlloc (exec.autoFree env (env.hipStream stream) w).heap exec.topoOrder_ =
        false)
    (hmany : 1 < exec.parallelLists_.length)
    (hc : ∀ v n q, (env.CreateCommand v n q).1 = hipError_t.hipSuccess)
    (hm : ∀ v, env.newMarker v ≠ 0) :
    ∃ setup endCreate endEnqueue m,
      (∀ ev ∈ setup, ev.isSetup = true) ∧
      (∀ ev ∈ endCreate, ∃ e l, l ≠ [] ∧ ev = RunEvent.newMarker e (env.hipStream stream) l) ∧
      (∀ ev ∈ endEnqueue, ∃ e, ev = RunEvent.enqueue e ∨ ev = RunEvent.release e) ∧
      m ≠ 0 ∧
      (exec.Run env stream w).1 = hipError_t.hipSuccess ∧
      ((∃ r ∈ exec.clonedGraph_.GetRootNodes (exec.Run env stream w).2.2.heap,
          (exec.Run env stream w).2.2.queue r ≠ env.hipStream stream) →
        (exec.Run env stream w).2.2.trace =
          (exec.autoFree env (env.hipStream stream) w).trace ++ setup ++
            RunEvent.newMarker m (env.hipStream stream) [] ::
              rootWaitEvents (exec.Run env stream w).2.2.commands m
                (offStream (exec.Run env stream w).2.2.queue (env.hipStream stream)
                  (exec.clonedGraph_.GetRootNodes (exec.Run env stream w).2.2.heap)) ++
            endCreate ++ [RunEvent.enqueue m, RunEvent.release m] ++
            exec.topoOrder_.map (fun n => RunEvent.EnqueueCommands n stream) ++ endEnqueue) ∧
      ((∀ r ∈ exec.clonedGraph_.GetRootNodes (exec.Run env stream w).2.2.heap,
          (exec.Run env stream w).2.2.queue r = env.hipStream stream) →
        (exec.Run env stream w).2.2.trace =
          (exec.autoFree env (env.hipStream stream) w).trace ++ setup ++ endCreate ++
            exec.topoOrder_.map (fun n => RunEvent.EnqueueCommands n stream) ++ endEnqueue) ∧
      (∀ ev ∈ rootWaitEvents (exec.Run env stream w).2.2.commands m
          (offStream (exec.Run env stream w).2.2.queue (env.hipStream stream)
            (exec.clonedGraph_.GetRootNodes (exec.Run env stream w).2.2.heap)),
        ∃ c, ev = RunEvent.updateEventWaitList c [m]) ∧
      (∀ r ∈ exec.clonedGraph_.GetRootNodes (exec.Run env stream w).2.2.heap,
        (exec.Run env stream w).2.2.queue r ≠ env.hipStream stream →
        ∀ c rest, (exec.Run env stream w).2.2.commands r = c :: rest →
          RunEvent.updateEventWaitList c [m] ∈
            rootWaitEvents (exec.Run env stream w).2.2.commands m
              (offStream (exec.Run env stream w).2.2.queue (env.hipStream stream)
                (exec.clonedGraph_.GetRootNodes (exec.Run env stream w).2.2.heap))) := by
  have hne : ({ exec with repeatLaunch_ := true } : GraphExec).parallelLists_.length ≠ 1 :=
    fun h => absurd (show exec.parallelLists_.length = 1 from h) (by omega)
  obtain ⟨setup, m, e, hs, hm0, he0, hst, _, ht⟩ := launch_multi_success env
    { exec with repeatLaunch_ := true } stream (env.hipStream stream)
    (exec.autoFree env (env.hipStream stream) w) hne hc hm
  rw [Run_eq_launch env exec stream w hvalid hpass]
  generalize ({ exec with repeatLaunch_ := true } : GraphExec).launch env stream
    (env.hipStream stream) (exec.autoFree env (env.hipStream stream) w) = res at hst ht ⊢
  change res.2.2.trace = _ ++ setup ++
    (if offStream res.2.2.queue (env.hipStream stream)
        (exec.clonedGraph_.GetRootNodes res.2.2.heap) = [] then []
      else RunEvent.newMarker m (env.hipStream stream) [] ::
        rootWaitEvents res.2.2.commands m (offStream res.2.2.queue (env.hipStream stream)
          (exec.clonedGraph_.GetRootNodes res.2.2.heap))) ++
    (if lastCommands res.2.2.commands (offStream res.2.2.queue (env.hipStream stream)
        (exec.clonedGraph_.GetLeafNodes res.2.2.heap)) = [] then []
      else [RunEvent.newMarker e (env.hipStream stream)
        (lastCommands res.2.2.commands (offStream res.2.2.queue (env.hipStream stream)
          (exec.clonedGraph_.GetLeafNodes res.2.2.heap)))]) ++
    (if offStream res.2.2.queue (env.hipStream stream)
        (exec.clonedGraph_.GetRootNodes res.2.2.heap) = [] then []
      else [RunEvent.enqueue m, RunEvent.release m]) ++
    exec.topoOrder_.map (fun n => RunEvent.EnqueueCommands n stream) ++
    (if lastCommands res.2.2.commands (offStream res.2.2.queue (env.hipStream stream)
        (exec.clonedGraph_.GetLeafNodes res.2.2.heap)) = [] then []
      else [RunEvent.enqueue e, RunEvent.release e]) at ht
  refine ⟨setup,
    (if lastCommands res.2.2.commands (offStream res.2.2.queue (env.hipStream stream)
        (exec.clonedGraph_.GetLeafNodes res.2.2.heap)) = [] then []
      else [RunEvent.newMarker e (env.hipStream stream)
        (lastCommands res.2.2.commands (offStream res.2.2.queue (env.hipStream stream)
          (exec.clonedGraph_.GetLeafNodes res.2.2.heap)))]),
    (if lastCommands res.2.2.commands (offStream res.2.2.queue (env.hipStream stream)
        (exec.clonedGraph_.GetLeafNodes res.2.2.heap)) = [] then []
      else [RunEvent.enqueue e, RunEvent.release e]),
    m, hs, ?_, ?_, hm0, hst, ?_, ?_, rootWaitEvents_form _ _ _, ?_⟩
  · intro ev hev
    split_ifs at hev with hL
    · simp at hev
    · exact ⟨e, _, hL, List.mem_singleton.1 hev⟩
  · intro ev hev
    split_ifs at hev with hL
    · simp at hev
    · refine ⟨e, ?_⟩
      simpa using hev
  · intro hex
    have hR := (offStream_ne_nil _ _ _).2 hex
    rw [ht, if_neg hR, if_neg hR]
  · intro hall
    have hR : offStream res.2.2.queue (env.hipStream stream)
        (exec.clonedGraph_.GetRootNodes res.2.2.heap) = [] := by
      by_contra hcon
      obtain ⟨r, hr, hq⟩ := (offStream_ne_nil _ _ _).1 hcon
      exact hq (hall r hr)
    rw [ht, if_pos hR, if_pos hR]
    simp only [List.append_assoc, List.append_nil, List.nil_append]
  · intro r hr hq c rest hcmd
    refine rootWaitEvents_mem _ m _ r ?_ c rest hcmd
    unfold offStream
    exact List.mem_filter.2 ⟨hr, by simpa using hq⟩


/-- Witness of C15 (amended): the first `Run` of `fourListExec` on the stream
7. -/
theorem Run_start_marker_witness :
    ∃ setup endCreate endEnqueue m,
      (∀ ev ∈ setup, ev.isSetup = true) ∧
      (∀ ev ∈ endCreate, ∃ e l, l ≠ [] ∧ ev = RunEvent.newMarker e (sampleEnv.hipStream 7) l) ∧
      (∀ ev ∈ endEnqueue, ∃ e, ev = RunEvent.enqueue e ∨ ev = RunEvent.release e) ∧
      m ≠ 0 ∧
      (fourListExec.Run sampleEnv 7 plainWorld).1 = hipError_t.hipSuccess ∧
      ((∃ r ∈ fourListExec.clonedGraph_.GetRootNodes (fourListExec.Run sampleEnv 7 plainWorld).2.2.heap,
          (fourListExec.Run sampleEnv 7 plainWorld).2.2.queue r ≠ sampleEnv.hipStream 7) →
        (fourListExec.Run sampleEnv 7 plainWorld).2.2.trace =
          (fourListExec.autoFree sampleEnv (sampleEnv.hipStream 7) plainWorld).trace ++ setup ++
            RunEvent.newMarker m (sampleEnv.hipStream 7) [] ::
              rootWaitEvents (fourListExec.Run sampleEnv 7 plainWorld).2.2.commands m
                (offStream (fourListExec.Run sampleEnv 7 plainWorld).2.2.queue (sampleEnv.hipStream 7)
                  (fourListExec.clonedGraph_.GetRootNodes (fourListExec.Run sampleEnv 7 plainWorld).2.2.heap)) ++
            endCreate ++ [RunEvent.enqueue m, RunEvent.release m] ++
            fourListExec.topoOrder_.map (fun n => RunEvent.EnqueueCommands n 7) ++ endEnqueue) ∧
      ((∀ r ∈ fourListExec.clonedGraph_.GetRootNodes (fourListExec.Run sampleEnv 7 plainWorld).2.2.heap,
          (fourListExec.Run sampleEnv 7 plainWorld).2.2.queue r = sampleEnv.hipStream 7) →
        (fourListExec.Run sampleEnv 7 plainWorld).2.2.trace =
          (fourListExec.autoFree sampleEnv (sampleEnv.hipStream 7) plainWorld).trace ++ setup ++ endCreate ++
            fourListExec.topoOrder_.map (fun n => RunEvent.EnqueueCommands n 7) ++ endEnqueue) ∧
      (∀ ev ∈ rootWaitEvents (fourListExec.Run sampleEnv 7 plainWorld).2.2.commands m
          (offStream (fourListExec.Run sampleEnv 7 plainWorld).2.2.queue (sampleEnv.hipStream 7)
            (fourListExec.clonedGraph_.GetRootNodes (fourListExec.Run sampleEnv 7 plainWorld).2.2.heap)),
        ∃ c, ev = RunEvent.updateEventWaitList c [m]) ∧
      (∀ r ∈ fourListExec.clonedGraph_.GetRootNodes (fourListExec.Run sampleEnv 7 plainWorld).2.2.heap,
        (fourListExec.Run sampleEnv 7 plainWorld).2.2.queue r ≠ sampleEnv.hipStream 7 →
        ∀ c rest, (fourListExec.Run sampleEnv 7 plainWorld).2.2.commands r = c :: rest →
          RunEvent.updateEventWaitList c [m] ∈
            rootWaitEvents (fourListExec.Run sampleEnv 7 plainWorld).2.2.commands m
              (offStream (fourListExec.Run sampleEnv 7 plainWorld).2.2.queue (sampleEnv.hipStream 7)
                (fourListExec.clonedGraph_.GetRootNodes (fourListExec.Run sampleEnv 7 plainWorld).2.2.heap))) :=
  Run_start_marker sampleEnv fourListExec 7 plainWorld (by decide)
    (fun h => absurd h (by decide)) (by decide) (fun _ _ _ => rfl)
    (fun _ => (by decide : (1000 : Command) ≠ 0))

/-- C15 as stated fails: the `Run` of `twoListExec` in `failFirstEnv`, on the
valid stream 7, takes the multi-list path and leaves the root 2 on the stream
50, not the caller's stream, yet no start marker is created: `FillCommands`
returns at the failed `CreateCommand` of the node 1. -/
theorem Run_no_start_marker_on_failure :
    1 < twoListExec.parallelLists_.length ∧ failFirstEnv.getStream 7 ≠ 0 ∧
    twoListExec.repeatLaunch_ = false ∧ failFirstEnv.hipStream 7 = 7 ∧
    twoListExec.clonedGraph_.GetRootNodes
      (twoListExec.Run failFirstEnv 7 plainWorld).2.2.heap = [1, 2] ∧
    (twoListExec.Run failFirstEnv 7 plainWorld).2.2.queue 2 = 50 ∧
    (twoListExec.Run failFirstEnv 7 plainWorld).2.2.trace =
      [RunEvent.SetStream 1 7, RunEvent.SetStream 2 50, RunEvent.CreateCommand 1 7] := by
  decide

/-- C16 (amended): in the multi-list path of a `Run` on a valid stream that
passes the replay check, when every `CreateCommand` succeeds and no marker
allocation returns null, let `L` be the last commands of the leaves of the
cloned graph that are not on the caller's stream, leaves taken in vertex order
and leaves without commands skipped. When `L` is not empty one end marker `e`
is created on the caller's stream with exactly the wait list `L`, after the
set-up events and the events of the start marker, and `e` is enqueued after the
enqueue of every node's commands in the order of `topoOrder_`, as the last
event of the `Run`. When `L` is empty no end marker is created or enqueued. -/
theorem Run_end_marker (env : RunEnv) (exec : GraphExec) (stream : Stream) (w : RunWorld)
    (hvalid : env.getStream stream ≠ 0)
    (hpass : exec.repeatLaunch_ = true →
      hasActiveMemAlloc (exec.autoFree env (env.hipStream stream) w).heap exec.topoOrder_ =
        false)
    (hmany : 1 < exec.parallelLists_.length)
    (hc : ∀ v n q, (env.CreateCommand v n q).1 = hipError_t.hipSuccess)
    (hm : ∀ v, env.newMarker v ≠ 0) :
    ∃ before startEnqueue e,
      (∀ ev ∈ before, ev.isSetup = true ∨
        (∃ m, ev = RunEvent.newMarker m (env.hipStream stream) []) ∨
        (∃ c m, ev = RunEvent.updateEventWaitList c [m])) ∧
      (∀ ev ∈ startEnqueue, ∃ m, ev = RunEvent.enqueue m ∨ ev = RunEvent.release m) ∧
      e ≠ 0 ∧
      (exec.Run env stream w).1 = hipError_t.hipSuccess ∧
      (lastCommands (exec.Run env stream w).2.2.commands
          (offStream (exec.Run env stream w).2.2.queue (env.hipStream stream)
            (exec.clonedGraph_.GetLeafNodes (exec.Run env stream w).2.2.heap)) ≠ [] →
        (exec.Run env stream w).2.2.trace =
          (exec.autoFree env (env.hipStream stream) w).trace ++ before ++
            [RunEvent.newMarker e (env.hipStream stream)
              (lastCommands (exec.Run env stream w).2.2.commands
                (offStream (exec.Run env stream w).2.2.queue (env.hipStream stream)
                  (exec.clonedGraph_.GetLeafNodes (exec.Run env stream w).2.2.heap)))] ++
            startEnqueue ++
            exec.topoOrder_.map (fun n => RunEvent.EnqueueCommands n stream) ++
            [RunEvent.enqueue e, RunEvent.release e]) ∧
      (lastCommands (exec.Run env stream w).2.2.commands
          (offStream (exec.Run env stream w).2.2.queue (env.hipStream stream)
            (exec.clonedGraph_.GetLeafNodes (exec.Run env stream w).2.2.heap)) = [] →
        (exec.Run env stream w).2.2.trace =
          (exec.autoFree env (env.hipStream stream) w).trace ++ before ++ startEnqueue ++
            exec.topoOrder_.map (fun n => RunEvent.EnqueueCommands n stream)) := by
  have hne : ({ exec with repeatLaunch_ := true } : GraphExec).parallelLists_.length ≠ 1 :=
    fun h => absurd (show exec.parallelLists_.length = 1 from h) (by omega)
  obtain ⟨setup, m, e, hs, hm0, he0, hst, _, ht⟩ := launch_multi_success env
    { exec with repeatLaunch_ := true } stream (env.hipStream stream)
    (exec.autoFree env (env.hipStream stream) w) hne hc hm
  rw [Run_eq_launch env exec stream w hvalid hpass]
  generalize ({ exec with repeatLaunch_ := true } : GraphExec).launch env stream
    (env.hipStream stream) (exec.autoFree env (env.hipStream stream) w) = res at hst ht ⊢
  change res.2.2.trace = _ ++ setup ++
    (if offStream res.2.2.queue (env.hipStream stream)
        (exec.clonedGraph_.GetRootNodes res.2.2.heap) = [] then []
      else RunEvent.newMarker m (env.hipStream stream) [] ::
        rootWaitEvents res.2.2.commands m (offStream res.2.2.queue (env.hipStream stream)
          (exec.clonedGraph_.GetRootNodes res.2.2.heap))) ++
    (if lastCommands res.2.2.commands (offStream res.2.2.queue (env.hipStream stream)
        (exec.clonedGraph_.GetLeafNodes res.2.2.heap)) = [] then []
      else [RunEvent.newMarker e (env.hipStream stream)
        (lastCommands res.2.2.commands (offStream res.2.2.queue (env.hipStream stream)
          (exec.clonedGraph_.GetLeafNodes res.2.2.heap)))]) ++
    (if offStream res.2.2.queue (env.hipStream stream)
        (exec.clonedGraph_.GetRootNodes res.2.2.heap) = [] then []
      else [RunEvent.enqueue m, RunEvent.release m]) ++
    exec.topoOrder_.map (fun n => RunEvent.EnqueueCommands n stream) ++
    (if lastCommands res.2.2.commands (offStream res.2.2.queue (env.hipStream stream)
        (exec.clonedGraph_.GetLeafNodes res.2.2.heap)) = [] then []
      else [RunEvent.enqueue e, RunEvent.release e]) at ht
  refine ⟨setup ++
    (if offStream res.2.2.queue (env.hipStream stream)
        (exec.clonedGraph_.GetRootNodes res.2.2.heap) = [] then []
      else RunEvent.newMarker m (env.hipStream stream) [] ::
        rootWaitEvents res.2.2.commands m (offStream res.2.2.queue (env.hipStream stream)
          (exec.clonedGraph_.GetRootNodes res.2.2.heap))),
    (if offStream res.2.2.queue (env.hipStream stream)
        (exec.clonedGraph_.GetRootNodes res.2.2.heap) = [] then []
      else [RunEvent.enqueue m, RunEvent.release m]),
    e, ?_, ?_, he0, hst, ?_, ?_⟩
  · intro ev hev
    rcases List.mem_append.1 hev with h | h
    · exact Or.inl (hs ev h)
    · split_ifs at h with hR
      · simp at h
      · rcases List.mem_cons.1 h with rfl | h
        · exact Or.inr (Or.inl ⟨m, rfl⟩)
        · obtain ⟨c, hcev⟩ := rootWaitEvents_form _ _ _ ev h
          exact Or.inr (Or.inr ⟨c, m, hcev⟩)
  · intro ev hev
    split_ifs at hev with hR
    · simp at hev
    · refine ⟨m, ?_⟩
      simpa using hev
  · intro hL
    rw [ht, if_neg hL, if_neg hL]
    simp only [List.append_assoc]
  · intro hL
    rw [ht, if_pos hL, if_pos hL]
    simp only [List.append_assoc, List.append_nil, List.nil_append]

/-- Witness of C16 (amended): the first `Run` of `fourListExec` on the stream
7. -/
theorem Run_end_marker_witness :
    ∃ before startEnqueue e,
      (∀ ev ∈ before, ev.isSetup = true ∨
        (∃ m, ev = RunEvent.newMarker m (sampleEnv.hipStream 7) []) ∨
        (∃ c m, ev = RunEvent.updateEventWaitList c [m])) ∧
      (∀ ev ∈ startEnqueue, ∃ m, ev = RunEvent.enqueue m ∨ ev = RunEvent.release m) ∧
      e ≠ 0 ∧
      (fourListExec.Run sampleEnv 7 plainWorld).1 = hipError_t.hipSuccess ∧
      (lastCommands (fourListExec.Run sampleEnv 7 plainWorld).2.2.commands
          (offStream (fourListExec.Run sampleEnv 7 plainWorld).2.2.queue (sampleEnv.hipStream 7)
            (fourListExec.clonedGraph_.GetLeafNodes (fourListExec.Run sampleEnv 7 plainWorld).2.2.heap)) ≠ [] →
        (fourListExec.Run sampleEnv 7 plainWorld).2.2.trace =
          (fourListExec.autoFree sampleEnv (sampleEnv.hipStream 7) plainWorld).trace ++ before ++
            [RunEvent.newMarker e (sampleEnv.hipStream 7)
              (lastCommands (fourListExec.Run sampleEnv 7 plainWorld).2.2.commands
                (offStream (fourListExec.Run sampleEnv 7 plainWorld).2.2.queue (sampleEnv.hipStream 7)
                  (fourListExec.clonedGraph_.GetLeafNodes (fourListExec.Run sampleEnv 7 plainWorld).2.2.heap)))] ++
            startEnqueue ++
            fourListExec.topoOrder_.map (fun n => RunEvent.EnqueueCommands n 7) ++
            [RunEvent.enqueue e, RunEvent.release e]) ∧
      (lastCommands (fourListExec.Run sampleEnv 7 plainWorld).2.2.commands
          (offStream (fourListExec.Run sampleEnv 7 plainWorld).2.2.queue (sampleEnv.hipStream 7)
            (fourListExec.clonedGraph_.GetLeafNodes (fourListExec.Run sampleEnv 7 plainWorld).2.2.heap)) = [] →
        (fourListExec.Run sampleEnv 7 plainWorld).2.2.trace =
          (fourListExec.autoFree sampleEnv (sampleEnv.hipStream 7) plainWorld).trace ++ before ++ startEnqueue ++
            fourListExec.topoOrder_.map (fun n => RunEvent.EnqueueCommands n 7)) :=
  Run_end_marker sampleEnv fourListExec 7 plainWorld (by decide)
    (fun h => absurd h (by decide)) (by decide) (fun _ _ _ => rfl)
    (fun _ => (by decide : (1000 : Command) ≠ 0))

/-- C16 as stated fails: the `Run` of `threeListExec` in `failThirdEnv`, on the
valid stream 7, takes the multi-list path; the leaf 2 is on the stream 50, not
the caller's stream, and has the command 502, so the wait list of the end
marker is not empty, yet no end marker is created: `FillCommands` returns at
the failed `CreateCommand` of the node 3. -/
theorem Run_no_end_marker_on_failure :
    1 < threeListExec.parallelLists_.length ∧ failThirdEnv.getStream 7 ≠ 0 ∧
    threeListExec.repeatLaunch_ = false ∧ failThirdEnv.hipStream 7 = 7 ∧
    threeListExec.clonedGraph_.GetLeafNodes
      (threeListExec.Run failThirdEnv 7 plainWorld).2.2.heap = [1, 2, 3] ∧
    (threeListExec.Run failThirdEnv 7 plainWorld).2.2.queue 2 = 50 ∧
    (threeListExec.Run failThirdEnv 7 plainWorld).2.2.commands 2 = [502] ∧
    lastCommands (threeListExec.Run failThirdEnv 7 plainWorld).2.2.commands
      (offStream (threeListExec.Run failThirdEnv 7 plainWorld).2.2.queue 7
        (threeListExec.clonedGraph_.GetLeafNodes
          (threeListExec.Run failThirdEnv 7 plainWorld).2.2.heap)) = [502] ∧
    (threeListExec.Run failThirdEnv 7 plainWorld).2.2.trace =
      [RunEvent.SetStream 1 7, RunEvent.SetStream 2 50, RunEvent.SetStream 3 51,
        RunEvent.CreateCommand 1 7, RunEvent.UpdateEventWaitLists 1 [],
        RunEvent.CreateCommand 2 50, RunEvent.UpdateEventWaitLists 2 [],
        RunEvent.CreateCommand 3 51] := by
  decide


/-! ## Instantiation -/

theorem createStreamsLoop_spec (env : InstEnv) :
    ∀ (k : Nat) (exec : GraphExec) (w : InstWorld), ∃ created tail,
      (∀ s ∈ created, s ≠ 0) ∧
      (createStreamsLoop env k exec w).2.1 =
        { exec with parallel_streams_ := exec.parallel_streams_ ++ created } ∧
      (createStreamsLoop env k exec w).2.2 =
        { w with
          trace := w.trace ++
            created.flatMap (fun s => [InstEvent.newStream s, InstEvent.Create s true]) ++
            tail } ∧
      (((createStreamsLoop env k exec w).1 = hipError_t.hipSuccess ∧ created.length = k ∧
          tail = []) ∨
        ((createStreamsLoop env k exec w).1 = hipError_t.hipErrorOutOfMemory ∧
          created.length < k ∧
          ((tail = [InstEvent.newStream 0] ∧ ∃ v, env.newStream v = 0) ∨
            ∃ s v, s ≠ 0 ∧ env.Create v s = false ∧
              tail = [InstEvent.newStream s, InstEvent.Create s false,
                InstEvent.Destroy s]))) := by
  intro k
  induction k with
  | zero =>
    intro exec w
    exact ⟨[], [], by simp, by simp [createStreamsLoop], by simp [createStreamsLoop],
      Or.inl ⟨rfl, rfl, rfl⟩⟩
  | succ k ih =>
    intro exec w
    by_cases h0 : env.newStream w = 0
    · refine ⟨[], [InstEvent.newStream 0], by simp, ?_, ?_, Or.inr ⟨?_, by simp, Or.inl
        ⟨rfl, w, h0⟩⟩⟩
      · simp [createStreamsLoop, h0]
      · simp [createStreamsLoop, h0, InstWorld.emit]
      · simp [createStreamsLoop, h0]
    · by_cases hok : env.Create (w.emit (InstEvent.newStream (env.newStream w)))
          (env.newStream w) = false
      · have hok0 := hok
        simp only [InstWorld.emit] at hok0
        refine ⟨[], [InstEvent.newStream (env.newStream w),
          InstEvent.Create (env.newStream w) false, InstEvent.Destroy (env.newStream w)],
          by simp, ?_, ?_, Or.inr ⟨?_, by simp, Or.inr ⟨_, _, h0, hok, rfl⟩⟩⟩
        · simp [createStreamsLoop, h0, InstWorld.emit, hok0]
        · simp [createStreamsLoop, h0, InstWorld.emit, hok0]
        · simp [createStreamsLoop, h0, InstWorld.emit, hok0]
      · have hok1 : env.Create (w.emit (InstEvent.newStream (env.newStream w)))
            (env.newStream w) = true := by simpa using hok
        obtain ⟨created, tail, i1, i2, i3, i4⟩ := ih
          { exec with parallel_streams_ := exec.parallel_streams_ ++ [env.newStream w] }
          ((w.emit (InstEvent.newStream (env.newStream w))).emit
            (InstEvent.Create (env.newStream w) true))
        have hstep : createStreamsLoop env (k + 1) exec w =
            createStreamsLoop env k
              { exec with parallel_streams_ := exec.parallel_streams_ ++ [env.newStream w] }
              ((w.emit (InstEvent.newStream (env.newStream w))).emit
                (InstEvent.Create (env.newStream w) true)) := by
          have hok2 := hok1
          simp only [InstWorld.emit] at hok2
          simp [createStreamsLoop, h0, InstWorld.emit, hok2]
        rw [hstep]
        refine ⟨env.newStream w :: created, tail, ?_, ?_, ?_, ?_⟩
        · intro s hs
          rcases List.mem_cons.1 hs with rfl | hs
          · exact h0
          · exact i1 s hs
        · rw [i2]
          simp
        · rw [i3]
          simp [InstWorld.emit]
        · rcases i4 with ⟨a, b, c⟩ | ⟨a, b, c⟩
          · exact Or.inl ⟨a, by simp [b], c⟩
          · exact Or.inr ⟨a, by simp only [List.length_cons]; omega, c⟩

theorem initLoop_success (env : InstEnv) (nodes : List Node)
    (h : ∀ node ∈ nodes, ∀ n, (env.GetNumParallelStreams node n).1 = hipError_t.hipSuccess) :
    ∀ (m : Nat), (initLoop env nodes m).1 = hipError_t.hipSuccess ∧
      (initLoop env nodes m).2 =
        nodes.foldl (fun k node => (env.GetNumParallelStreams node k).2) m := by
  induction nodes with
  | nil => intro m; exact ⟨rfl, rfl⟩
  | cons node rest ih =>
    intro m
    have h1 := h node (List.mem_cons_self _ _) m
    simp only [initLoop, h1, ne_eq, not_true_eq_false, if_false, List.foldl_cons]
    exact ih (fun n hn => h n (List.mem_cons_of_mem _ hn)) _

theorem initLoop_failure (env : InstEnv) (pre : List Node) (node : Node) (post : List Node) :
    ∀ (m : Nat), (initLoop env pre m).1 = hipError_t.hipSuccess →
      (env.GetNumParallelStreams node (initLoop env pre m).2).1 ≠ hipError_t.hipSuccess →
      (initLoop env (pre ++ node :: post) m).1 =
        (env.GetNumParallelStreams node (initLoop env pre m).2).1 := by
  induction pre with
  | nil =>
    intro m _ hf
    simp only [initLoop] at hf
    simp [initLoop, hf]
  | cons a rest ih =>
    intro m hs hf
    by_cases ha : (env.GetNumParallelStreams a m).1 = hipError_t.hipSuccess
    · simp only [initLoop, ha, ne_eq, not_true_eq_false, if_false, List.cons_append] at hs hf ⊢
      exact ih _ hs hf
    · simp only [initLoop, ne_eq, ha, not_false_eq_true, if_true] at hs

theorem initNumStreams_eq (size m : Nat) (h1 : 1 ≤ size + m) (h2 : size + m ≤ 2 ^ 32) :
    initNumStreams size m + 1 = size + m := by
  unfold initNumStreams
  omega


theorem CreateStreams_success (env : InstEnv) (hnew : ∀ v, env.newStream v ≠ 0)
    (hcreate : ∀ v s, env.Create v s = true) (exec : GraphExec) (k : Nat) (w : InstWorld) :
    ∃ created, created.length = k ∧ (∀ s ∈ created, s ≠ 0) ∧
      exec.CreateStreams env k w =
        (hipError_t.hipSuccess,
          { exec with parallel_streams_ := exec.parallel_streams_ ++ created },
          { w with
            trace := w.trace ++
              created.flatMap (fun s => [InstEvent.newStream s, InstEvent.Create s true]) }) := by
  obtain ⟨created, tail, i1, i2, i3, i4⟩ := createStreamsLoop_spec env k exec w
  rcases i4 with ⟨a, b, c⟩ | ⟨_, _, ⟨_, v, hv⟩ | ⟨s, v, _, hv, _⟩⟩
  · refine ⟨created, b, i1, ?_⟩
    unfold GraphExec.CreateStreams
    refine Prod.ext a (Prod.ext i2 ?_)
    rw [i3, c, List.append_nil]
  · exact absurd hv (hnew v)
  · rw [hcreate v s] at hv
    cases hv

/-- C19: when every stream allocation and every `Create` succeeds, (1) if every
node's `GetNumParallelStreams` succeeds, `Init` returns success having created
and appended to the pool exactly as many streams as the `uint32_t` value of
`parallelLists_.size() - 1 + minStreams`, which is `(parallelLists_.size() - 1)
+ minStreams` itself whenever that number is within range, `minStreams` being
the value, starting from 1, left after every node of `topoOrder_` in turn has
reported its requirement; (2) if the `GetNumParallelStreams` of some node
fails after those of the nodes before it have succeeded, `Init` returns that
node's status and leaves the `GraphExec` and the world as they were: no stream
is created. -/
theorem Init_streams (env : InstEnv) (exec : GraphExec) (w : InstWorld)
    (hnew : ∀ v, env.newStream v ≠ 0) (hcreate : ∀ v s, env.Create v s = true) :
    ((∀ node ∈ exec.topoOrder_, ∀ n,
        (env.GetNumParallelStreams node n).1 = hipError_t.hipSuccess) →
      ∃ created,
        created.length = initNumStreams exec.parallelLists_.length
          (exec.topoOrder_.foldl (fun k node => (env.GetNumParallelStreams node k).2) 1) ∧
        (1 ≤ exec.parallelLists_.length +
            exec.topoOrder_.foldl (fun k node => (env.GetNumParallelStreams node k).2) 1 →
          exec.parallelLists_.length +
            exec.topoOrder_.foldl (fun k node => (env.GetNumParallelStreams node k).2) 1 ≤
              2 ^ 32 →
          created.length + 1 = exec.parallelLists_.length +
            exec.topoOrder_.foldl (fun k node => (env.GetNumParallelStreams node k).2) 1) ∧
        (∀ s ∈ created, s ≠ 0) ∧
        exec.Init env w =
          (hipError_t.hipSuccess,
            { exec with parallel_streams_ := exec.parallel_streams_ ++ created },
            { w with
              trace := w.trace ++
                created.flatMap
                  (fun s => [InstEvent.newStream s, InstEvent.Create s true]) })) ∧
    (∀ pre node post, exec.topoOrder_ = pre ++ node :: post →
      (∀ p ∈ pre, ∀ n, (env.GetNumParallelStreams p n).1 = hipError_t.hipSuccess) →
      (env.GetNumParallelStreams node
        (pre.foldl (fun k p => (env.GetNumParallelStreams p k).2) 1)).1 ≠
          hipError_t.hipSuccess →
      exec.Init env w =
        ((env.GetNumParallelStreams node
          (pre.foldl (fun k p => (env.GetNumParallelStreams p k).2) 1)).1, exec, w)) := by
  constructor
  · intro hall
    obtain ⟨h1, h2⟩ := initLoop_success env exec.topoOrder_ hall 1
    obtain ⟨created, c1, c2, c3⟩ := CreateStreams_success env hnew hcreate exec
      (initNumStreams exec.parallelLists_.length
        (exec.topoOrder_.foldl (fun k node => (env.GetNumParallelStreams node k).2) 1)) w
    refine ⟨created, c1, ?_, c2, ?_⟩
    · intro hlo hhi
      rw [c1]
      exact initNumStreams_eq _ _ hlo hhi
    · simp only [GraphExec.Init, h1, h2, ne_eq, not_true_eq_false, if_false]
      exact c3
  · intro pre node post htopo hpre hfail
    obtain ⟨h1, h2⟩ := initLoop_success env pre hpre 1
    have h3 := initLoop_failure env pre node post 1 h1 (by rw [h2]; exact hfail)
    rw [h2] at h3
    have h4 : (initLoop env exec.topoOrder_ 1).1 ≠ hipError_t.hipSuccess := by
      rw [htopo, h3]
      exact hfail
    simp only [GraphExec.Init, if_pos h4]
    rw [htopo, h3]

/-- Witness of C19: `Init` of `freshExec` in `sampleInstEnv`. -/
theorem Init_streams_witness :
    ((∀ node ∈ freshExec.topoOrder_, ∀ n,
        (sampleInstEnv.GetNumParallelStreams node n).1 = hipError_t.hipSuccess) →
      ∃ created,
        created.length = initNumStreams freshExec.parallelLists_.length
          (freshExec.topoOrder_.foldl
            (fun k node => (sampleInstEnv.GetNumParallelStreams node k).2) 1) ∧
        (1 ≤ freshExec.parallelLists_.length +
            freshExec.topoOrder_.foldl
              (fun k node => (sampleInstEnv.GetNumParallelStreams node k).2) 1 →
          freshExec.parallelLists_.length +
            freshExec.topoOrder_.foldl
              (fun k node => (sampleInstEnv.GetNumParallelStreams node k).2) 1 ≤ 2 ^ 32 →
          created.length + 1 = freshExec.parallelLists_.length +
            freshExec.topoOrder_.foldl
              (fun k node => (sampleInstEnv.GetNumParallelStreams node k).2) 1) ∧
        (∀ s ∈ created, s ≠ 0) ∧
        freshExec.Init sampleInstEnv plainInstWorld =
          (hipError_t.hipSuccess,
            { freshExec with parallel_streams_ := freshExec.parallel_streams_ ++ created },
            { plainInstWorld with
              trace := plainInstWorld.trace ++
                created.flatMap
                  (fun s => [InstEvent.newStream s, InstEvent.Create s true]) })) ∧
    (∀ pre node post, freshExec.topoOrder_ = pre ++ node :: post →
      (∀ p ∈ pre, ∀ n, (sampleInstEnv.GetNumParallelStreams p n).1 = hipError_t.hipSuccess) →
      (sampleInstEnv.GetNumParallelStreams node
        (pre.foldl (fun k p => (sampleInstEnv.GetNumParallelStreams p k).2) 1)).1 ≠
          hipError_t.hipSuccess →
      freshExec.Init sampleInstEnv plainInstWorld =
        ((sampleInstEnv.GetNumParallelStreams node
          (pre.foldl (fun k p => (sampleInstEnv.GetNumParallelStreams p k).2) 1)).1,
          freshExec, plainInstWorld)) :=
  Init_streams sampleInstEnv freshExec plainInstWorld
    (fun v => Nat.ne_of_gt (Nat.lt_of_lt_of_le (by decide : 0 < 50) (Nat.le_add_right 50 _)))
    (fun _ _ => rfl)

/-- The two outcomes of `Init` on `freshExec` (three parallel lists, no node
asking for more than the one stream `minStreams` starts with): in
`sampleInstEnv` three streams are created and pooled, in `brokenNodeInstEnv`
the status of the node 2 is returned and nothing is created. -/
theorem Init_eval :
    (freshExec.Init sampleInstEnv plainInstWorld).1 = hipError_t.hipSuccess ∧
    (freshExec.Init sampleInstEnv plainInstWorld).2.1.parallel_streams_ = [50, 52, 54] ∧
    (freshExec.Init sampleInstEnv plainInstWorld).2.2.trace =
      [InstEvent.newStream 50, InstEvent.Create 50 true, InstEvent.newStream 52,
        InstEvent.Create 52 true, InstEvent.newStream 54, InstEvent.Create 54 true] ∧
    (freshExec.Init brokenNodeInstEnv plainInstWorld).1 = hipError_t.hipErrorInvalidValue ∧
    (freshExec.Init brokenNodeInstEnv plainInstWorld).2.1.parallel_streams_ = [] ∧
    (freshExec.Init brokenNodeInstEnv plainInstWorld).2.2.trace = [] := by
  decide


theorem captureList_spec (env : InstEnv) (stream : Stream) (l : List Node) :
    ∀ (acc : Nat × Bool) (w : InstWorld),
      (captureList env stream l acc w).2.trace =
        w.trace ++ l.map (fun n => InstEvent.SetStream n stream) ∧
      (captureList env stream l acc w).2.heap = w.heap := by
  induction l with
  | nil => intro acc w; simp [captureList]
  | cons node rest ih =>
    intro acc w
    simp only [captureList]
    split_ifs
    · obtain ⟨h1, h2⟩ := ih ((acc.1 + env.GetKerArgSize node) % 2 ^ 64, acc.2)
        (w.SetStream node stream)
      exact ⟨by rw [h1]; simp [InstWorld.SetStream], by rw [h2]; rfl⟩
    · obtain ⟨h1, h2⟩ := ih (acc.1, false) (w.SetStream node stream)
      exact ⟨by rw [h1]; simp [InstWorld.SetStream], by rw [h2]; rfl⟩

/-- The first loop of `CaptureAQLPackets` takes one stream from the pool for
every parallel list, the first included, advances the round-robin index by the
number of lists and changes nothing else of the `GraphExec`; all it does to the
outside is to put every node of every list on the stream of its list. -/
theorem captureLists_spec (env : InstEnv) (lists : List (List Node)) :
    ∀ (acc : Nat × Bool) (exec : GraphExec) (w : InstWorld),
      (captureLists env lists acc exec w).2.1 =
        { exec with currentQueueIndex_ := exec.currentQueueIndex_ + lists.length } ∧
      (captureLists env lists acc exec w).2.2.trace =
        w.trace ++
          (lists.zip (auxStreams exec.parallel_streams_ exec.currentQueueIndex_
            lists.length)).flatMap
            (fun p => p.1.map (fun n => InstEvent.SetStream n p.2)) ∧
      (captureLists env lists acc exec w).2.2.heap = w.heap := by
  induction lists with
  | nil => intro acc exec w; simp [captureLists]
  | cons l rest ih =>
    intro acc exec w
    obtain ⟨c1, c2⟩ := captureList_spec env (exec.parallel_streams_.getD
      exec.currentQueueIndex_ 0) l acc w
    obtain ⟨h1, h2, h3⟩ := ih
      (captureList env (exec.parallel_streams_.getD exec.currentQueueIndex_ 0) l acc w).1
      { exec with currentQueueIndex_ := exec.currentQueueIndex_ + 1 }
      (captureList env (exec.parallel_streams_.getD exec.currentQueueIndex_ 0) l acc w).2
    simp only [captureLists, GraphExec.GetAvailableStreams]
    refine ⟨?_, ?_, ?_⟩
    · rw [h1]
      simp only [List.length_cons, GraphExec.mk.injEq, true_and, and_true]
      omega
    · rw [h2, c1]
      simp [auxStreams, List.flatMap_cons]
    · rw [h3, c2]

/-- C20 as stated fails: in `scarceInstEnv` `CreateStreams(3)` of `freshExec`
fails on its second stream and returns the out-of-memory status with the first
stream, 50, still in `parallel_streams_` and not destroyed; and
`CaptureAQLPackets` of `threeListExec`, whose pool holds three streams, fails
to allocate the kernel-argument pool and returns with the three streams still
in `parallel_streams_` and none destroyed. -/
theorem instantiation_failure_streams_not_released :
    (freshExec.CreateStreams scarceInstEnv 3 plainInstWorld).1 =
      hipError_t.hipErrorOutOfMemory ∧
    (freshExec.CreateStreams scarceInstEnv 3 plainInstWorld).2.1.parallel_streams_ = [50] ∧
    (freshExec.CreateStreams scarceInstEnv 3 plainInstWorld).2.2.trace =
      [InstEvent.newStream 50, InstEvent.Create 50 true, InstEvent.newStream 52,
        InstEvent.Create 52 false, InstEvent.Destroy 52] ∧
    (threeListExec.CaptureAQLPackets scarceInstEnv plainInstWorld).1 =
      hipError_t.hipErrorOutOfMemory ∧
    (threeListExec.CaptureAQLPackets scarceInstEnv plainInstWorld).2.1.parallel_streams_ =
      [50, 51, 52] ∧
    (threeListExec.CaptureAQLPackets scarceInstEnv plainInstWorld).2.2.trace =
      [InstEvent.SetStream 1 50, InstEvent.SetStream 2 51, InstEvent.SetStream 3 52,
        InstEvent.hostAlloc 0 0] := by
  decide


/-! ## `CaptureAQLPackets`: the kernel-argument pool -/

theorem captureList_acc (env : InstEnv) (stream : Stream) (l : List Node) :
    ∀ (acc : Nat × Bool) (w : InstWorld), acc.1 < 2 ^ 64 →
      (captureList env stream l acc w).1.1 = (acc.1 + kernArgSum env w.heap l) % 2 ^ 64 ∧
      (captureList env stream l acc w).1.1 < 2 ^ 64 ∧
      ((captureList env stream l acc w).1.2 = true ↔
        acc.2 = true ∧ ∀ n ∈ l, (w.heap n).type_ = hipGraphNodeType.Kernel) := by
  induction l with
  | nil =>
    intro acc w hacc
    refine ⟨?_, hacc, ?_⟩
    · simp only [captureList, kernArgSum, List.filter_nil, List.map_nil, List.sum_nil,
        Nat.add_zero]
      omega
    · simp [captureList]
  | cons node rest ih =>
    intro acc w hacc
    by_cases hk : (w.heap node).type_ = hipGraphNodeType.Kernel
    · obtain ⟨h1, h2, h3⟩ := ih ((acc.1 + env.GetKerArgSize node) % 2 ^ 64, acc.2)
        (w.SetStream node stream) (Nat.mod_lt _ (by norm_num))
      simp only [captureList, if_pos hk]
      refine ⟨?_, h2, ?_⟩
      · rw [h1]
        have hs : kernArgSum env w.heap (node :: rest) =
            env.GetKerArgSize node + kernArgSum env w.heap rest := by
          simp [kernArgSum, List.filter_cons, hk]
        rw [hs]
        show ((acc.1 + env.GetKerArgSize node) % 2 ^ 64 + kernArgSum env w.heap rest) % 2 ^ 64 =
          (acc.1 + (env.GetKerArgSize node + kernArgSum env w.heap rest)) % 2 ^ 64
        omega
      · rw [h3]
        show (acc.2 = true ∧ ∀ n ∈ rest, (w.heap n).type_ = hipGraphNodeType.Kernel) ↔ _
        simp [hk]
    · obtain ⟨h1, h2, h3⟩ := ih (acc.1, false) (w.SetStream node stream) hacc
      simp only [captureList, if_neg hk]
      refine ⟨?_, h2, ?_⟩
      · rw [h1]
        have hs : kernArgSum env w.heap (node :: rest) = kernArgSum env w.heap rest := by
          simp [kernArgSum, List.filter_cons, hk]
        rw [hs]
        rfl
      · rw [h3]
        simp [hk]

theorem captureLists_acc (env : InstEnv) (lists : List (List Node)) :
    ∀ (acc : Nat × Bool) (exec : GraphExec) (w : InstWorld), acc.1 < 2 ^ 64 →
      (captureLists env lists acc exec w).1.1 =
        (acc.1 + kernArgSum env w.heap lists.flatten) % 2 ^ 64 ∧
      ((captureLists env lists acc exec w).1.2 = true ↔
        acc.2 = true ∧ ∀ n ∈ lists.flatten, (w.heap n).type_ = hipGraphNodeType.Kernel) := by
  induction lists with
  | nil =>
    intro acc exec w hacc
    refine ⟨?_, ?_⟩
    · simp only [captureLists, kernArgSum, List.flatten_nil, List.filter_nil, List.map_nil,
        List.sum_nil, Nat.add_zero]
      omega
    · simp [captureLists]
  | cons l rest ih =>
    intro acc exec w hacc
    obtain ⟨c1, c2, c3⟩ := captureList_acc env (exec.parallel_streams_.getD
      exec.currentQueueIndex_ 0) l acc w hacc
    obtain ⟨_, c5⟩ := captureList_spec env (exec.parallel_streams_.getD
      exec.currentQueueIndex_ 0) l acc w
    obtain ⟨h1, h2⟩ := ih
      (captureList env (exec.parallel_streams_.getD exec.currentQueueIndex_ 0) l acc w).1
      { exec with currentQueueIndex_ := exec.currentQueueIndex_ + 1 }
      (captureList env (exec.parallel_streams_.getD exec.currentQueueIndex_ 0) l acc w).2 c2
    simp only [captureLists, GraphExec.GetAvailableStreams]
    rw [c5] at h1 h2
    refine ⟨?_, ?_⟩
    · rw [h1, c1]
      have hs : kernArgSum env w.heap (l :: rest).flatten =
          kernArgSum env w.heap l + kernArgSum env w.heap rest.flatten := by
        simp [kernArgSum, List.filter_append]
      rw [hs]
      omega
    · rw [h2, c3]
      simp only [List.flatten_cons, List.mem_append]
      constructor
      · rintro ⟨⟨a, b⟩, c⟩
        exact ⟨a, fun n hn => hn.elim (b n) (c n)⟩
      · rintro ⟨a, b⟩
        exact ⟨⟨a, fun n hn => b n (Or.inl hn)⟩, fun n hn => b n (Or.inr hn)⟩

theorem captureKernels_spec (env : InstEnv) (nodes : List Node) :
    ∀ (status : hipError_t) (exec : GraphExec) (w : InstWorld),
      (captureKernels env nodes status exec w).2.1.device_kernarg_pool_ =
        exec.device_kernarg_pool_ ∧
      (captureKernels env nodes status exec w).2.1.kernarg_pool_graph_ =
        exec.kernarg_pool_graph_ ∧
      (captureKernels env nodes status exec w).2.1.parallel_streams_ = exec.parallel_streams_ ∧
      (captureKernels env nodes status exec w).2.1.currentQueueIndex_ =
        exec.currentQueueIndex_ ∧
      ∃ evs, (captureKernels env nodes status exec w).2.2.trace = w.trace ++ evs ∧
        ∀ e ∈ evs, (∃ n q, e = InstEvent.CreateCommand n q) ∨
          ∃ n o, e = InstEvent.EnableCapturing n o := by
  induction nodes with
  | nil => intro status exec w; exact ⟨rfl, rfl, rfl, rfl, [], by simp [captureKernels], by simp⟩
  | cons node rest ih =>
    intro status exec w
    by_cases hk : (w.heap node).type_ = hipGraphNodeType.Kernel
    · simp only [captureKernels, if_pos hk]
      split_ifs with h0
      · exact ⟨rfl, rfl, rfl, rfl, [InstEvent.CreateCommand node (w.queue node)], rfl,
          by simp⟩
      · obtain ⟨i1, i2, i3, i4, evs, i5, i6⟩ := ih (env.CreateCommand w node (w.queue node))
          { exec with kernarg_pool_cur_graph_offset_ :=
              (env.allocKernArg exec.kernarg_pool_graph_ exec.kernarg_pool_size_graph_
                exec.kernarg_pool_cur_graph_offset_ (env.GetKernargSegmentByteSize node)
                (env.GetKernargSegmentAlignment node)).2 }
          ((w.emit (InstEvent.CreateCommand node (w.queue node))).emit
            (InstEvent.EnableCapturing node
              (env.allocKernArg exec.kernarg_pool_graph_ exec.kernarg_pool_size_graph_
                exec.kernarg_pool_cur_graph_offset_ (env.GetKernargSegmentByteSize node)
                (env.GetKernargSegmentAlignment node)).1))
        refine ⟨i1, i2, i3, i4,
          InstEvent.CreateCommand node (w.queue node) ::
            InstEvent.EnableCapturing node
              (env.allocKernArg exec.kernarg_pool_graph_ exec.kernarg_pool_size_graph_
                exec.kernarg_pool_cur_graph_offset_ (env.GetKernargSegmentByteSize node)
                (env.GetKernargSegmentAlignment node)).1 :: evs, ?_, ?_⟩
        · rw [i5]
          simp [InstWorld.emit]
        · intro e he
          rcases List.mem_cons.1 he with rfl | he
          · exact Or.inl ⟨_, _, rfl⟩
          · rcases List.mem_cons.1 he with rfl | he
            · exact Or.inr ⟨_, _, rfl⟩
            · exact i6 e he
    · simp only [captureKernels, if_neg hk]
      exact ih status exec w


/-- C21: `CaptureAQLPackets` first puts the nodes of the parallel lists on
streams and then makes exactly one allocation, of the `size_t` sum of
`GetKerArgSize` over the kernel nodes of the parallel lists: from
`deviceLocalAlloc`, setting `device_kernarg_pool_`, when every node of every
parallel list is a kernel node and the device has a large bar, and from
`hostAlloc`, leaving `device_kernarg_pool_` as it was, otherwise. The address
returned becomes `kernarg_pool_graph_`; when it is null the function returns
the memory-allocation status at once: nothing follows the allocation, no kernel
node is enabled for capturing with a pool offset and the pool's current offset
is untouched. -/
theorem CaptureAQLPackets_pool (env : InstEnv) (exec : GraphExec) (w : InstWorld) :
    ∃ setup after pool,
      (∀ e ∈ setup, ∃ n s, e = InstEvent.SetStream n s) ∧
      (∀ e ∈ after, (∃ n q, e = InstEvent.CreateCommand n q) ∨
        ∃ n o, e = InstEvent.EnableCapturing n o) ∧
      (((∀ n ∈ exec.parallelLists_.flatten, (w.heap n).type_ = hipGraphNodeType.Kernel) ∧
          env.largeBar_ = true) →
        (exec.CaptureAQLPackets env w).2.2.trace =
          w.trace ++ setup ++
            [InstEvent.deviceLocalAlloc
              (kernArgSum env w.heap exec.parallelLists_.flatten % 2 ^ 64) pool] ++ after ∧
        (exec.CaptureAQLPackets env w).2.1.device_kernarg_pool_ = true) ∧
      (¬ ((∀ n ∈ exec.parallelLists_.flatten, (w.heap n).type_ = hipGraphNodeType.Kernel) ∧
          env.largeBar_ = true) →
        (exec.CaptureAQLPackets env w).2.2.trace =
          w.trace ++ setup ++
            [InstEvent.hostAlloc
              (kernArgSum env w.heap exec.parallelLists_.flatten % 2 ^ 64) pool] ++ after ∧
        (exec.CaptureAQLPackets env w).2.1.device_kernarg_pool_ = exec.device_kernarg_pool_) ∧
      (exec.CaptureAQLPackets env w).2.1.kernarg_pool_graph_ = pool ∧
      (pool = 0 →
        (exec.CaptureAQLPackets env w).1 = hipError_t.hipErrorMemoryAllocation ∧ after = [] ∧
        (exec.CaptureAQLPackets env w).2.1.kernarg_pool_cur_graph_offset_ =
          exec.kernarg_pool_cur_graph_offset_) := by
  obtain ⟨h1, h2, _⟩ := captureLists_spec env exec.parallelLists_ (0, true) exec w
  obtain ⟨a1, a2⟩ := captureLists_acc env exec.parallelLists_ (0, true) exec w (by norm_num)
  have hset : ∀ e ∈ (exec.parallelLists_.zip (auxStreams exec.parallel_streams_
      exec.currentQueueIndex_ exec.parallelLists_.length)).flatMap
        (fun p => p.1.map (fun n => InstEvent.SetStream n p.2)),
      ∃ n s, e = InstEvent.SetStream n s := by
    intro e he
    obtain ⟨p, _, hp⟩ := List.mem_flatMap.1 he
    obtain ⟨n, _, hn⟩ := List.mem_map.1 hp
    exact ⟨n, p.2, hn.symm⟩
  simp only [Nat.zero_add, true_and] at a1 a2
  simp only [GraphExec.CaptureAQLPackets]
  generalize captureLists env exec.parallelLists_ (0, true) exec w = c at h1 h2 a1 a2 ⊢
  generalize (exec.parallelLists_.zip (auxStreams exec.parallel_streams_
    exec.currentQueueIndex_ exec.parallelLists_.length)).flatMap
      (fun p => p.1.map (fun n => InstEvent.SetStream n p.2)) = setup at h2 hset
  obtain ⟨⟨size, only⟩, cexec, cw⟩ := c
  simp only at h1 h2 a1 a2
  subst h1 a1
  generalize kernArgSum env w.heap exec.parallelLists_.flatten % 2 ^ 64 = size
  by_cases hk : only = true ∧ env.largeBar_ = true
  · have hk2 : (∀ n ∈ exec.parallelLists_.flatten,
        (w.heap n).type_ = hipGraphNodeType.Kernel) ∧ env.largeBar_ = true :=
      ⟨a2.1 hk.1, hk.2⟩
    simp only [if_pos hk]
    by_cases hp : env.deviceLocalAlloc cw size = 0
    · refine ⟨setup, [], 0, hset, by simp, ?_, fun hn => absurd hk2 hn, ?_, ?_⟩
      · intro _
        simp [hp, InstWorld.emit, h2]
      · simp [hp]
      · intro _
        simp [hp]
    · obtain ⟨k1, k2, _, _, evs, k5, k6⟩ := captureKernels_spec env exec.topoOrder_
        hipError_t.hipSuccess
        { exec with
          currentQueueIndex_ := exec.currentQueueIndex_ + exec.parallelLists_.length
          kernarg_pool_graph_ := env.deviceLocalAlloc cw size
          device_kernarg_pool_ := true
          kernarg_pool_size_graph_ := size }
        (cw.emit (InstEvent.deviceLocalAlloc size (env.deviceLocalAlloc cw size)))
      refine ⟨setup, evs, env.deviceLocalAlloc cw size, hset, k6, ?_,
        fun hn => absurd hk2 hn, ?_, fun h0 => absurd h0 hp⟩
      · intro _
        simp only [if_neg hp]
        refine ⟨?_, k1⟩
        rw [k5]
        simp [InstWorld.emit, h2]
      · simp only [if_neg hp]
        exact k2
  · have hk2 : ¬ ((∀ n ∈ exec.parallelLists_.flatten,
        (w.heap n).type_ = hipGraphNodeType.Kernel) ∧ env.largeBar_ = true) :=
      fun hn => hk ⟨a2.2 hn.1, hn.2⟩
    simp only [if_neg hk]
    by_cases hp : env.hostAlloc cw size = 0
    · refine ⟨setup, [], 0, hset, by simp, fun hn => absurd hn hk2, ?_, ?_, ?_⟩
      · intro _
        simp [hp, InstWorld.emit, h2]
      · simp [hp]
      · intro _
        simp [hp]
    · obtain ⟨k1, k2, _, _, evs, k5, k6⟩ := captureKernels_spec env exec.topoOrder_
        hipError_t.hipSuccess
        { exec with
          currentQueueIndex_ := exec.currentQueueIndex_ + exec.parallelLists_.length
          kernarg_pool_graph_ := env.hostAlloc cw size
          kernarg_pool_size_graph_ := size }
        (cw.emit (InstEvent.hostAlloc size (env.hostAlloc cw size)))
      refine ⟨setup, evs, env.hostAlloc cw size, hset, k6,
        fun hn => absurd hn hk2, ?_, ?_, fun h0 => absurd h0 hp⟩
      · intro _
        simp only [if_neg hp]
        refine ⟨?_, k1⟩
        rw [k5]
        simp [InstWorld.emit, h2]
      · simp only [if_neg hp]
        exact k2

/-- `CaptureAQLPackets` evaluated: three kernel nodes on a large-bar device
take a pool of 48 bytes from device-local memory, the same nodes without large
bar take it from host memory, and with null allocators nothing follows the
allocation. -/
theorem CaptureAQLPackets_eval :
    (threeListExec.CaptureAQLPackets largeBarInstEnv kernelInstWorld).2.2.trace =
      [InstEvent.SetStream 1 50, InstEvent.SetStream 2 51, InstEvent.SetStream 3 52,
        InstEvent.deviceLocalAlloc 48 4096,
        InstEvent.CreateCommand 1 50, InstEvent.EnableCapturing 1 4096,
        InstEvent.CreateCommand 2 51, InstEvent.EnableCapturing 2 4112,
        InstEvent.CreateCommand 3 52, InstEvent.EnableCapturing 3 4128] ∧
    (threeListExec.CaptureAQLPackets largeBarInstEnv kernelInstWorld).2.1.device_kernarg_pool_ =
      true ∧
    (threeListExec.CaptureAQLPackets sampleInstEnv kernelInstWorld).2.2.trace.take 4 =
      [InstEvent.SetStream 1 50, InstEvent.SetStream 2 51, InstEvent.SetStream 3 52,
        InstEvent.hostAlloc 48 8192] ∧
    (threeListExec.CaptureAQLPackets sampleInstEnv kernelInstWorld).2.1.device_kernarg_pool_ =
      false ∧
    (threeListExec.CaptureAQLPackets scarceInstEnv kernelInstWorld).1 =
      hipError_t.hipErrorMemoryAllocation ∧
    (threeListExec.CaptureAQLPackets scarceInstEnv kernelInstWorld).2.2.trace =
      [InstEvent.SetStream 1 50, InstEvent.SetStream 2 51, InstEvent.SetStream 3 52,
        InstEvent.hostAlloc 48 0] := by
  decide


/-! ## Stream requests and the pool -/

theorem CaptureAQLPackets_index (env : InstEnv) (exec : GraphExec) (w : InstWorld) :
    (exec.CaptureAQLPackets env w).2.1.currentQueueIndex_ =
      exec.currentQueueIndex_ + exec.parallelLists_.length ∧
    (exec.CaptureAQLPackets env w).2.1.parallel_streams_ = exec.parallel_streams_ := by
  obtain ⟨h1, _, _⟩ := captureLists_spec env exec.parallelLists_ (0, true) exec w
  simp only [GraphExec.CaptureAQLPackets]
  generalize captureLists env exec.parallelLists_ (0, true) exec w = c at h1 ⊢
  obtain ⟨acc, cexec, cw⟩ := c
  simp only at h1
  subst h1
  split_ifs
  · exact ⟨rfl, rfl⟩
  · obtain ⟨_, _, k3, k4, _⟩ := captureKernels_spec env exec.topoOrder_ hipError_t.hipSuccess
      { exec with
        currentQueueIndex_ := exec.currentQueueIndex_ + exec.parallelLists_.length
        kernarg_pool_graph_ := env.deviceLocalAlloc cw acc.1
        device_kernarg_pool_ := true
        kernarg_pool_size_graph_ := acc.1 }
      (cw.emit (InstEvent.deviceLocalAlloc acc.1 (env.deviceLocalAlloc cw acc.1)))
    exact ⟨k4, k3⟩
  · exact ⟨rfl, rfl⟩
  · obtain ⟨_, _, k3, k4, _⟩ := captureKernels_spec env exec.topoOrder_ hipError_t.hipSuccess
      { exec with
        currentQueueIndex_ := exec.currentQueueIndex_ + exec.parallelLists_.length
        kernarg_pool_graph_ := env.hostAlloc cw acc.1
        kernarg_pool_size_graph_ := acc.1 }
      (cw.emit (InstEvent.hostAlloc acc.1 (env.hostAlloc cw acc.1)))
    exact ⟨k4, k3⟩

/-- What a successful `Init` leaves: the `GraphExec` with as many streams
appended to the pool as the `uint32_t` value of `parallelLists_.size() - 1 +
minStreams`. -/
theorem Init_success (env : InstEnv) (exec : GraphExec) (w : InstWorld)
    (hinit : (exec.Init env w).1 = hipError_t.hipSuccess) :
    ∃ created,
      created.length =
        initNumStreams exec.parallelLists_.length (initLoop env exec.topoOrder_ 1).2 ∧
      (exec.Init env w).2.1 =
        { exec with parallel_streams_ := exec.parallel_streams_ ++ created } := by
  by_cases h1 : (initLoop env exec.topoOrder_ 1).1 = hipError_t.hipSuccess
  · simp only [GraphExec.Init, h1, ne_eq, not_true_eq_false, if_false,
      GraphExec.CreateStreams] at hinit ⊢
    obtain ⟨created, tail, _, i2, _, i4⟩ := createStreamsLoop_spec env
      (initNumStreams exec.parallelLists_.length (initLoop env exec.topoOrder_ 1).2) exec w
    rcases i4 with ⟨_, b, _⟩ | ⟨a, _, _⟩
    · exact ⟨created, b, i2⟩
    · rw [a] at hinit
      cases hinit
  · simp only [GraphExec.Init, ne_eq, h1, not_false_eq_true, if_true] at hinit

/-- C30: let `Init` have succeeded with `minStreams >= 1` (and the stream count
`parallelLists_.size() - 1 + minStreams` within the range of its `uint32_t`
parameter) on a `GraphExec` whose round-robin index is at its start. Then the
pool holds at least `(parallelLists_.size() - 1) + minStreams` streams (stated
without the subtraction: `size + minStreams` is at most the pool's size plus
one);
`UpdateStream`, the stream assignment of a multi-list `Run`, advances the index
by exactly `parallelLists_.size() - 1`, one request per list after the first,
and the streams it hands out are the first that many of the pool; the stream
loop of `CaptureAQLPackets` advances the index by exactly
`parallelLists_.size()` and hands out the first that many of the pool; both
counts are at most the pool's size, so every request reads inside the pool. -/
theorem stream_requests_within_pool (env : InstEnv) (exec : GraphExec) (w : InstWorld)
    (hinit : (exec.Init env w).1 = hipError_t.hipSuccess)
    (hmin : 1 ≤ (initLoop env exec.topoOrder_ 1).2)
    (hrange : exec.parallelLists_.length + (initLoop env exec.topoOrder_ 1).2 ≤ 2 ^ 32)
    (hstart : exec.currentQueueIndex_ = 0) :
    (exec.Init env w).2.1.parallelLists_ = exec.parallelLists_ ∧
    (exec.Init env w).2.1.currentQueueIndex_ = 0 ∧
    exec.parallelLists_.length + (initLoop env exec.topoOrder_ 1).2 ≤
      (exec.Init env w).2.1.parallel_streams_.length + 1 ∧
    exec.parallelLists_.length - 1 ≤ (exec.Init env w).2.1.parallel_streams_.length ∧
    exec.parallelLists_.length ≤ (exec.Init env w).2.1.parallel_streams_.length ∧
    (∀ (hip_stream : Stream) (v : RunWorld),
      (UpdateStream (exec.Init env w).2.1.parallelLists_ hip_stream (exec.Init env w).2.1
        v).1.currentQueueIndex_ = exec.parallelLists_.length - 1 ∧
      (exec.Init env w).2.1.streamPlan hip_stream =
        exec.parallelLists_.zip (hip_stream ::
          (exec.Init env w).2.1.parallel_streams_.take (exec.parallelLists_.length - 1))) ∧
    (∀ (env2 : InstEnv) (v : InstWorld),
      ((exec.Init env w).2.1.CaptureAQLPackets env2 v).2.1.currentQueueIndex_ =
        exec.parallelLists_.length ∧
      (captureLists env2 exec.parallelLists_ (0, true) (exec.Init env w).2.1 v).2.2.trace =
        v.trace ++ (exec.parallelLists_.zip
          ((exec.Init env w).2.1.parallel_streams_.take exec.parallelLists_.length)).flatMap
            (fun p => p.1.map (fun n => InstEvent.SetStream n p.2))) := by
  obtain ⟨created, c1, c2⟩ := Init_success env exec w hinit
  have hnum := initNumStreams_eq exec.parallelLists_.length (initLoop env exec.topoOrder_ 1).2
    (by omega) hrange
  have hlen : (exec.parallel_streams_ ++ created).length =
      exec.parallel_streams_.length + created.length := List.length_append _ _
  rw [c2]
  dsimp only
  have hroom : 0 + exec.parallelLists_.length ≤ (exec.parallel_streams_ ++ created).length := by
    omega
  have hroom1 : 0 + (exec.parallelLists_.length - 1) ≤
      (exec.parallel_streams_ ++ created).length := by
    omega
  refine ⟨rfl, hstart, by omega, by omega, by omega, ?_, ?_⟩
  · intro hip_stream v
    have hu := UpdateStream_eq
      { exec with parallel_streams_ := exec.parallel_streams_ ++ created } hip_stream v
    dsimp only at hu
    refine ⟨?_, ?_⟩
    · rw [hu]
      dsimp only
      omega
    · unfold GraphExec.streamPlan
      dsimp only
      rw [hstart, auxStreams_eq _ _ 0 hroom1]
      rfl
  · intro env2 v
    obtain ⟨k1, _⟩ := CaptureAQLPackets_index env2
      { exec with parallel_streams_ := exec.parallel_streams_ ++ created } v
    obtain ⟨_, k2, _⟩ := captureLists_spec env2 exec.parallelLists_ (0, true)
      { exec with parallel_streams_ := exec.parallel_streams_ ++ created } v
    dsimp only at k1 k2
    refine ⟨?_, ?_⟩
    · rw [k1]
      omega
    · rw [k2, hstart, auxStreams_eq _ _ 0 hroom]
      rfl

/-- Witness of C30: `Init` of `freshExec` in `sampleInstEnv`. -/
theorem stream_requests_within_pool_witness :
    (freshExec.Init sampleInstEnv plainInstWorld).2.1.parallelLists_ =
      freshExec.parallelLists_ ∧
    (freshExec.Init sampleInstEnv plainInstWorld).2.1.currentQueueIndex_ = 0 ∧
    freshExec.parallelLists_.length + (initLoop sampleInstEnv freshExec.topoOrder_ 1).2 ≤
      (freshExec.Init sampleInstEnv plainInstWorld).2.1.parallel_streams_.length + 1 ∧
    freshExec.parallelLists_.length - 1 ≤
      (freshExec.Init sampleInstEnv plainInstWorld).2.1.parallel_streams_.length ∧
    freshExec.parallelLists_.length ≤
      (freshExec.Init sampleInstEnv plainInstWorld).2.1.parallel_streams_.length ∧
    (∀ (hip_stream : Stream) (v : RunWorld),
      (UpdateStream (freshExec.Init sampleInstEnv plainInstWorld).2.1.parallelLists_ hip_stream
        (freshExec.Init sampleInstEnv plainInstWorld).2.1 v).1.currentQueueIndex_ =
          freshExec.parallelLists_.length - 1 ∧
      (freshExec.Init sampleInstEnv plainInstWorld).2.1.streamPlan hip_stream =
        freshExec.parallelLists_.zip (hip_stream ::
          (freshExec.Init sampleInstEnv plainInstWorld).2.1.parallel_streams_.take
            (freshExec.parallelLists_.length - 1))) ∧
    (∀ (env2 : InstEnv) (v : InstWorld),
      ((freshExec.Init sampleInstEnv plainInstWorld).2.1.CaptureAQLPackets env2
        v).2.1.currentQueueIndex_ = freshExec.parallelLists_.length ∧
      (captureLists env2 freshExec.parallelLists_ (0, true)
        (freshExec.Init sampleInstEnv plainInstWorld).2.1 v).2.2.trace =
        v.trace ++ (freshExec.parallelLists_.zip
          ((freshExec.Init sampleInstEnv plainInstWorld).2.1.parallel_streams_.take
            freshExec.parallelLists_.length)).flatMap
            (fun p => p.1.map (fun n => InstEvent.SetStream n p.2))) :=
  stream_requests_within_pool sampleInstEnv freshExec plainInstWorld (by decide) (by decide)
    (by decide) (by decide)


/-! ## Failing instantiation -/

/-- `CaptureAQLPackets` destroys no stream, and when it leaves a null
kernel-argument pool it has returned the memory-allocation status. -/
theorem CaptureAQLPackets_failure (env : InstEnv) (exec : GraphExec) (w : InstWorld) :
    ((exec.CaptureAQLPackets env w).2.1.kernarg_pool_graph_ = 0 →
      (exec.CaptureAQLPackets env w).1 = hipError_t.hipErrorMemoryAllocation) ∧
    ∃ evs, (exec.CaptureAQLPackets env w).2.2.trace = w.trace ++ evs ∧
      ∀ e ∈ evs, ∀ s, e ≠ InstEvent.Destroy s := by
  obtain ⟨_, h2, _⟩ := captureLists_spec env exec.parallelLists_ (0, true) exec w
  have hset : ∀ e ∈ (exec.parallelLists_.zip (auxStreams exec.parallel_streams_
      exec.currentQueueIndex_ exec.parallelLists_.length)).flatMap
        (fun p => p.1.map (fun n => InstEvent.SetStream n p.2)),
      ∀ s, e ≠ InstEvent.Destroy s := by
    intro e he s hcon
    obtain ⟨p, _, hp⟩ := List.mem_flatMap.1 he
    obtain ⟨n, _, hn⟩ := List.mem_map.1 hp
    rw [← hn] at hcon
    cases hcon
  have hker : ∀ (evs : List InstEvent),
      (∀ e ∈ evs, (∃ n q, e = InstEvent.CreateCommand n q) ∨
        ∃ n o, e = InstEvent.EnableCapturing n o) →
      ∀ e ∈ evs, ∀ s, e ≠ InstEvent.Destroy s := by
    intro evs hevs e he s hcon
    rcases hevs e he with ⟨n, q, h⟩ | ⟨n, o, h⟩
    · rw [h] at hcon
      cases hcon
    · rw [h] at hcon
      cases hcon
  simp only [GraphExec.CaptureAQLPackets]
  generalize captureLists env exec.parallelLists_ (0, true) exec w = c at h2 ⊢
  generalize (exec.parallelLists_.zip (auxStreams exec.parallel_streams_
    exec.currentQueueIndex_ exec.parallelLists_.length)).flatMap
      (fun p => p.1.map (fun n => InstEvent.SetStream n p.2)) = setup at h2 hset
  obtain ⟨⟨size, only⟩, cexec, cw⟩ := c
  simp only at h2
  by_cases hk : only = true ∧ env.largeBar_ = true
  · simp only [if_pos hk]
    by_cases hp : env.deviceLocalAlloc cw size = 0
    · simp only [hp, if_true]
      refine ⟨fun _ => trivial, setup ++ [InstEvent.deviceLocalAlloc size 0], ?_, ?_⟩
      · simp only [InstWorld.emit, h2, List.append_assoc]
      · intro e he s
        rcases List.mem_append.1 he with h | h
        · exact hset e h s
        · rw [List.mem_singleton.1 h]
          intro hcon
          cases hcon
    · obtain ⟨_, k2, _, _, evs, k5, k6⟩ := captureKernels_spec env cexec.topoOrder_
        hipError_t.hipSuccess
        { cexec with
          kernarg_pool_graph_ := env.deviceLocalAlloc cw size
          device_kernarg_pool_ := true
          kernarg_pool_size_graph_ := size }
        (cw.emit (InstEvent.deviceLocalAlloc size (env.deviceLocalAlloc cw size)))
      simp only [if_neg hp]
      refine ⟨fun h0 => absurd (k2.symm.trans h0) hp,
        setup ++ [InstEvent.deviceLocalAlloc size (env.deviceLocalAlloc cw size)] ++ evs,
        ?_, ?_⟩
      · rw [k5]
        simp only [InstWorld.emit, h2, List.append_assoc]
      · intro e he s
        rcases List.mem_append.1 he with h | h
        · rcases List.mem_append.1 h with h | h
          · exact hset e h s
          · rw [List.mem_singleton.1 h]
            intro hcon
            cases hcon
        · exact hker evs k6 e h s
  · simp only [if_neg hk]
    by_cases hp : env.hostAlloc cw size = 0
    · simp only [hp, if_true]
      refine ⟨fun _ => trivial, setup ++ [InstEvent.hostAlloc size 0], ?_, ?_⟩
      · simp only [InstWorld.emit, h2, List.append_assoc]
      · intro e he s
        rcases List.mem_append.1 he with h | h
        · exact hset e h s
        · rw [List.mem_singleton.1 h]
          intro hcon
          cases hcon
    · obtain ⟨_, k2, _, _, evs, k5, k6⟩ := captureKernels_spec env cexec.topoOrder_
        hipError_t.hipSuccess
        { cexec with
          kernarg_pool_graph_ := env.hostAlloc cw size
          kernarg_pool_size_graph_ := size }
        (cw.emit (InstEvent.hostAlloc size (env.hostAlloc cw size)))
      simp only [if_neg hp]
      refine ⟨fun h0 => absurd (k2.symm.trans h0) hp,
        setup ++ [InstEvent.hostAlloc size (env.hostAlloc cw size)] ++ evs, ?_, ?_⟩
      · rw [k5]
        simp only [InstWorld.emit, h2, List.append_assoc]
      · intro e he s
        rcases List.mem_append.1 he with h | h
        · rcases List.mem_append.1 h with h | h
          · exact hset e h s
          · rw [List.mem_singleton.1 h]
            intro hcon
            cases hcon
        · exact hker evs k6 e h s

/-- C20 (amended): a failing `CreateStreams` returns the out-of-memory status
after destroying at most the one stream whose `Create` failed; the streams
created before it, fewer than asked for, are all left in `parallel_streams_`.
`CaptureAQLPackets`, when the allocation of the kernel-argument pool returns
null (the pool it leaves is null), returns the memory-allocation
(out-of-memory) status with `parallel_streams_` as it was and without
destroying any stream, whatever streams the `GraphExec` holds. In both cases
the `GraphExec` still holds its streams on return. -/
theorem instantiation_failure_keeps_streams (env : InstEnv) (exec : GraphExec)
    (num_streams : Nat) (w : InstWorld) :
    ((exec.CreateStreams env num_streams w).1 ≠ hipError_t.hipSuccess →
      ∃ created tail, created.length < num_streams ∧ (∀ s ∈ created, s ≠ 0) ∧
        exec.CreateStreams env num_streams w =
          (hipError_t.hipErrorOutOfMemory,
            { exec with parallel_streams_ := exec.parallel_streams_ ++ created },
            { w with
              trace := w.trace ++
                created.flatMap (fun s => [InstEvent.newStream s, InstEvent.Create s true]) ++
                tail }) ∧
        (tail = [InstEvent.newStream 0] ∨
          ∃ s, s ≠ 0 ∧
            tail = [InstEvent.newStream s, InstEvent.Create s false, InstEvent.Destroy s])) ∧
    ((exec.CaptureAQLPackets env w).2.1.kernarg_pool_graph_ = 0 →
      (exec.CaptureAQLPackets env w).1 = hipError_t.hipErrorMemoryAllocation ∧
      (exec.CaptureAQLPackets env w).2.1.parallel_streams_ = exec.parallel_streams_ ∧
      ∃ evs, (exec.CaptureAQLPackets env w).2.2.trace = w.trace ++ evs ∧
        ∀ e ∈ evs, ∀ s, e ≠ InstEvent.Destroy s) := by
  constructor
  · intro hfail
    obtain ⟨created, tail, i1, i2, i3, i4⟩ := createStreamsLoop_spec env num_streams exec w
    rcases i4 with ⟨a, _, _⟩ | ⟨a, b, c⟩
    · exact absurd a hfail
    · refine ⟨created, tail, b, i1, Prod.ext a (Prod.ext i2 i3), ?_⟩
      rcases c with ⟨c, _⟩ | ⟨s, _, hs, _, c⟩
      · exact Or.inl c
      · exact Or.inr ⟨s, hs, c⟩
  · intro hnull
    obtain ⟨f1, f2⟩ := CaptureAQLPackets_failure env exec w
    exact ⟨f1 hnull, (CaptureAQLPackets_index env exec w).2, f2⟩

/-- Witness of C20 (amended): `CreateStreams(3)` of `freshExec` failing on its
second stream in `scarceInstEnv`; and, in `noPoolInstEnv`, where every stream
is created and the pool allocation fails, `CaptureAQLPackets` of the
`GraphExec` that a successful `Init` of `freshExec` has left with three
streams. -/
theorem instantiation_failure_keeps_streams_witness :
    (∃ created tail, created.length < 3 ∧ (∀ s ∈ created, s ≠ 0) ∧
      freshExec.CreateStreams scarceInstEnv 3 plainInstWorld =
        (hipError_t.hipErrorOutOfMemory,
          { freshExec with parallel_streams_ := freshExec.parallel_streams_ ++ created },
          { plainInstWorld with
            trace := plainInstWorld.trace ++
              created.flatMap (fun s => [InstEvent.newStream s, InstEvent.Create s true]) ++
              tail }) ∧
      (tail = [InstEvent.newStream 0] ∨
        ∃ s, s ≠ 0 ∧
          tail = [InstEvent.newStream s, InstEvent.Create s false, InstEvent.Destroy s])) ∧
    ((freshExec.Init noPoolInstEnv plainInstWorld).1 = hipError_t.hipSuccess ∧
      (freshExec.Init noPoolInstEnv plainInstWorld).2.1.parallel_streams_.length = 3) ∧
    (((freshExec.Init noPoolInstEnv plainInstWorld).2.1.CaptureAQLPackets noPoolInstEnv
        (freshExec.Init noPoolInstEnv plainInstWorld).2.2).1 =
        hipError_t.hipErrorMemoryAllocation ∧
      ((freshExec.Init noPoolInstEnv plainInstWorld).2.1.CaptureAQLPackets noPoolInstEnv
        (freshExec.Init noPoolInstEnv plainInstWorld).2.2).2.1.parallel_streams_ =
        (freshExec.Init noPoolInstEnv plainInstWorld).2.1.parallel_streams_ ∧
      ∃ evs, ((freshExec.Init noPoolInstEnv plainInstWorld).2.1.CaptureAQLPackets
          noPoolInstEnv (freshExec.Init noPoolInstEnv plainInstWorld).2.2).2.2.trace =
          (freshExec.Init noPoolInstEnv plainInstWorld).2.2.trace ++ evs ∧
        ∀ e ∈ evs, ∀ s, e ≠ InstEvent.Destroy s) :=
  ⟨(instantiation_failure_keeps_streams scarceInstEnv freshExec 3 plainInstWorld).1
      (by decide),
    ⟨by decide, by decide⟩,
    (instantiation_failure_keeps_streams noPoolInstEnv
      (freshExec.Init noPoolInstEnv plainInstWorld).2.1 0
      (freshExec.Init noPoolInstEnv plainInstWorld).2.2).2 (by decide)⟩


/-! ## `GraphMemcpyNode1D::ValidateParams` -/

/-- `GraphMemcpyNode1D::ValidateParams` when the pre-validation passes and
every address resolves the same way at every call: the device comparisons
compare an allocation with itself, and what is left is the kind check of the
host-to-device and of the device-to-host branch. -/
theorem ValidateParams1D_deterministic (env : MemEnv) (dst src count : Nat)
    (kind : hipMemcpyKind)
    (hpre : env.ihipMemcpy_validate dst src count kind = hipError_t.hipSuccess)
    (hdet : ∀ i j p, env.getMemoryObject i p = env.getMemoryObject j p) :
    GraphMemcpyNode1D.ValidateParams env dst src count kind =
      some (match env.getMemoryObject 0 src, env.getMemoryObject 0 dst with
        | none, some _ =>
          if kind = hipMemcpyKind.hipMemcpyHostToDevice ∨ kind = hipMemcpyKind.hipMemcpyDefault
          then hipError_t.hipSuccess else hipError_t.hipErrorInvalidValue
        | some _, none =>
          if kind = hipMemcpyKind.hipMemcpyDeviceToHost ∨ kind = hipMemcpyKind.hipMemcpyDefault
          then hipError_t.hipSuccess else hipError_t.hipErrorInvalidValue
        | _, _ => hipError_t.hipSuccess) := by
  unfold GraphMemcpyNode1D.ValidateParams
  simp only [hpre, ne_eq, not_true_eq_false, if_false, hdet 1 0, hdet 2 0, hdet 3 0]
  cases hs : env.getMemoryObject 0 src <;> cases hd : env.getMemoryObject 0 dst <;>
    cases kind <;> simp

/-- C22: for a copy that passes the generic pre-validation, whose destination
resolves (at every call) to an allocation and whose source resolves to no
allocation, `GraphMemcpyNode1D::ValidateParams` returns success exactly when
the declared kind is `HostToDevice` or `Default`; for every other kind, in
particular for `DeviceToHost`, it returns the invalid-value error. -/
theorem ValidateParams1D_host_to_device (env : MemEnv) (dst src count : Nat)
    (kind : hipMemcpyKind)
    (hpre : env.ihipMemcpy_validate dst src count kind = hipError_t.hipSuccess)
    (hsrc : ∀ i, env.getMemoryObject i src = none)
    (hdst : ∃ m off, ∀ i, env.getMemoryObject i dst = some (m, off)) :
    (GraphMemcpyNode1D.ValidateParams env dst src count kind = some hipError_t.hipSuccess ↔
      kind = hipMemcpyKind.hipMemcpyHostToDevice ∨ kind = hipMemcpyKind.hipMemcpyDefault) ∧
    (kind ≠ hipMemcpyKind.hipMemcpyHostToDevice → kind ≠ hipMemcpyKind.hipMemcpyDefault →
      GraphMemcpyNode1D.ValidateParams env dst src count kind =
        some hipError_t.hipErrorInvalidValue) ∧
    (kind = hipMemcpyKind.hipMemcpyDeviceToHost →
      GraphMemcpyNode1D.ValidateParams env dst src count kind =
        some hipError_t.hipErrorInvalidValue) := by
  obtain ⟨m, off, hd⟩ := hdst
  unfold GraphMemcpyNode1D.ValidateParams
  simp only [hpre, ne_eq, not_true_eq_false, if_false, hsrc, hd, Option.map_none',
    Option.map_some']
  cases kind <;> simp

/-- Witness of C22: in `sampleMemEnv` the address 100 resolves to nothing and
the address 8192 to an allocation. -/
theorem ValidateParams1D_host_to_device_witness :
    (GraphMemcpyNode1D.ValidateParams sampleMemEnv 8192 100 64
        hipMemcpyKind.hipMemcpyDeviceToHost = some hipError_t.hipSuccess ↔
      hipMemcpyKind.hipMemcpyDeviceToHost = hipMemcpyKind.hipMemcpyHostToDevice ∨
        hipMemcpyKind.hipMemcpyDeviceToHost = hipMemcpyKind.hipMemcpyDefault) ∧
    (hipMemcpyKind.hipMemcpyDeviceToHost ≠ hipMemcpyKind.hipMemcpyHostToDevice →
      hipMemcpyKind.hipMemcpyDeviceToHost ≠ hipMemcpyKind.hipMemcpyDefault →
      GraphMemcpyNode1D.ValidateParams sampleMemEnv 8192 100 64
        hipMemcpyKind.hipMemcpyDeviceToHost = some hipError_t.hipErrorInvalidValue) ∧
    (hipMemcpyKind.hipMemcpyDeviceToHost = hipMemcpyKind.hipMemcpyDeviceToHost →
      GraphMemcpyNode1D.ValidateParams sampleMemEnv 8192 100 64
        hipMemcpyKind.hipMemcpyDeviceToHost = some hipError_t.hipErrorInvalidValue) :=
  ValidateParams1D_host_to_device sampleMemEnv 8192 100 64 hipMemcpyKind.hipMemcpyDeviceToHost
    rfl (fun _ => rfl) ⟨{ device := 1, memFlags := 0 }, 0, fun _ => rfl⟩

/-- C23 as stated fails: in `sampleMemEnv` both 4096 and 12288 resolve to
allocations (on the same device) and neither 100 nor 200 does, yet the
device-to-device copies declared `HostToHost` and `HostToDevice` and the
host-to-host copy declared `DeviceToDevice` are accepted. -/
theorem ValidateParams1D_kind_not_checked :
    (sampleMemEnv.getMemoryObject 0 4096).isSome = true ∧
    (sampleMemEnv.getMemoryObject 0 12288).isSome = true ∧
    (sampleMemEnv.getMemoryObject 0 100).isSome = false ∧
    (sampleMemEnv.getMemoryObject 0 200).isSome = false ∧
    GraphMemcpyNode1D.ValidateParams sampleMemEnv 12288 4096 64
      hipMemcpyKind.hipMemcpyHostToHost = some hipError_t.hipSuccess ∧
    GraphMemcpyNode1D.ValidateParams sampleMemEnv 12288 4096 64
      hipMemcpyKind.hipMemcpyHostToDevice = some hipError_t.hipSuccess ∧
    GraphMemcpyNode1D.ValidateParams sampleMemEnv 200 100 64
      hipMemcpyKind.hipMemcpyDeviceToDevice = some hipError_t.hipSuccess := by
  decide

/-- C23 (amended): for a copy that passes the generic pre-validation and whose
addresses resolve the same way at every call, `GraphMemcpyNode1D::ValidateParams`
checks the declared kind against the resolved locations for two of the four
endpoint pairs only: host to device is accepted exactly for `HostToDevice` and
`Default`, device to host exactly for `DeviceToHost` and `Default`, and every
other kind is rejected with the invalid-value error; device to device (both
resolve) and host to host (neither resolves) are accepted whatever the declared
kind. -/
theorem ValidateParams1D_kinds (env : MemEnv) (dst src count : Nat) (kind : hipMemcpyKind)
    (hpre : env.ihipMemcpy_validate dst src count kind = hipError_t.hipSuccess)
    (hdet : ∀ i j p, env.getMemoryObject i p = env.getMemoryObject j p) :
    (env.getMemoryObject 0 src = none → (env.getMemoryObject 0 dst).isSome = true →
      GraphMemcpyNode1D.ValidateParams env dst src count kind =
        some (if kind = hipMemcpyKind.hipMemcpyHostToDevice ∨
            kind = hipMemcpyKind.hipMemcpyDefault
          then hipError_t.hipSuccess else hipError_t.hipErrorInvalidValue)) ∧
    ((env.getMemoryObject 0 src).isSome = true → env.getMemoryObject 0 dst = none →
      GraphMemcpyNode1D.ValidateParams env dst src count kind =
        some (if kind = hipMemcpyKind.hipMemcpyDeviceToHost ∨
            kind = hipMemcpyKind.hipMemcpyDefault
          then hipError_t.hipSuccess else hipError_t.hipErrorInvalidValue)) ∧
    ((env.getMemoryObject 0 src).isSome = true → (env.getMemoryObject 0 dst).isSome = true →
      GraphMemcpyNode1D.ValidateParams env dst src count kind = some hipError_t.hipSuccess) ∧
    (env.getMemoryObject 0 src = none → env.getMemoryObject 0 dst = none →
      GraphMemcpyNode1D.ValidateParams env dst src count kind = some hipError_t.hipSuccess) := by
  rw [ValidateParams1D_deterministic env dst src count kind hpre hdet]
  cases hs : env.getMemoryObject 0 src <;> cases hd : env.getMemoryObject 0 dst <;> simp

/-- Witness of C23 (amended): a host-to-device copy declared `DeviceToHost` in
`sampleMemEnv`. -/
theorem ValidateParams1D_kinds_witness :
    (sampleMemEnv.getMemoryObject 0 100 = none →
      (sampleMemEnv.getMemoryObject 0 8192).isSome = true →
      GraphMemcpyNode1D.ValidateParams sampleMemEnv 8192 100 64
          hipMemcpyKind.hipMemcpyDeviceToHost =
        some (if hipMemcpyKind.hipMemcpyDeviceToHost = hipMemcpyKind.hipMemcpyHostToDevice ∨
            hipMemcpyKind.hipMemcpyDeviceToHost = hipMemcpyKind.hipMemcpyDefault
          then hipError_t.hipSuccess else hipError_t.hipErrorInvalidValue)) ∧
    ((sampleMemEnv.getMemoryObject 0 100).isSome = true →
      sampleMemEnv.getMemoryObject 0 8192 = none →
      GraphMemcpyNode1D.ValidateParams sampleMemEnv 8192 100 64
          hipMemcpyKind.hipMemcpyDeviceToHost =
        some (if hipMemcpyKind.hipMemcpyDeviceToHost = hipMemcpyKind.hipMemcpyDeviceToHost ∨
            hipMemcpyKind.hipMemcpyDeviceToHost = hipMemcpyKind.hipMemcpyDefault
          then hipError_t.hipSuccess else hipError_t.hipErrorInvalidValue)) ∧
    ((sampleMemEnv.getMemoryObject 0 100).isSome = true →
      (sampleMemEnv.getMemoryObject 0 8192).isSome = true →
      GraphMemcpyNode1D.ValidateParams sampleMemEnv 8192 100 64
        hipMemcpyKind.hipMemcpyDeviceToHost = some hipError_t.hipSuccess) ∧
    (sampleMemEnv.getMemoryObject 0 100 = none → sampleMemEnv.getMemoryObject 0 8192 = none →
      GraphMemcpyNode1D.ValidateParams sampleMemEnv 8192 100 64
        hipMemcpyKind.hipMemcpyDeviceToHost = some hipError_t.hipSuccess) :=
  ValidateParams1D_kinds sampleMemEnv 8192 100 64 hipMemcpyKind.hipMemcpyDeviceToHost rfl
    (fun _ _ _ => rfl)

/-- C24 as stated fails: in `sampleMemEnv` every address resolves the same way
at every call, the source 4096 resolves to an allocation on the device 0 and
the destination 8192 to an allocation on the device 1, and the copy is
accepted, declared `DeviceToDevice` or `Default`. -/
theorem ValidateParams1D_cross_device_accepted :
    (∀ i j a, sampleMemEnv.getMemoryObject i a = sampleMemEnv.getMemoryObject j a) ∧
    sampleMemEnv.getMemoryObject 0 4096 = some ({ device := 0, memFlags := 0 }, 0) ∧
    sampleMemEnv.getMemoryObject 0 8192 = some ({ device := 1, memFlags := 0 }, 0) ∧
    GraphMemcpyNode1D.ValidateParams sampleMemEnv 8192 4096 64
      hipMemcpyKind.hipMemcpyDeviceToDevice = some hipError_t.hipSuccess ∧
    GraphMemcpyNode1D.ValidateParams sampleMemEnv 8192 4096 64
      hipMemcpyKind.hipMemcpyDefault = some hipError_t.hipSuccess ∧
    GraphMemcpyNode1D.ValidateParams sampleMemEnv 8192 4096 64
      hipMemcpyKind.hipMemcpyDeviceToDevice ≠ some hipError_t.hipErrorInvalidValue :=
  ⟨fun _ _ _ => rfl, by decide, by decide, by decide, by decide, by decide⟩

/-- C24 (amended): for a copy that passes the pre-validation and whose source
and destination both resolve to allocations,
`GraphMemcpyNode1D::ValidateParams` compares devices only between the two
resolutions of one and the same pointer (`origDstMemory` with `dstMemory`,
`origSrcMemory` with `srcMemory`): it returns the invalid-value error exactly
when the two resolutions of the destination, or the two resolutions of the
source, are on different devices, and it never compares the device of the
source with the device of the destination. So when every address resolves the
same way at every call it returns success whatever the two devices are:
cross-device copies are accepted. -/
theorem ValidateParams1D_cross_device (env : MemEnv) (dst src count : Nat)
    (kind : hipMemcpyKind) (os od s d : Memory) (o0 o1 o2 o3 : Nat)
    (hpre : env.ihipMemcpy_validate dst src count kind = hipError_t.hipSuccess)
    (h0 : env.getMemoryObject 0 src = some (os, o0))
    (h1 : env.getMemoryObject 1 dst = some (od, o1))
    (h2 : env.getMemoryObject 2 src = some (s, o2))
    (h3 : env.getMemoryObject 3 dst = some (d, o3)) :
    GraphMemcpyNode1D.ValidateParams env dst src count kind =
      some (if od.device ≠ d.device ∨ os.device ≠ s.device
        then hipError_t.hipErrorInvalidValue else hipError_t.hipSuccess) ∧
    ((∀ i j a, env.getMemoryObject i a = env.getMemoryObject j a) →
      GraphMemcpyNode1D.ValidateParams env dst src count kind =
        some hipError_t.hipSuccess) := by
  have key : GraphMemcpyNode1D.ValidateParams env dst src count kind =
      some (if od.device ≠ d.device ∨ os.device ≠ s.device
        then hipError_t.hipErrorInvalidValue else hipError_t.hipSuccess) := by
    unfold GraphMemcpyNode1D.ValidateParams
    simp only [hpre, ne_eq, not_true_eq_false, if_false, h0, h1, h2, h3, Option.map_some']
    by_cases hd : od.device = d.device <;> by_cases hs : os.device = s.device <;>
      simp [hd, hs]
  refine ⟨key, ?_⟩
  intro hdet
  have e1 : os = s := by
    have := (hdet 0 2 src).symm.trans h0
    rw [h2] at this
    simp only [Option.some.injEq, Prod.mk.injEq] at this
    exact this.1.symm
  have e2 : od = d := by
    have := (hdet 1 3 dst).symm.trans h1
    rw [h3] at this
    simp only [Option.some.injEq, Prod.mk.injEq] at this
    exact this.1.symm
  rw [key, e1, e2]
  simp

/-- Witness of C24 (amended): in `sampleMemEnv` the source 4096 is on the
device 0 and the destination 8192 on the device 1. -/
theorem ValidateParams1D_cross_device_witness :
    GraphMemcpyNode1D.ValidateParams sampleMemEnv 8192 4096 64
        hipMemcpyKind.hipMemcpyDeviceToDevice =
      some (if ({ device := 1, memFlags := 0 } : Memory).device ≠
            ({ device := 1, memFlags := 0 } : Memory).device ∨
          ({ device := 0, memFlags := 0 } : Memory).device ≠
            ({ device := 0, memFlags := 0 } : Memory).device
        then hipError_t.hipErrorInvalidValue else hipError_t.hipSuccess) ∧
    ((∀ i j a, sampleMemEnv.getMemoryObject i a = sampleMemEnv.getMemoryObject j a) →
      GraphMemcpyNode1D.ValidateParams sampleMemEnv 8192 4096 64
        hipMemcpyKind.hipMemcpyDeviceToDevice = some hipError_t.hipSuccess) :=
  ValidateParams1D_cross_device sampleMemEnv 8192 4096 64
    hipMemcpyKind.hipMemcpyDeviceToDevice { device := 0, memFlags := 0 }
    { device := 1, memFlags := 0 } { device := 0, memFlags := 0 }
    { device := 1, memFlags := 0 } 0 0 0 0 rfl rfl rfl rfl rfl


/-! ## `GraphMemcpyNode::ValidateParams` -/

theorem unifiedSrc_resolved (env : MemEnv) (q : HIP_MEMCPY3D) :
    (unifiedSrc env q = none →
      resolvedType env 0 2 q.srcMemoryType q.srcHost q.srcDevice = none) ∧
    ∀ s, unifiedSrc env q = some s →
      (∀ q2 : HIP_MEMCPY3D, q2.srcHost = s.2.srcHost →
        resolvedType env 0 2 q.srcMemoryType q.srcHost q.srcDevice =
          some (pinnedSrc env s.1 q2).1) ∧
      s.2.dstMemoryType = q.dstMemoryType ∧ s.2.dstHost = q.dstHost ∧
      s.2.dstDevice = q.dstDevice := by
  unfold unifiedSrc
  by_cases hu : q.srcMemoryType = hipMemoryType.hipMemoryTypeUnified
  · simp only [if_pos hu]
    cases hm : env.getMemoryObject 0 q.srcDevice with
    | none => simp [resolvedType, hu, hm]
    | some mo =>
      obtain ⟨memObj, offset⟩ := mo
      by_cases hf : (CL_MEM_SVM_FINE_GRAIN_BUFFER ||| CL_MEM_USE_HOST_PTR) &&&
          memObj.memFlags ≠ 0
      · simp only [if_pos hf, reduceCtorEq, false_implies, Option.some.injEq, true_and]
        rintro s rfl
        refine ⟨?_, rfl, rfl, rfl⟩
        intro q2 hq2
        simp only at hq2
        simp only [resolvedType, hu, hm, if_pos hf, pinnedSrc, if_true, hq2]
        split_ifs <;> rfl
      · simp only [if_neg hf, reduceCtorEq, false_implies, Option.some.injEq, true_and]
        rintro s rfl
        refine ⟨?_, rfl, rfl, rfl⟩
        intro q2 _
        simp [resolvedType, hu, hm, hf, pinnedSrc]
  · simp only [if_neg hu, reduceCtorEq, false_implies, Option.some.injEq, true_and]
    rintro s rfl
    refine ⟨?_, rfl, rfl, rfl⟩
    intro q2 hq2
    simp only at hq2
    cases ht : q.srcMemoryType <;> simp_all [resolvedType, pinnedSrc]
    split_ifs <;> rfl

theorem unifiedDst_resolved (env : MemEnv) (q : HIP_MEMCPY3D) :
    (unifiedDst env q = none →
      resolvedType env 1 3 q.dstMemoryType q.dstHost q.dstDevice = none) ∧
    ∀ d, unifiedDst env q = some d →
      (∀ q2 : HIP_MEMCPY3D, q2.dstHost = d.2.dstHost →
        resolvedType env 1 3 q.dstMemoryType q.dstHost q.dstDevice =
          some (pinnedDst env d.1 q2).1) ∧
      d.2.srcHost = q.srcHost := by
  unfold unifiedDst
  by_cases hu : q.dstMemoryType = hipMemoryType.hipMemoryTypeUnified
  · simp only [if_pos hu]
    cases hm : env.getMemoryObject 1 q.dstDevice with
    | none => simp [resolvedType, hu, hm]
    | some mo =>
      obtain ⟨memObj, offset⟩ := mo
      by_cases hf : (CL_MEM_SVM_FINE_GRAIN_BUFFER ||| CL_MEM_USE_HOST_PTR) &&&
          memObj.memFlags ≠ 0
      · simp only [if_pos hf, reduceCtorEq, false_implies, Option.some.injEq, true_and]
        rintro d rfl
        refine ⟨?_, rfl⟩
        intro q2 hq2
        simp only at hq2
        simp only [resolvedType, hu, hm, if_pos hf, pinnedDst, if_true, hq2]
        split_ifs <;> rfl
      · simp only [if_neg hf, reduceCtorEq, false_implies, Option.some.injEq, true_and]
        rintro d rfl
        refine ⟨?_, rfl⟩
        intro q2 _
        simp [resolvedType, hu, hm, hf, pinnedDst]
  · simp only [if_neg hu, reduceCtorEq, false_implies, Option.some.injEq, true_and]
    rintro d rfl
    refine ⟨?_, rfl⟩
    intro q2 hq2
    simp only at hq2
    cases ht : q.dstMemoryType <;> simp_all [resolvedType, pinnedDst]
    split_ifs <;> rfl

theorem pinnedSrc_dstHost (env : MemEnv) (t : hipMemoryType) (q : HIP_MEMCPY3D) :
    (pinnedSrc env t q).2.dstHost = q.dstHost := by
  unfold pinnedSrc
  split_ifs <;> rfl

/-- `GraphMemcpyNode::ValidateParams` after a successful pre-validation is the
dispatch on the two resolved types. -/
theorem ValidateParams3D_resolved (env : MemEnv) (p : Nat)
    (hpre : env.ihipMemcpy3D_validate p = hipError_t.hipSuccess) (s d : hipMemoryType)
    (hs : resolvedType env 0 2 (env.getDrvMemcpy3DDesc p).srcMemoryType
      (env.getDrvMemcpy3DDesc p).srcHost (env.getDrvMemcpy3DDesc p).srcDevice = some s)
    (hd : resolvedType env 1 3 (env.getDrvMemcpy3DDesc p).dstMemoryType
      (env.getDrvMemcpy3DDesc p).dstHost (env.getDrvMemcpy3DDesc p).dstDevice = some d) :
    ∃ q, GraphMemcpyNode.ValidateParams env p = some (GraphMemcpyNode.dispatch env s d q) := by
  unfold GraphMemcpyNode.ValidateParams
  simp only [hpre, ne_eq, not_true_eq_false, if_false]
  obtain ⟨a1, a2⟩ := unifiedSrc_resolved env (env.getDrvMemcpy3DDesc p)
  cases hus : unifiedSrc env (env.getDrvMemcpy3DDesc p) with
  | none => rw [a1 hus] at hs; cases hs
  | some us =>
    obtain ⟨a3, a4, a5, a6⟩ := a2 us hus
    obtain ⟨b1, b2⟩ := unifiedDst_resolved env us.2
    rw [a4, a5, a6] at b1 b2
    cases hud : unifiedDst env us.2 with
    | none => rw [b1 hud] at hd; cases hd
    | some ud =>
      obtain ⟨b3, b4⟩ := b2 ud hud
      have e1 := a3 ud.2 b4
      have e2 := b3 (pinnedSrc env us.1 ud.2).2 (pinnedSrc_dstHost env us.1 ud.2)
      rw [hs] at e1
      rw [hd] at e2
      simp only [Option.some.injEq] at e1 e2
      subst e1 e2
      exact ⟨(pinnedDst env ud.1 (pinnedSrc env us.1 ud.2).2).2, by simp only [hud]⟩


theorem validated_eq (env : MemEnv) (c : CopyValidator) :
    validated env c = (env.validate c, [c]) := by
  unfold validated
  split_ifs with h
  · rfl
  · simp only [ne_eq, not_not] at h
    rw [h]

/-- C25 as stated fails: in `unifiedMemEnv` the source is Unified and the flags
of its allocation contain use-host-pointer, the destination is device memory,
yet the validator that is called is the device-to-device one, with the Unified
address as its device pointer, not the host-to-device one: the host-typed
source is turned into a device-typed one because its address resolves to an
allocation. -/
theorem ValidateParams3D_unified_host :
    (unifiedMemEnv.getDrvMemcpy3DDesc 1).srcMemoryType = hipMemoryType.hipMemoryTypeUnified ∧
    (unifiedMemEnv.getDrvMemcpy3DDesc 1).dstMemoryType = hipMemoryType.hipMemoryTypeDevice ∧
    unifiedMemEnv.getMemoryObject 0 (unifiedMemEnv.getDrvMemcpy3DDesc 1).srcDevice =
      some ({ device := 0, memFlags := 8 }, 0) ∧
    (CL_MEM_SVM_FINE_GRAIN_BUFFER ||| CL_MEM_USE_HOST_PTR) &&& 8 ≠ 0 ∧
    GraphMemcpyNode.ValidateParams unifiedMemEnv 1 =
      some (hipError_t.hipSuccess,
        [CopyValidator.DtoD 4096 8192 (0, 0, 0) (0, 0, 0) (64, 1, 1) 64 64 64 64]) := by
  decide

/-- C25 (amended): after a successful pre-validation
`GraphMemcpyNode::ValidateParams` validates the pair of resolved types, where
an endpoint resolves in two steps: a Unified endpoint is typed by its
allocation's flags, Host when they contain fine-grain-SVM or use-host-pointer
and Device otherwise, and then every host-typed endpoint, nominal or Unified,
whose address resolves to an allocation becomes Device; so, with an address
resolution that gives the same answer at every call, a Unified endpoint always
ends as Device. The resolved pair alone selects the validator: for each pair of
Host, Device and Array other than Host to Host exactly the validator of that
pair is called and its status returned; Host to Host is rejected with the
invalid-value error without any validator being called. -/
theorem ValidateParams3D_pairs (env : MemEnv) (p : Nat)
    (hpre : env.ihipMemcpy3D_validate p = hipError_t.hipSuccess) (s d : hipMemoryType)
    (hs : resolvedType env 0 2 (env.getDrvMemcpy3DDesc p).srcMemoryType
      (env.getDrvMemcpy3DDesc p).srcHost (env.getDrvMemcpy3DDesc p).srcDevice = some s)
    (hd : resolvedType env 1 3 (env.getDrvMemcpy3DDesc p).dstMemoryType
      (env.getDrvMemcpy3DDesc p).dstHost (env.getDrvMemcpy3DDesc p).dstDevice = some d) :
    (∃ st calls, GraphMemcpyNode.ValidateParams env p = some (st, calls) ∧
      (s = hipMemoryType.hipMemoryTypeHost → d = hipMemoryType.hipMemoryTypeHost →
        st = hipError_t.hipErrorInvalidValue ∧ calls = []) ∧
      ((s = hipMemoryType.hipMemoryTypeHost ∨ s = hipMemoryType.hipMemoryTypeDevice ∨
          s = hipMemoryType.hipMemoryTypeArray) →
        (d = hipMemoryType.hipMemoryTypeHost ∨ d = hipMemoryType.hipMemoryTypeDevice ∨
          d = hipMemoryType.hipMemoryTypeArray) →
        ¬ (s = hipMemoryType.hipMemoryTypeHost ∧ d = hipMemoryType.hipMemoryTypeHost) →
        ∃ c, calls = [c] ∧ c.pair = (s, d) ∧ st = env.validate c)) ∧
    ((∀ i j a, env.getMemoryObject i a = env.getMemoryObject j a) →
      ((env.getDrvMemcpy3DDesc p).srcMemoryType = hipMemoryType.hipMemoryTypeUnified →
        s = hipMemoryType.hipMemoryTypeDevice) ∧
      ((env.getDrvMemcpy3DDesc p).dstMemoryType = hipMemoryType.hipMemoryTypeUnified →
        d = hipMemoryType.hipMemoryTypeDevice)) := by
  constructor
  · obtain ⟨q, hq⟩ := ValidateParams3D_resolved env p hpre s d hs hd
    refine ⟨(GraphMemcpyNode.dispatch env s d q).1, (GraphMemcpyNode.dispatch env s d q).2,
      hq, ?_, ?_⟩
    · rintro rfl rfl
      simp [GraphMemcpyNode.dispatch]
    · intro hs3 hd3 hnot
      rcases hs3 with rfl | rfl | rfl <;> rcases hd3 with rfl | rfl | rfl <;>
        first
        | (simp [GraphMemcpyNode.dispatch, validated_eq, CopyValidator.pair]; done)
        | exact absurd (And.intro rfl rfl) hnot
  · intro hdet
    constructor
    · intro hu
      rw [hu] at hs
      simp only [resolvedType] at hs
      cases hm : env.getMemoryObject 0 (env.getDrvMemcpy3DDesc p).srcDevice with
      | none => rw [hm] at hs; cases hs
      | some mo =>
        rw [hm] at hs
        simp only [hdet 2 0, hm, Option.isSome_some, if_true, ite_self, Option.some.injEq] at hs
        exact hs.symm
    · intro hu
      rw [hu] at hd
      simp only [resolvedType] at hd
      cases hm : env.getMemoryObject 1 (env.getDrvMemcpy3DDesc p).dstDevice with
      | none => rw [hm] at hd; cases hd
      | some mo =>
        rw [hm] at hd
        simp only [hdet 3 1, hm, Option.isSome_some, if_true, ite_self, Option.some.injEq] at hd
        exact hd.symm

/-- Witness of C25 (amended): the device-to-device descriptor of
`sampleMemEnv`. -/
theorem ValidateParams3D_pairs_witness :
    (∃ st calls, GraphMemcpyNode.ValidateParams sampleMemEnv 1 = some (st, calls) ∧
      (hipMemoryType.hipMemoryTypeDevice = hipMemoryType.hipMemoryTypeHost →
        hipMemoryType.hipMemoryTypeDevice = hipMemoryType.hipMemoryTypeHost →
        st = hipError_t.hipErrorInvalidValue ∧ calls = []) ∧
      ((hipMemoryType.hipMemoryTypeDevice = hipMemoryType.hipMemoryTypeHost ∨
          hipMemoryType.hipMemoryTypeDevice = hipMemoryType.hipMemoryTypeDevice ∨
          hipMemoryType.hipMemoryTypeDevice = hipMemoryType.hipMemoryTypeArray) →
        (hipMemoryType.hipMemoryTypeDevice = hipMemoryType.hipMemoryTypeHost ∨
          hipMemoryType.hipMemoryTypeDevice = hipMemoryType.hipMemoryTypeDevice ∨
          hipMemoryType.hipMemoryTypeDevice = hipMemoryType.hipMemoryTypeArray) →
        ¬ (hipMemoryType.hipMemoryTypeDevice = hipMemoryType.hipMemoryTypeHost ∧
          hipMemoryType.hipMemoryTypeDevice = hipMemoryType.hipMemoryTypeHost) →
        ∃ c, calls = [c] ∧
          c.pair = (hipMemoryType.hipMemoryTypeDevice, hipMemoryType.hipMemoryTypeDevice) ∧
          st = sampleMemEnv.validate c)) ∧
    ((∀ i j a, sampleMemEnv.getMemoryObject i a = sampleMemEnv.getMemoryObject j a) →
      ((sampleMemEnv.getDrvMemcpy3DDesc 1).srcMemoryType =
          hipMemoryType.hipMemoryTypeUnified →
        hipMemoryType.hipMemoryTypeDevice = hipMemoryType.hipMemoryTypeDevice) ∧
      ((sampleMemEnv.getDrvMemcpy3DDesc 1).dstMemoryType =
          hipMemoryType.hipMemoryTypeUnified →
        hipMemoryType.hipMemoryTypeDevice = hipMemoryType.hipMemoryTypeDevice)) :=
  ValidateParams3D_pairs sampleMemEnv 1 rfl hipMemoryType.hipMemoryTypeDevice
    hipMemoryType.hipMemoryTypeDevice rfl rfl

theorem isPath_concat (h : NodeHeap) (l : List Node) (v a : Node) (hl : IsPath h l)
    (hlast : ∀ x ∈ l.getLast?, x = v) (ha : a ∈ (h v).edges_) : IsPath h (l ++ [a]) := by
  unfold IsPath at hl ⊢
  refine List.Chain'.append hl (List.chain'_singleton a) ?_
  intro x hx y hy
  rw [hlast x hx]
  simp only [List.head?_cons, Option.mem_def, Option.some.injEq] at hy
  rw [← hy]
  exact ha

theorem depsSound_push (h : NodeHeap) (dependencies : DepMap) (adjNode v : Node)
    (hd : DepsSound h dependencies) (ha : adjNode ∈ (h v).edges_) :
    DepsSound h (pushDependency dependencies adjNode v) := by
  intro w u hu
  unfold pushDependency at hu
  by_cases hw : w = adjNode
  · subst hw
    rw [Function.update_same] at hu
    simp only [Option.getD_some, List.mem_append, List.mem_singleton] at hu
    rcases hu with hu | rfl
    · exact hd w u hu
    · exact ha
  · rw [Function.update_noteq hw] at hu
    exact hd w u hu

theorem seen_push (visited : Node → Bool) (dependencies : DepMap) (adjNode v : Node)
    (hs : ∀ w u, u ∈ (dependencies w).getD [] → visited u = true) (hv : visited v = true) :
    ∀ w u, u ∈ ((pushDependency dependencies adjNode v) w).getD [] → visited u = true := by
  intro w u hu
  unfold pushDependency at hu
  by_cases hw : w = adjNode
  · subst hw
    rw [Function.update_same] at hu
    simp only [Option.getD_some, List.mem_append, List.mem_singleton] at hu
    rcases hu with hu | rfl
    · exact hs w u hu
    · exact hv
  · rw [Function.update_noteq hw] at hu
    exact hs w u hu

theorem mergeLists_path (h : NodeHeap) (adjNode : Node) (lists : List (List Node)) :
    ∀ (singleList : List Node), IsPath h singleList →
      (∀ x ∈ singleList.getLast?, adjNode ∈ (h x).edges_) →
      (∀ l ∈ lists, IsPath h l) →
      (∀ l ∈ (mergeLists adjNode lists singleList).1, IsPath h l) ∧
      ((mergeLists adjNode lists singleList).2 = [] ∨
        (mergeLists adjNode lists singleList).2 = singleList) := by
  induction lists with
  | nil => intro sl _ _ _; exact ⟨by simp [mergeLists], Or.inr rfl⟩
  | cons list rest ih =>
    intro sl hsl hlast hlists
    have hrest : ∀ l ∈ rest, IsPath h l := fun l hl => hlists l (List.mem_cons_of_mem _ hl)
    have hlist : IsPath h list := hlists list (List.mem_cons_self _ _)
    by_cases hhead : list.head? = some adjNode
    · obtain ⟨i1, i2⟩ := ih [] List.chain'_nil (by simp) hrest
      simp only [mergeLists, if_pos hhead]
      refine ⟨?_, ?_⟩
      · intro l hl
        rcases List.mem_cons.1 hl with rfl | hl
        · refine List.Chain'.append hsl hlist ?_
          intro x hx y hy
          rw [hhead] at hy
          simp only [Option.mem_def, Option.some.injEq] at hy
          rw [← hy]
          exact hlast x hx
        · exact i1 l hl
      · rcases i2 with e | e
        · exact Or.inl e
        · exact Or.inl e
    · obtain ⟨i1, i2⟩ := ih sl hsl hlast hrest
      simp only [mergeLists, if_neg hhead]
      refine ⟨?_, i2⟩
      intro l hl
      rcases List.mem_cons.1 hl with rfl | hl
      · exact hlist
      · exact i1 l hl

theorem runEdges_path (h : NodeHeap) (util : Node → RunState → Option RunState)
    (hutil : PathSpec h util) (v : Node) (edges : List Node) :
    (∀ a ∈ edges, a ∈ (h v).edges_) →
    ∀ (s s1 : RunState), runEdges util v edges s = some s1 → PathInv h s →
      IsPath h s.singleList → (∀ x ∈ s.singleList.getLast?, x = v) → s.visited v = true →
      PathInv h s1 ∧ IsPath h s1.singleList ∧ (∀ x ∈ s1.singleList.getLast?, x = v) ∧
        ∀ x, s.visited x = true → s1.visited x = true := by
  induction edges with
  | nil =>
    intro _ s s1 hrun hinv hp hl _
    simp only [runEdges, Option.some.injEq] at hrun
    subst hrun
    exact ⟨hinv, hp, hl, fun _ hx => hx⟩
  | cons adjNode rest ih =>
    intro hsub s s1 hrun hinv hp hl hv
    have hadj : adjNode ∈ (h v).edges_ := hsub adjNode (List.mem_cons_self _ _)
    have hsub2 : ∀ a ∈ rest, a ∈ (h v).edges_ := fun a ha => hsub a (List.mem_cons_of_mem _ ha)
    by_cases hvis : s.visited adjNode = false
    · simp only [runEdges, if_pos hvis] at hrun
      have hinv1 : PathInv h (if s.singleList = [] then
          { s with dependencies := pushDependency s.dependencies adjNode v } else s) := by
        split_ifs
        · exact ⟨hinv.paths, depsSound_push h _ _ _ hinv.deps hadj,
            seen_push s.visited _ _ _ hinv.seen hv⟩
        · exact hinv
      have hsl1 : (if s.singleList = [] then
          ({ s with dependencies := pushDependency s.dependencies adjNode v } : RunState)
          else s).singleList = s.singleList := by
        split_ifs <;> rfl
      have hvis1 : (if s.singleList = [] then
          ({ s with dependencies := pushDependency s.dependencies adjNode v } : RunState)
          else s).visited = s.visited := by
        split_ifs <;> rfl
      cases hu : util adjNode (if s.singleList = [] then
          { s with dependencies := pushDependency s.dependencies adjNode v } else s) with
      | none => rw [hu] at hrun; cases hrun
      | some s2 =>
        rw [hu] at hrun
        obtain ⟨k1, k2, k3⟩ := hutil adjNode _ s2 hu hinv1
          (by rw [hsl1]; exact isPath_concat h _ v adjNode hp hl hadj)
        rw [hvis1] at k3
        obtain ⟨r1, r2, r3, r4⟩ := ih hsub2 s2 s1 hrun k1 (by rw [k2]; exact List.chain'_nil)
          (by rw [k2]; simp) (k3 v hv)
        exact ⟨r1, r2, r3, fun x hx => r4 x (k3 x hx)⟩
    · simp only [runEdges, if_neg hvis] at hrun
      obtain ⟨m1, m2⟩ := mergeLists_path h adjNode s.parallelLists s.singleList hp
        (fun x hx => by rw [hl x hx]; exact hadj) hinv.paths
      have hp2 : IsPath h (mergeLists adjNode s.parallelLists s.singleList).2 := by
        rcases m2 with e | e
        · rw [e]; exact List.chain'_nil
        · rw [e]; exact hp
      have hl2 : ∀ x ∈ (mergeLists adjNode s.parallelLists s.singleList).2.getLast?, x = v := by
        rcases m2 with e | e
        · rw [e]; simp
        · rw [e]; exact hl
      have key := ih hsub2 _ s1 hrun
      obtain ⟨r1, r2, r3, r4⟩ := key
        (by
          split_ifs
          · exact ⟨m1, depsSound_push h _ _ _ hinv.deps hadj,
              seen_push s.visited _ _ _ hinv.seen hv⟩
          · exact ⟨m1, hinv.deps, hinv.seen⟩)
        (by split_ifs <;> exact hp2) (by split_ifs <;> exact hl2) (by split_ifs <;> exact hv)
      exact ⟨r1, r2, r3, fun x hx => r4 x (by split_ifs <;> exact hx)⟩

theorem GetRunListUtil_path (h : NodeHeap) :
    ∀ (fuel : Nat), PathSpec h (Graph.GetRunListUtil h fuel) := by
  intro fuel
  induction fuel with
  | zero =>
    intro v s s1 hrun
    simp [Graph.GetRunListUtil] at hrun
  | succ fuel ih =>
    intro v s s1 hrun hinv hp
    simp only [Graph.GetRunListUtil] at hrun
    cases hr : runEdges (Graph.GetRunListUtil h fuel) v (h v).edges_
        { s with visited := Function.update s.visited v true
                 singleList := s.singleList ++ [v] } with
    | none => rw [hr] at hrun; cases hrun
    | some s2 =>
      rw [hr] at hrun
      simp only [Option.some.injEq] at hrun
      have hup : ∀ x, s.visited x = true → Function.update s.visited v true x = true := by
        intro x hx
        by_cases hxv : x = v
        · rw [hxv, Function.update_same]
        · rw [Function.update_noteq hxv]; exact hx
      obtain ⟨k1, k2, _, k4⟩ := runEdges_path h _ ih v (h v).edges_ (fun a ha => ha) _ s2 hr
        ⟨hinv.paths, hinv.deps, fun w u hu => hup u (hinv.seen w u hu)⟩ hp (by simp)
        (by simp)
      have hmono : ∀ x, s.visited x = true → s2.visited x = true :=
        fun x hx => k4 x (hup x hx)
      subst hrun
      split_ifs with hne
      · refine ⟨⟨?_, k1.deps, k1.seen⟩, rfl, hmono⟩
        intro l hl
        rcases List.mem_append.1 hl with hl | hl
        · exact k1.paths l hl
        · rw [List.mem_singleton.1 hl]
          exact k2
      · exact ⟨k1, by simpa using hne, hmono⟩

theorem runListLoop_path
    (childRunList : Node → List (List Node) × DepMap → List (List Node) × DepMap)
    (h : NodeHeap) (fuel : Nat) (nodes : List Node) :
    (∀ v ∈ nodes, (h v).type_ ≠ hipGraphNodeType.Graph) →
    ∀ (s s1 : RunState), runListLoop childRunList h fuel nodes s = some s1 → PathInv h s →
      s.singleList = [] → PathInv h s1 ∧ s1.singleList = [] := by
  induction nodes with
  | nil =>
    intro _ s s1 hrun hinv hsl
    simp only [runListLoop, Option.some.injEq] at hrun
    subst hrun
    exact ⟨hinv, hsl⟩
  | cons node rest ih =>
    intro hty s s1 hrun hinv hsl
    have hnode : (h node).type_ ≠ hipGraphNodeType.Graph := hty node (List.mem_cons_self _ _)
    have hrest : ∀ v ∈ rest, (h v).type_ ≠ hipGraphNodeType.Graph :=
      fun v hv => hty v (List.mem_cons_of_mem _ hv)
    have hs : ({ s with
        parallelLists :=
          (nodeGetRunList childRunList h node (s.parallelLists, s.dependencies)).1
        dependencies :=
          (nodeGetRunList childRunList h node (s.parallelLists, s.dependencies)).2 } :
        RunState) = s := by
      simp [nodeGetRunList, hnode]
    simp only [runListLoop, hs] at hrun
    by_cases hvis : s.visited node = false
    · simp only [if_pos hvis] at hrun
      cases hu : Graph.GetRunListUtil h fuel node s with
      | none => rw [hu] at hrun; cases hrun
      | some s2 =>
        rw [hu] at hrun
        obtain ⟨k1, k2, _⟩ := GetRunListUtil_path h fuel node s s2 hu hinv
          (by rw [hsl]; exact List.chain'_singleton node)
        exact ih hrest s2 s1 hrun k1 k2
    · simp only [if_neg hvis] at hrun
      exact ih hrest s s1 hrun hinv hsl

/-- Whatever `GetRunList` returns from empty outputs on a graph without
sub-graph nodes: every parallel list is a path of the graph and every recorded
dependency is an edge. -/
theorem GetRunList_path
    (childRunList : Node → List (List Node) × DepMap → List (List Node) × DepMap)
    (h : NodeHeap) (g : Graph)
    (hty : ∀ v ∈ g.vertices_, (h v).type_ ≠ hipGraphNodeType.Graph)
    (fuel : Nat) (lists : List (List Node)) (deps : DepMap)
    (hrun : g.GetRunList childRunList h [] (fun _ => none) fuel = some (lists, deps)) :
    (∀ l ∈ lists, IsPath h l) ∧ DepsSound h deps := by
  unfold Graph.GetRunList at hrun
  cases hl : runListLoop childRunList h fuel g.vertices_
      { visited := fun _ => false, singleList := [], parallelLists := [],
        dependencies := fun _ => none } with
  | none => rw [hl] at hrun; cases hrun
  | some s1 =>
    rw [hl] at hrun
    simp only [Option.some.injEq, Prod.mk.injEq] at hrun
    obtain ⟨k1, _⟩ := runListLoop_path childRunList h fuel g.vertices_ hty _ s1 hl
      ⟨by simp, by intro w v hv; simp at hv, by intro w v hv; simp at hv⟩ rfl
    rw [← hrun.1, ← hrun.2]
    exact ⟨k1.paths, k1.deps⟩


/-- With enough fuel and edges that stay inside the graph `GetRunList` returns;
its lists hold vertices only and are paths, and the recorded dependencies are
edges whose sources are vertices. -/
theorem GetRunList_sound
    (childRunList : Node → List (List Node) × DepMap → List (List Node) × DepMap)
    (h : NodeHeap) (g : Graph) (he : g.EdgesInside h)
    (hty : ∀ v ∈ g.vertices_, (h v).type_ ≠ hipGraphNodeType.Graph)
    (fuel : Nat) (hfuel : g.vertices_.length ≤ fuel) :
    ∃ lists deps, g.GetRunList childRunList h [] (fun _ => none) fuel = some (lists, deps) ∧
      (∀ l ∈ lists, ∀ x ∈ l, x ∈ g.vertices_) ∧ (∀ l ∈ lists, IsPath h l) ∧
      DepsSound h deps ∧ ∀ w v, v ∈ (deps w).getD [] → v ∈ g.vertices_ := by
  have hs0 : RunInv g.vertices_
      { visited := fun _ => false, singleList := [], parallelLists := [],
        dependencies := fun _ => none } :=
    ⟨by simp, by simp, by simp, by simp⟩
  obtain ⟨s1, hrun, hs1, hsl1, _, _⟩ := runListLoop_spec childRunList h g.vertices_ he fuel
    hfuel g.vertices_ (fun _ hx => hx) hty _ hs0 rfl
  obtain ⟨k1, _⟩ := runListLoop_path childRunList h fuel g.vertices_ hty _ s1 hrun
    ⟨by simp, by intro w v hv; simp at hv, by intro w v hv; simp at hv⟩ rfl
  refine ⟨s1.parallelLists, s1.dependencies, by simp [Graph.GetRunList, hrun], ?_, k1.paths,
    k1.deps, fun w v hv => hs1.sub v (k1.seen w v hv)⟩
  intro l hl x hx
  exact hs1.sub x ((hs1.mem x).2 (List.mem_append_right _ (List.mem_flatten.2 ⟨l, hl, hx⟩)))

theorem isPath_consecutive (h : NodeHeap) (l pre post : List Node) (x y : Node)
    (hl : IsPath h l) (e : l = pre ++ x :: y :: post) : y ∈ (h x).edges_ := by
  subst e
  unfold IsPath at hl
  have h2 := (List.chain'_split.1 hl).2
  exact (List.chain'_cons.1 h2).1

/-- Along a path, an earlier entry reaches a later one through the relation `R`
whenever `R` holds on the edges between entries of the path. -/
theorem isPath_transGen (h : NodeHeap) (R : Node → Node → Prop) (mid : List Node) :
    ∀ (l pre post : List Node) (x y : Node), IsPath h l →
      (∀ a ∈ l, ∀ b ∈ l, b ∈ (h a).edges_ → R a b) →
      l = pre ++ x :: (mid ++ y :: post) → Relation.TransGen R x y := by
  induction mid with
  | nil =>
    intro l pre post x y hl hR e
    have hxy := isPath_consecutive h l pre post x y hl (by simpa using e)
    exact Relation.TransGen.single (hR x (by simp [e]) y (by simp [e]) hxy)
  | cons m mid ih =>
    intro l pre post x y hl hR e
    have hxm := isPath_consecutive h l pre (mid ++ y :: post) x m hl (by simpa using e)
    have hrest := ih l (pre ++ [x]) post m y hl hR (by simp [e])
    exact Relation.TransGen.head (hR x (by simp [e]) m (by simp [e]) hxm) hrest

/-- C29: for a graph without sub-graph nodes, whatever `GetRunList` returns from
empty outputs (any fuel): for two consecutive entries `x`, `y` of a resulting
list, `y` is in `x`'s edge list, and an entry reaches every later entry of its
list along edge lists. When the edge lists stay inside the graph and the fuel
covers the vertex count, `GetRunList` does return, an earlier entry `x` of a
list reaches every later entry `y` along edges of the graph, and on an acyclic
graph there is no edge and no path of edges back from `y` to `x`. -/
theorem GetRunList_lists_are_paths
    (childRunList : Node → List (List Node) × DepMap → List (List Node) × DepMap)
    (h : NodeHeap) (g : Graph)
    (hty : ∀ v ∈ g.vertices_, (h v).type_ ≠ hipGraphNodeType.Graph) :
    (∀ fuel lists deps,
      g.GetRunList childRunList h [] (fun _ => none) fuel = some (lists, deps) →
      ∀ l ∈ lists,
        (∀ pre x y post, l = pre ++ x :: y :: post → y ∈ (h x).edges_) ∧
        ∀ pre x mid y post, l = pre ++ x :: (mid ++ y :: post) →
          Relation.TransGen (fun a b => b ∈ (h a).edges_) x y) ∧
    (g.EdgesInside h → ∀ fuel, g.vertices_.length ≤ fuel →
      ∃ lists deps, g.GetRunList childRunList h [] (fun _ => none) fuel = some (lists, deps) ∧
        ∀ l ∈ lists, ∀ pre x mid y post, l = pre ++ x :: (mid ++ y :: post) →
          Relation.TransGen (g.Edge h) x y ∧
          (g.Acyclic h → ¬ g.Edge h y x ∧ ¬ Relation.TransGen (g.Edge h) y x)) := by
  refine ⟨?_, ?_⟩
  · intro fuel lists deps hrun l hl
    have hp := (GetRunList_path childRunList h g hty fuel lists deps hrun).1 l hl
    refine ⟨fun pre x y post e => isPath_consecutive h l pre post x y hp e, ?_⟩
    intro pre x mid y post e
    exact isPath_transGen h _ mid l pre post x y hp (fun _ _ _ _ hab => hab) e
  · intro he fuel hfuel
    obtain ⟨lists, deps, hrun, hV, hp, _, _⟩ :=
      GetRunList_sound childRunList h g he hty fuel hfuel
    refine ⟨lists, deps, hrun, ?_⟩
    intro l hl pre x mid y post e
    have hxy : Relation.TransGen (g.Edge h) x y :=
      isPath_transGen h _ mid l pre post x y (hp l hl)
        (fun a ha b hb hab => ⟨hV l hl a ha, hV l hl b hb, hab⟩) e
    refine ⟨hxy, fun hac => ⟨?_, ?_⟩⟩
    · intro hyx
      exact hac x (Relation.TransGen.tail hxy hyx)
    · intro hyx
      exact hac x (Relation.TransGen.trans hxy hyx)

/-- Witness of C29: the diamond graph. -/
theorem GetRunList_lists_are_paths_witness :
    (∀ fuel lists deps,
      diamondGraph.GetRunList (fun _ out => out) diamondHeap [] (fun _ => none) fuel =
        some (lists, deps) →
      ∀ l ∈ lists,
        (∀ pre x y post, l = pre ++ x :: y :: post → y ∈ (diamondHeap x).edges_) ∧
        ∀ pre x mid y post, l = pre ++ x :: (mid ++ y :: post) →
          Relation.TransGen (fun a b => b ∈ (diamondHeap a).edges_) x y) ∧
    (∃ lists deps, diamondGraph.GetRunList (fun _ out => out) diamondHeap [] (fun _ => none)
          4 = some (lists, deps) ∧
        ∀ l ∈ lists, ∀ pre x mid y post, l = pre ++ x :: (mid ++ y :: post) →
          Relation.TransGen (diamondGraph.Edge diamondHeap) x y ∧
          (diamondGraph.Acyclic diamondHeap → ¬ diamondGraph.Edge diamondHeap y x ∧
            ¬ Relation.TransGen (diamondGraph.Edge diamondHeap) y x)) :=
  ⟨(GetRunList_lists_are_paths (fun _ out => out) diamondHeap diamondGraph (by decide)).1,
    (GetRunList_lists_are_paths (fun _ out => out) diamondHeap diamondGraph (by decide)).2
      (by unfold Graph.EdgesInside; decide) 4 (by decide)⟩


/-- C26 as stated fails: the diamond (`A = 1`, `B = 2`, `C = 3`, `D = 4`) is
acyclic and `GetRunList` produces the list `[A, B, D]` for it; `A` is not the
last node of that list and has two outgoing edges, and `D` is not the first
node of it and has two incoming edges. -/
theorem GetRunList_diamond_fan :
    diamondGraph.Acyclic diamondHeap ∧
    (∀ fuel, ∃ deps,
      diamondGraph.GetRunList (fun _ out => out) diamondHeap [] (fun _ => none) (fuel + 3) =
        some ([[1, 2, 4], [3]], deps)) ∧
    [1, 2, 4].getLast? ≠ some 1 ∧ (diamondHeap 1).GetOutDegree = 2 ∧
    [1, 2, 4].head? ≠ some 4 ∧ (diamondHeap 4).GetInDegree = 2 :=
  ⟨acyclic_of_rank diamondHeap diamondGraph (fun n => n) (by decide),
    fun fuel => ⟨pushDependency (pushDependency (fun _ => none) 3 1) 4 3,
      GetRunList_diamond_eval (fun _ out => out) diamondHeap diamondGraph 1 2 3 4
        (by decide) (by decide) (by decide) (by decide) (by decide) (by decide) rfl (by decide)
        rfl rfl rfl rfl fuel⟩,
    by decide, by decide, by decide, by decide⟩

/-- C26 (amended): for a graph without sub-graph nodes, whatever `GetRunList`
returns from empty outputs, every node of a resulting list except its last has
at least one outgoing edge, the one to its successor in the list. When the edge
lists stay inside the graph and agree with the dependency lists and the fuel
covers the vertex count, `GetRunList` returns and every node of a list except
its first also has at least one incoming edge, the one from its predecessor in
the list. Neither degree need be exactly one. -/
theorem GetRunList_list_degrees
    (childRunList : Node → List (List Node) × DepMap → List (List Node) × DepMap)
    (h : NodeHeap) (g : Graph)
    (hty : ∀ v ∈ g.vertices_, (h v).type_ ≠ hipGraphNodeType.Graph) :
    (∀ fuel lists deps,
      g.GetRunList childRunList h [] (fun _ => none) fuel = some (lists, deps) →
      ∀ l ∈ lists, ∀ pre x y post, l = pre ++ x :: y :: post →
        y ∈ (h x).edges_ ∧ 1 ≤ (h x).GetOutDegree) ∧
    (g.EdgesInside h → g.Consistent h → ∀ fuel, g.vertices_.length ≤ fuel →
      ∃ lists deps, g.GetRunList childRunList h [] (fun _ => none) fuel = some (lists, deps) ∧
        ∀ l ∈ lists, ∀ pre x y post, l = pre ++ x :: y :: post →
          1 ≤ (h x).GetOutDegree ∧ x ∈ (h y).dependencies_ ∧ 1 ≤ (h y).GetInDegree) := by
  refine ⟨?_, ?_⟩
  · intro fuel lists deps hrun l hl pre x y post e
    have hp := (GetRunList_path childRunList h g hty fuel lists deps hrun).1 l hl
    have hxy := isPath_consecutive h l pre post x y hp e
    exact ⟨hxy, List.length_pos_of_mem hxy⟩
  · intro he hc fuel hfuel
    obtain ⟨lists, deps, hrun, hV, hp, _, _⟩ :=
      GetRunList_sound childRunList h g he hty fuel hfuel
    refine ⟨lists, deps, hrun, ?_⟩
    intro l hl pre x y post e
    have hxy := isPath_consecutive h l pre post x y (hp l hl) e
    have hdep : x ∈ (h y).dependencies_ :=
      edge_mem_dependencies h g hc x y ⟨hV l hl x (by simp [e]), hV l hl y (by simp [e]), hxy⟩
    exact ⟨List.length_pos_of_mem hxy, hdep, List.length_pos_of_mem hdep⟩

/-- Witness of C26 (amended): the diamond graph. -/
theorem GetRunList_list_degrees_witness :
    (∀ fuel lists deps,
      diamondGraph.GetRunList (fun _ out => out) diamondHeap [] (fun _ => none) fuel =
        some (lists, deps) →
      ∀ l ∈ lists, ∀ pre x y post, l = pre ++ x :: y :: post →
        y ∈ (diamondHeap x).edges_ ∧ 1 ≤ (diamondHeap x).GetOutDegree) ∧
    (∃ lists deps, diamondGraph.GetRunList (fun _ out => out) diamondHeap [] (fun _ => none)
          4 = some (lists, deps) ∧
        ∀ l ∈ lists, ∀ pre x y post, l = pre ++ x :: y :: post →
          1 ≤ (diamondHeap x).GetOutDegree ∧ x ∈ (diamondHeap y).dependencies_ ∧
          1 ≤ (diamondHeap y).GetInDegree) :=
  ⟨(GetRunList_list_degrees (fun _ out => out) diamondHeap diamondGraph (by decide)).1,
    (GetRunList_list_degrees (fun _ out => out) diamondHeap diamondGraph (by decide)).2
      (by unfold Graph.EdgesInside; decide) (by unfold Graph.Consistent; decide) 4 (by decide)⟩


/-! ## Recorded dependencies, the topological order and `FillCommands` -/

/-- On a well-formed acyclic graph `TopologicalOrder` returns true with a
permutation of the vertices that puts the source of every edge first. -/
theorem TopologicalOrder_sound (h : NodeHeap) (g : Graph) (hnd : g.vertices_.Nodup)
    (hc : g.Consistent h) (he : g.EdgesInside h) (hd : g.DependenciesInside h)
    (ha : g.Acyclic h) (fuel : Nat) (hfuel : g.vertices_.length < fuel) :
    ∃ order, g.TopologicalOrder h [] fuel = some (true, order) ∧
      order.Perm g.vertices_ ∧
      ∀ u ∈ g.vertices_, ∀ v ∈ (h u).edges_, order.indexOf u < order.indexOf v := by
  obtain ⟨s1, hrun, hinv, hord, hq⟩ := topoLoop_final h g hnd hc fuel hfuel
  have hall := topo_all_emitted h g hc hd ha s1 hinv hq
  have hnd1 : s1.TopoOrder.Nodup := (List.nodup_append.1 hinv.nodup).1
  have hperm : s1.TopoOrder.Perm g.vertices_ :=
    (List.perm_ext_iff_of_nodup hnd1 hnd).2
      (fun a => ⟨fun ha1 => hinv.sub a (List.mem_append_left _ ha1), hall a⟩)
  refine ⟨s1.TopoOrder, ?_, hperm, ?_⟩
  · rw [TopologicalOrder_eq h g fuel s1 hrun, hperm.length_eq]
    simp
  · intro u hu v hv
    have hvV := he u hu v hv
    exact (hord v (hall v hvV) u (edge_mem_dependencies h g hc u v ⟨hu, hvV, hv⟩)).2

/-- A node with a smaller index lies in the part of the list before the first
occurrence of the other node. -/
theorem split_before (l : List Node) (v w : Node) (hw : w ∈ l)
    (hlt : l.indexOf v < l.indexOf w) : ∃ pre post, l = pre ++ w :: post ∧ v ∈ pre := by
  induction l with
  | nil => simp at hw
  | cons a t ih =>
    by_cases haw : a = w
    · subst haw
      rw [List.indexOf_cons_self] at hlt
      omega
    · have hwt : w ∈ t := by
        rcases List.mem_cons.1 hw with e | e
        · exact absurd e.symm haw
        · exact e
      by_cases hav : a = v
      · obtain ⟨pre, post, e⟩ := List.append_of_mem hwt
        exact ⟨a :: pre, post, by rw [e]; rfl, by rw [hav]; exact List.mem_cons_self _ _⟩
      · rw [List.indexOf_cons_ne _ hav, List.indexOf_cons_ne _ haw] at hlt
        obtain ⟨pre, post, e, hv⟩ := ih hwt (by omega)
        exact ⟨a :: pre, post, by rw [e]; rfl, List.mem_cons_of_mem _ hv⟩

/-- The first loop of `FillCommands` over `pre ++ rest` is the loop over `pre`
followed, when that did not fail, by the loop over `rest`. -/
theorem fillCreate_append (env : RunEnv) (pre rest : List Node) :
    ∀ (nodeWaitLists : DepMap) (w : RunWorld),
      fillCreate env (pre ++ rest) nodeWaitLists w =
        if (fillCreate env pre nodeWaitLists w).1 ≠ hipError_t.hipSuccess then
          fillCreate env pre nodeWaitLists w
        else fillCreate env rest (fillCreate env pre nodeWaitLists w).2.1
          (fillCreate env pre nodeWaitLists w).2.2 := by
  induction pre with
  | nil => intro nwl w; simp [fillCreate]
  | cons node pre ih =>
    intro nwl w
    by_cases hf : (w.CreateCommand env node).1 = hipError_t.hipSuccess
    · simp only [List.cons_append, fillCreate, hf, ne_eq, not_true_eq_false, if_false]
      exact ih _ _
    · simp only [List.cons_append, fillCreate, hf, ne_eq, not_false_eq_true, if_true]

/-- When the first loop of `FillCommands` gets through `nodes`, every node of
`nodes` has had its `CreateCommand`, the earlier trace is kept, and the entries
of `nodeWaitLists` hold the same nodes as before. -/
theorem fillCreate_created (env : RunEnv) (nodes : List Node) :
    ∀ (nodeWaitLists : DepMap) (w : RunWorld),
      (fillCreate env nodes nodeWaitLists w).1 = hipError_t.hipSuccess →
      (fillCreate env nodes nodeWaitLists w).2.2.queue = w.queue ∧
      (∀ e ∈ w.trace, e ∈ (fillCreate env nodes nodeWaitLists w).2.2.trace) ∧
      (∀ v ∈ nodes, RunEvent.CreateCommand v (w.queue v) ∈
        (fillCreate env nodes nodeWaitLists w).2.2.trace) ∧
      ∀ k, (((fillCreate env nodes nodeWaitLists w).2.1) k).getD [] =
        (nodeWaitLists k).getD [] := by
  induction nodes with
  | nil => intro nwl w _; simp [fillCreate]
  | cons node rest ih =>
    intro nwl w hok
    by_cases hf : (w.CreateCommand env node).1 = hipError_t.hipSuccess
    · simp only [fillCreate, hf, ne_eq, not_true_eq_false, if_false] at hok ⊢
      obtain ⟨i1, i2, i3, i4⟩ := ih _ _ hok
      refine ⟨by rw [i1]; rfl, ?_, ?_, ?_⟩
      · intro e he
        exact i2 e (by simp [RunWorld.emit, RunWorld.CreateCommand, he])
      · intro v hv
        rcases List.mem_cons.1 hv with rfl | hv
        · exact i2 _ (by simp [RunWorld.emit, RunWorld.CreateCommand])
        · exact i3 v hv
      · intro k
        rw [i4 k]
        by_cases hk : k = node
        · subst hk
          rw [Function.update_same]
          rfl
        · rw [Function.update_noteq hk]
    · simp only [fillCreate, hf, ne_eq, not_false_eq_true, if_true] at hok


/-- C28: for a graph without sub-graph nodes, whatever `GetRunList` returns from
empty outputs, every recorded dependency is an edge: `v` in `dependencies[w]`
implies that `w` is in `v`'s edge list. On a well-formed acyclic graph (distinct
vertices, consistent edge and dependency lists that stay inside the graph) and
with enough fuel, `GetRunList` and `TopologicalOrder` both return, and for every
recorded pair `v` comes before `w` in the topological order; so when the first
loop of `FillCommands`, run over that order with the recorded dependencies as
`nodeWaitLists`, reaches `w`, it has got through a prefix of the order that
holds `v`: the event `CreateCommand v` is already on the trace and `v` is still
in `nodeWaitLists[w]`. -/
theorem GetRunList_dependencies_are_edges
    (childRunList : Node → List (List Node) × DepMap → List (List Node) × DepMap)
    (h : NodeHeap) (g : Graph)
    (hty : ∀ v ∈ g.vertices_, (h v).type_ ≠ hipGraphNodeType.Graph) :
    (∀ fuel lists deps,
      g.GetRunList childRunList h [] (fun _ => none) fuel = some (lists, deps) →
      ∀ w v, v ∈ (deps w).getD [] → w ∈ (h v).edges_) ∧
    (g.vertices_.Nodup → g.Consistent h → g.EdgesInside h → g.DependenciesInside h →
      g.Acyclic h → ∀ fuel1 fuel2, g.vertices_.length ≤ fuel1 → g.vertices_.length < fuel2 →
      ∃ lists deps order,
        g.GetRunList childRunList h [] (fun _ => none) fuel1 = some (lists, deps) ∧
        g.TopologicalOrder h [] fuel2 = some (true, order) ∧
        ∀ w v, v ∈ (deps w).getD [] →
          g.Edge h v w ∧ v ∈ order ∧ w ∈ order ∧ order.indexOf v < order.indexOf w ∧
          ∃ pre post, order = pre ++ w :: post ∧ v ∈ pre ∧
            ∀ (env : RunEnv) (u : RunWorld),
              (fillCreate env pre deps u).1 = hipError_t.hipSuccess →
              RunEvent.CreateCommand v (u.queue v) ∈ (fillCreate env pre deps u).2.2.trace ∧
              v ∈ (((fillCreate env pre deps u).2.1) w).getD [] ∧
              fillCreate env order deps u =
                fillCreate env (w :: post) (fillCreate env pre deps u).2.1
                  (fillCreate env pre deps u).2.2) := by
  refine ⟨?_, ?_⟩
  · intro fuel lists deps hrun w v hv
    exact (GetRunList_path childRunList h g hty fuel lists deps hrun).2 w v hv
  · intro hnd hc he hd ha fuel1 fuel2 hf1 hf2
    obtain ⟨lists, deps, hrun, _, _, hsound, hsrc⟩ :=
      GetRunList_sound childRunList h g he hty fuel1 hf1
    obtain ⟨order, htopo, hperm, hidx⟩ := TopologicalOrder_sound h g hnd hc he hd ha fuel2 hf2
    refine ⟨lists, deps, order, hrun, htopo, ?_⟩
    intro w v hv
    have hvV : v ∈ g.vertices_ := hsrc w v hv
    have hvw : w ∈ (h v).edges_ := hsound w v hv
    have hwV : w ∈ g.vertices_ := he v hvV w hvw
    have hwo : w ∈ order := hperm.mem_iff.2 hwV
    have hlt := hidx v hvV w hvw
    obtain ⟨pre, post, e, hpre⟩ := split_before order v w hwo hlt
    refine ⟨⟨hvV, hwV, hvw⟩, hperm.mem_iff.2 hvV, hwo, hlt, pre, post, e, hpre, ?_⟩
    intro env u hok
    obtain ⟨_, _, k3, k4⟩ := fillCreate_created env pre deps u hok
    refine ⟨k3 v hpre, by rw [k4 w]; exact hv, ?_⟩
    rw [e, fillCreate_append env pre (w :: post) deps u, if_neg (by simp [hok])]

/-- Witness of C28: the diamond graph. -/
theorem GetRunList_dependencies_are_edges_witness :
    (∀ fuel lists deps,
      diamondGraph.GetRunList (fun _ out => out) diamondHeap [] (fun _ => none) fuel =
        some (lists, deps) →
      ∀ w v, v ∈ (deps w).getD [] → w ∈ (diamondHeap v).edges_) ∧
    (∃ lists deps order,
        diamondGraph.GetRunList (fun _ out => out) diamondHeap [] (fun _ => none) 4 =
          some (lists, deps) ∧
        diamondGraph.TopologicalOrder diamondHeap [] 5 = some (true, order) ∧
        ∀ w v, v ∈ (deps w).getD [] →
          diamondGraph.Edge diamondHeap v w ∧ v ∈ order ∧ w ∈ order ∧
          order.indexOf v < order.indexOf w ∧
          ∃ pre post, order = pre ++ w :: post ∧ v ∈ pre ∧
            ∀ (env : RunEnv) (u : RunWorld),
              (fillCreate env pre deps u).1 = hipError_t.hipSuccess →
              RunEvent.CreateCommand v (u.queue v) ∈ (fillCreate env pre deps u).2.2.trace ∧
              v ∈ (((fillCreate env pre deps u).2.1) w).getD [] ∧
              fillCreate env order deps u =
                fillCreate env (w :: post) (fillCreate env pre deps u).2.1
                  (fillCreate env pre deps u).2.2) :=
  ⟨(GetRunList_dependencies_are_edges (fun _ out => out) diamondHeap diamondGraph
      (by decide)).1,
    (GetRunList_dependencies_are_edges (fun _ out => out) diamondHeap diamondGraph
      (by decide)).2 (by decide) (by unfold Graph.Consistent; decide)
      (by unfold Graph.EdgesInside; decide) (by unfold Graph.DependenciesInside; decide)
      (acyclic_of_rank diamondHeap diamondGraph (fun n => n) (by decide)) 4 5
      (by decide) (by decide)⟩

end hip
